import Mathlib

/-!
# Julia-set background renderer (`julia-bg.js`)

A shallow embedding of the renderer and proofs about it.

Modelling conventions.

* JavaScript numbers that hold real quantities (times, samples, durations) are
  elements of an arbitrary linearly ordered field `K` with a floor function,
  and arithmetic on them is exact. Instantiating `K := ℚ` gives executable
  definitions, `K := ℝ` gives exact real arithmetic.
* Where a property depends on the rounding of IEEE doubles, the function is given a
  second time, under the name of the first followed by `Fl`, with a rounding function
  applied to the result of every operation; `binary64` is the rounding of IEEE 754
  (section "Rounded arithmetic").
* JavaScript numbers that hold integers (`iterLimit`, `width`, `height`, the
  results of `Math.floor`) are elements of `ℤ`; loop counters that start at `0`
  and are only incremented are elements of `ℕ`.
* The host functions `Math.cos`, `Math.sin`, `Math.sqrt` and the constant
  `Math.PI` are parameters, collected in `Host`.
* A `Uint32Array` is a `List ℕ`; a store outside the bounds is ignored and a
  load outside the bounds yields `0` once stored back into a `Uint32Array`.
* Division is that of the field, with `x / 0 = 0`, where JavaScript gives an infinity
  or `NaN`. In `render` this concerns only a frame with `zoom = 0`, which the ranges of
  the seed exclude.
* A loop `for (i = 0; i < n; i += 1)` without `break` is a left fold over
  `List.range n`; the `while` loop with its `break` is a recursion on a bound of the
  number of passes, with the loop condition tested in every pass.
-/

namespace JuliaBg

/-! ## Constants (`julia-bg.js` lines 14-21) -/

def BASE_TARGET_PIXELS : ℕ := 180000
def MIN_WIDTH : ℤ := 140
def MIN_HEIGHT : ℤ := 100
def BASE_MAX_ITER : ℤ := 88
def MIN_ITER : ℤ := 52
def FRAME_INTERVAL_MS : ℕ := 70
def PALETTE_SIZE : ℕ := 1024

/-! ## Adaptive quality controller (`tuneQuality`, lines 106-112) -/

section Quality

variable {K : Type} [LinearOrderedField K]

/-- The function `tuneQuality(renderMs)`: maps the current `iterLimit` to the new one. -/
def tuneQuality (iterLimit : ℤ) (renderMs : K) : ℤ :=
  if renderMs > 56 ∧ iterLimit > MIN_ITER then
    max MIN_ITER (iterLimit - 2)
  else if renderMs < 30 ∧ iterLimit < BASE_MAX_ITER then
    min BASE_MAX_ITER (iterLimit + 1)
  else
    iterLimit

/-- The value of `iterLimit` after a sequence of `tuneQuality` calls, oldest first. -/
def tuneQualityMany (iterLimit : ℤ) (durations : List K) : ℤ :=
  durations.foldl tuneQuality iterLimit

/-- The values `iterLimit` can take: those obtained from the initial value
`BASE_MAX_ITER` by some finite sequence of `tuneQuality` calls. -/
def ReachableIterLimit (K : Type) [LinearOrderedField K] (n : ℤ) : Prop :=
  ∃ durations : List K, tuneQualityMany BASE_MAX_ITER durations = n

end Quality

/-! ## 32-bit integer operators of JavaScript -/

/-- The abstract operation `ToUint32` on an integral number: the bit pattern. -/
def toUint32 (n : ℤ) : ℕ := (n % 2 ^ 32).toNat

/-- The abstract operation `ToInt32` on an integral number: wrap into `[-2^31, 2^31)`. -/
def toInt32 (n : ℤ) : ℤ :=
  if n % 2 ^ 32 < 2 ^ 31 then n % 2 ^ 32 else n % 2 ^ 32 - 2 ^ 32

/-- The operator `a | b` on integral numbers: bitwise or of the two's-complement
bit patterns, read back as a signed 32-bit integer. -/
def jsOr (a b : ℤ) : ℤ := toInt32 ((toUint32 a ||| toUint32 b : ℕ) : ℤ)

/-- The operator `a << k` on an integral number, for a literal shift count `k`. -/
def jsShl (a : ℤ) (k : ℕ) : ℤ := toInt32 (toInt32 a * 2 ^ (k % 32))

/-- The operator `a >>> 0` on an integral number. -/
def jsUshr0 (a : ℤ) : ℕ := toUint32 a

/-- The function `packRGBA(r, g, b, a)` (lines 66-69). -/
def packRGBA (r g b a : ℤ) : ℕ :=
  jsUshr0 (jsOr (jsOr (jsOr (jsShl a 24) (jsShl b 16)) (jsShl g 8)) r)

/-- The constant `interiorColor` (line 37). -/
def interiorColor : ℕ := packRGBA 8 10 18 255

/-- Byte `k` (0 = lowest) of a packed 32-bit colour. -/
def byteOf (v : ℕ) (k : ℕ) : ℕ := v / 2 ^ (8 * k) % 256

/-- A load `arr[i]` from a `Uint32Array`, as seen after the loaded value is stored
into another `Uint32Array`: an index outside the array gives `undefined`, stored as `0`. -/
def loadU32 (arr : List ℕ) (i : ℤ) : ℕ :=
  if 0 ≤ i then arr.getD i.toNat 0 else 0

section Numeric

variable {K : Type} [LinearOrderedField K] [FloorRing K]

/-- Truncation toward zero of a number, the first step of `ToInt32`. -/
def truncate (x : K) : ℤ := if 0 ≤ x then ⌊x⌋ else ⌈x⌉

/-- The expression `x | 0` on an arbitrary number `x`. -/
def jsOrZero (x : K) : ℤ := jsOr (truncate x) 0

/-! ## Host functions and the seed -/

/-- The functions and constants of `Math` the renderer calls. -/
structure Host (K : Type) where
  PI : K
  cos : K → K
  sin : K → K
  sqrt : K → K

/-- The contract of `Math.cos` used in the proofs: values lie in `[-1, 1]`. -/
def Host.CosBounded (host : Host K) : Prop :=
  ∀ x : K, -1 ≤ host.cos x ∧ host.cos x ≤ 1

/-- The constant `TAU` (line 14). -/
def TAU (host : Host K) : K := host.PI * 2

/-- The record `seed` (lines 42-64). -/
structure Seed (K : Type) where
  baseCr : K
  baseCi : K
  ampCr : K
  ampCi : K
  freqCr : K
  freqCi : K
  phaseCr : K
  phaseCi : K
  zoomBase : K
  zoomAmp : K
  zoomFreq : K
  zoomPhase : K
  panX : K
  panY : K
  panAmpX : K
  panAmpY : K
  panFreqX : K
  panFreqY : K
  panPhaseX : K
  panPhaseY : K
  paletteShift : K

/-- A seed inside the ranges drawn at startup, used in the examples; at time 0 it
gives `c = (0, 0)`, `zoom = 1.6` and the centre `(0, 0)`. -/
def exampleSeed (K : Type) [LinearOrderedField K] : Seed K :=
  { baseCr := 0
    baseCi := -0.1
    ampCr := 0.1
    ampCi := 0.1
    freqCr := 0.1
    freqCi := 0.1
    phaseCr := 0
    phaseCi := 0
    zoomBase := 1.6
    zoomAmp := 0.1
    zoomFreq := 0.1
    zoomPhase := 0
    panX := 0
    panY := -0.05
    panAmpX := 0.02
    panAmpY := 0.05
    panFreqX := 0.05
    panFreqY := 0.05
    panPhaseX := 0
    panPhaseY := 0
    paletteShift := 0.5 }

/-! ## Palette engine (`updatePalette`, lines 71-82) -/

/-- The three channel values `r`, `g`, `b` computed in the body of the loop of
`updatePalette` for slot `i`. -/
def paletteChannels (host : Host K) (seed : Seed K) (seconds : K) (i : ℕ) : ℤ × ℤ × ℤ :=
  let basePhase := seed.paletteShift + seconds * 0.02
  let value := (i : K) / ((PALETTE_SIZE : K) - 1)
  let phase := basePhase + value * 0.7
  let r := ⌊18 + (0.5 + 0.5 * host.cos (TAU host * (phase + 0.0))) * 205⌋
  let g := ⌊16 + (0.5 + 0.5 * host.cos (TAU host * (phase + 0.2))) * 195⌋
  let b := ⌊28 + (0.5 + 0.5 * host.cos (TAU host * (phase + 0.38))) * 210⌋
  (r, g, b)

/-- The value stored in `palette[i]` by the body of the loop of `updatePalette`. -/
def paletteEntry (host : Host K) (seed : Seed K) (seconds : K) (i : ℕ) : ℕ :=
  let c := paletteChannels host seed seconds i
  packRGBA c.1 c.2.1 c.2.2 255

/-- The function `updatePalette(seconds)`: the new contents of `palette`. -/
def updatePalette (host : Host K) (seed : Seed K) (seconds : K) (palette : List ℕ) : List ℕ :=
  (List.range PALETTE_SIZE).foldl
    (fun pal i => pal.set i (paletteEntry host seed seconds i)) palette

/-- The initial `palette`, `new Uint32Array(PALETTE_SIZE)` (line 36). -/
def initialPalette : List ℕ := List.replicate PALETTE_SIZE 0

/-! ## Viewport manager (`resize`, lines 84-94) -/

/-- The variables assigned by `resize`: `width`, `height`, `effectiveTargetPixels`, the
fresh `pixels32`, and the locals `viewportW`, `viewportH` (which become the CSS size of
the canvas) and `scale`. -/
structure Viewport (K : Type) where
  width : ℤ
  height : ℤ
  effectiveTargetPixels : K
  pixels32 : List ℕ
  viewportW : K
  viewportH : K
  scale : K

/-- The function `resize()`, as a function of `window.innerWidth`,
`window.innerHeight` and `window.devicePixelRatio`. A falsy ratio is `0`. -/
def resize (host : Host K) (innerWidth innerHeight devicePixelRatio : K) : Viewport K :=
  let viewportW := max innerWidth 1
  let viewportH := max innerHeight 1
  let dpr := min (if devicePixelRatio = 0 then 1 else devicePixelRatio) 2
  let effectiveTargetPixels := (BASE_TARGET_PIXELS : K) * (if dpr > 1.25 then 0.82 else 1)
  let scale := min 1 (host.sqrt (effectiveTargetPixels / (viewportW * viewportH)))
  let width := max MIN_WIDTH ⌊viewportW * scale⌋
  let height := max MIN_HEIGHT ⌊viewportH * scale⌋
  { width := width
    height := height
    effectiveTargetPixels := effectiveTargetPixels
    pixels32 := List.replicate (width * height).toNat 0
    viewportW := viewportW
    viewportH := viewportH
    scale := scale }

/-! ## Fractal rasterizer (`render`, lines 114-187) -/

/-- The per-frame constants computed at the top of `render` (lines 121-135). -/
structure FrameParams (K : Type) where
  cRe : K
  cIm : K
  zoom : K
  centerX : K
  centerY : K
  xSpan : K
  ySpan : K
  xStep : K
  yStep : K
  xStart : K
  yStart : K
  paletteScale : K

/-- Lines 121-135 of `render`. -/
def frameParams (host : Host K) (seed : Seed K) (width height iterLimit : ℤ) (seconds : K) :
    FrameParams K :=
  let cRe := seed.baseCr + seed.ampCr * host.sin (seconds * seed.freqCr + seed.phaseCr)
  let cIm := seed.baseCi + seed.ampCi * host.cos (seconds * seed.freqCi + seed.phaseCi)
  let zoom := seed.zoomBase + seed.zoomAmp * host.sin (seconds * seed.zoomFreq + seed.zoomPhase)
  let centerX := seed.panX + seed.panAmpX * host.sin (seconds * seed.panFreqX + seed.panPhaseX)
  let centerY := seed.panY + seed.panAmpY * host.cos (seconds * seed.panFreqY + seed.panPhaseY)
  let xSpan := 3.2 / zoom
  let ySpan := 2.4 / zoom
  let xStep := xSpan / (width : K)
  let yStep := ySpan / (height : K)
  let xStart := centerX - xSpan * 0.5
  let yStart := centerY - ySpan * 0.5
  let paletteScale := ((PALETTE_SIZE : K) - 1) / (iterLimit : K)
  { cRe := cRe, cIm := cIm, zoom := zoom, centerX := centerX, centerY := centerY,
    xSpan := xSpan, ySpan := ySpan, xStep := xStep, yStep := yStep,
    xStart := xStart, yStart := yStart, paletteScale := paletteScale }

/-- The variables of the escape-time `while` loop (lines 144-162). -/
structure Escape (K : Type) where
  zx : K
  zy : K
  zx2 : K
  zy2 : K
  iteration : ℕ

/-- The `while (iteration < iterLimit)` loop of lines 152-162. The first argument
bounds the number of passes; `iterLimit.toNat` passes always suffice
(`escapeLoop_exit`). -/
def escapeLoop (cRe cIm : K) (iterLimit : ℤ) : ℕ → Escape K → Escape K
  | 0, s => s
  | fuel + 1, s =>
    if (s.iteration : ℤ) < iterLimit then
      let zx2 := s.zx * s.zx
      let zy2 := s.zy * s.zy
      if zx2 + zy2 > 4.0 then
        { s with zx2 := zx2, zy2 := zy2 }
      else
        escapeLoop cRe cIm iterLimit fuel
          { zx := zx2 - zy2 + cRe
            zy := 2.0 * s.zx * s.zy + cIm
            zx2 := zx2
            zy2 := zy2
            iteration := s.iteration + 1 }
    else
      s

/-- Lines 144-162: the escape-time loop run from the sample `(zx0, zy0)`. -/
def escapeTime (cRe cIm : K) (iterLimit : ℤ) (zx0 zy0 : K) : Escape K :=
  escapeLoop cRe cIm iterLimit iterLimit.toNat
    { zx := zx0, zy := zy0, zx2 := 0, zy2 := 0, iteration := 0 }

/-- Line 172: the smooth iteration estimate of an escaped pixel. -/
def smoothOf (e : Escape K) : K :=
  let magnitude := e.zx2 + e.zy2
  (e.iteration : K) + 1 - 4 / max magnitude 4.000001

/-- Lines 173-179: the palette index of an escaped pixel, after clamping. -/
def paletteIndexOf (paletteScale : K) (e : Escape K) : ℤ :=
  let paletteIndex := jsOrZero (smoothOf e * paletteScale)
  if paletteIndex < 0 then 0
  else if paletteIndex ≥ (PALETTE_SIZE : ℤ) then (PALETTE_SIZE : ℤ) - 1
  else paletteIndex

/-- Lines 144-181: the value stored in `pixels32[p]` for the sample `(zx0, zy0)`. -/
def shadePixel (palette : List ℕ) (cRe cIm : K) (iterLimit : ℤ) (paletteScale : K)
    (zx0 zy0 : K) : ℕ :=
  let e := escapeTime cRe cIm iterLimit zx0 zy0
  if (e.iteration : ℤ) = iterLimit then interiorColor
  else loadU32 palette (paletteIndexOf paletteScale e)

/-- The framebuffer during a render pass: the `Uint32Array` `pixels32`, the write
cursor `p`, and the log of the assignments `pixels32[p] = v` made so far, oldest
first, as pairs `(p, v)`. -/
structure Raster where
  pixels32 : List ℕ
  p : ℕ
  writes : List (ℕ × ℕ)

/-- The statements `pixels32[p] = v; p += 1`. -/
def Raster.store (r : Raster) (v : ℕ) : Raster :=
  { pixels32 := r.pixels32.set r.p v
    p := r.p + 1
    writes := r.writes ++ [(r.p, v)] }

/-- The inner `for (x = 0; x < width; x += 1)` loop (lines 143-183) for the row
with ordinate `zy0`; the accumulator is the pair of `zx0` and the framebuffer. -/
def renderRow (palette : List ℕ) (fp : FrameParams K) (width iterLimit : ℤ) (zy0 : K)
    (r : Raster) : K × Raster :=
  (List.range width.toNat).foldl
    (fun (acc : K × Raster) (_ : ℕ) =>
      let zx := acc.1
      let zy := zy0
      (acc.1 + fp.xStep,
        acc.2.store (shadePixel palette fp.cRe fp.cIm iterLimit fp.paletteScale zx zy)))
    (fp.xStart, r)

/-- The outer `for (y = 0; y < height; y += 1)` loop (lines 139-184). -/
def renderRows (palette : List ℕ) (fp : FrameParams K) (width height iterLimit : ℤ)
    (r : Raster) : Raster :=
  (List.range height.toNat).foldl
    (fun (acc : Raster) (y : ℕ) =>
      let zy0 := fp.yStart + (y : K) * fp.yStep
      (renderRow palette fp width iterLimit zy0 acc).2)
    r

/-- The result of `render`: the palette and the framebuffer it leaves behind. -/
structure Rendered where
  palette : List ℕ
  raster : Option Raster

/-- The function `render(seconds)` (lines 114-187). `pixels32` is `none` while the
buffer is not yet allocated. The final blit `ctx.putImageData` changes none of the
renderer's variables and is left out. -/
def render (host : Host K) (seed : Seed K) (width height iterLimit : ℤ) (palette : List ℕ)
    (pixels32 : Option (List ℕ)) (seconds : K) : Rendered :=
  match pixels32 with
  | none => { palette := palette, raster := none }
  | some buf =>
    let palette := updatePalette host seed seconds palette
    let fp := frameParams host seed width height iterLimit seconds
    { palette := palette
      raster := some (renderRows palette fp width height iterLimit
        { pixels32 := buf, p := 0, writes := [] }) }

/-! ## Definitions that follow the specification -/

/-- The map `z ↦ z² + c` on complex numbers written as pairs `(re, im)`. -/
def juliaStep (c z : K × K) : K × K :=
  (z.1 * z.1 - z.2 * z.2 + c.1, 2 * z.1 * z.2 + c.2)

/-- The orbit `z_0 = z0`, `z_{k+1} = z_k² + c`. -/
def juliaOrbit (c z0 : K × K) : ℕ → K × K
  | 0 => z0
  | k + 1 => juliaStep c (juliaOrbit c z0 k)

/-- The squared modulus `|z|²`. -/
def normSq (z : K × K) : K := z.1 * z.1 + z.2 * z.2

/-- The complex sample of pixel `(x, y)`: `(xStart + x*xStep, yStart + y*yStep)`. -/
def sampleOf (fp : FrameParams K) (x y : ℕ) : K × K :=
  (fp.xStart + (x : K) * fp.xStep, fp.yStart + (y : K) * fp.yStep)

/-- The phase of palette slot `i`: `paletteShift + 0.02*seconds + 0.7*i/1023`. -/
def specPhase (seed : Seed K) (seconds : K) (i : ℕ) : K :=
  seed.paletteShift + 0.02 * seconds + 0.7 * (i : K) / 1023

/-- A channel value `floor(base + 0.5*(1 + cos(2*pi*(phase + offset)))*amp)`. -/
def specChannel (host : Host K) (base amp offset phase : K) : ℤ :=
  ⌊base + 0.5 * (1 + host.cos (2 * host.PI * (phase + offset))) * amp⌋

end Numeric

section Scheduling

variable {K : Type} [LinearOrderedField K] [FloorRing K]

/-- The contract of `Math.sin` used in the proofs: values lie in `[-1, 1]`. -/
def Host.SinBounded (host : Host K) : Prop :=
  ∀ x : K, -1 ≤ host.sin x ∧ host.sin x ≤ 1

/-! ## Seed generator (`rand` and `seed`, lines 39-64) -/

/-- The function `rand(min, max)` (line 39), for the value `u` returned by
`Math.random()`. -/
def rand (u min max : K) : K := min + u * (max - min)

/-- The record `seed` (lines 42-64); `random i` is the value returned by the call
number `i` of `Math.random()`, the properties being evaluated in source order. -/
def makeSeed (host : Host K) (random : ℕ → K) : Seed K :=
  { baseCr := rand (random 0) (-0.82) 0.82
    baseCi := rand (random 1) (-0.82) 0.82
    ampCr := rand (random 2) 0.04 0.18
    ampCi := rand (random 3) 0.04 0.18
    freqCr := rand (random 4) 0.08 0.2
    freqCi := rand (random 5) 0.08 0.2
    phaseCr := rand (random 6) 0 (TAU host)
    phaseCi := rand (random 7) 0 (TAU host)
    zoomBase := rand (random 8) 1.05 1.9
    zoomAmp := rand (random 9) 0.04 0.18
    zoomFreq := rand (random 10) 0.05 0.12
    zoomPhase := rand (random 11) 0 (TAU host)
    panX := rand (random 12) (-0.2) 0.2
    panY := rand (random 13) (-0.2) 0.2
    panAmpX := rand (random 14) 0.01 0.05
    panAmpY := rand (random 15) 0.01 0.05
    panFreqX := rand (random 16) 0.03 0.08
    panFreqY := rand (random 17) 0.03 0.08
    panPhaseX := rand (random 18) 0 (TAU host)
    panPhaseY := rand (random 19) 0 (TAU host)
    paletteShift := rand (random 20) 0 1 }

/-! ## Animation scheduler (`frame`, `onResize`, `onVisibilityChange`, lines 189-227) -/

/-- Who called `render`: `frame` (line 193), the debounced resize callback (line 205),
or the startup code (line 223). -/
inductive Caller where
  | frame
  | resizeTimeout
  | startup
  deriving DecidableEq

/-- One invocation of `render(seconds)`. -/
structure RenderCall (K : Type) where
  caller : Caller
  seconds : K

/-- The variables of the renderer (lines 23-36), the callbacks pending in the host, and
the log of the invocations of `render`, oldest first. `frameCallbacks` holds the handles
of the `requestAnimationFrame` requests that were neither run nor cancelled, `timeouts`
those of the `setTimeout` requests that neither expired nor were cleared. -/
structure Renderer (K : Type) where
  width : ℤ
  height : ℤ
  pixels32 : Option (List ℕ)
  rafId : ℕ
  lastFrameMs : K
  resizeTimer : ℕ
  iterLimit : ℤ
  effectiveTargetPixels : K
  palette : List ℕ
  frameCallbacks : List ℕ
  timeouts : List ℕ
  renderLog : List (RenderCall K)

/-- The variables as initialised by lines 23-36, before the startup code runs. -/
def Renderer.initial : Renderer K :=
  { width := 0
    height := 0
    pixels32 := none
    rafId := 0
    lastFrameMs := 0
    resizeTimer := 0
    iterLimit := BASE_MAX_ITER
    effectiveTargetPixels := (BASE_TARGET_PIXELS : K)
    palette := initialPalette
    frameCallbacks := []
    timeouts := []
    renderLog := [] }

/-- A call `render(seconds)` on the variables of the renderer: the palette and the
framebuffer are those `render` leaves, and the call is logged. -/
def Renderer.render (host : Host K) (seed : Seed K) (s : Renderer K) (caller : Caller)
    (seconds : K) : Renderer K :=
  { s with
    palette := (JuliaBg.render host seed s.width s.height s.iterLimit s.palette s.pixels32
      seconds).palette
    pixels32 :=
      match (JuliaBg.render host seed s.width s.height s.iterLimit s.palette s.pixels32
        seconds).raster with
      | some r => some r.pixels32
      | none => s.pixels32
    renderLog := s.renderLog ++ [{ caller := caller, seconds := seconds }] }

/-- A call `resize()` on the variables of the renderer. -/
def Renderer.resize (host : Host K) (s : Renderer K)
    (innerWidth innerHeight devicePixelRatio : K) : Renderer K :=
  { s with
    width := (JuliaBg.resize host innerWidth innerHeight devicePixelRatio).width
    height := (JuliaBg.resize host innerWidth innerHeight devicePixelRatio).height
    effectiveTargetPixels :=
      (JuliaBg.resize host innerWidth innerHeight devicePixelRatio).effectiveTargetPixels
    pixels32 := some (JuliaBg.resize host innerWidth innerHeight devicePixelRatio).pixels32 }

/-- The statement `rafId = window.requestAnimationFrame(frame)`, the host returning
`handle`. -/
def Renderer.requestFrame (s : Renderer K) (handle : ℕ) : Renderer K :=
  { s with rafId := handle, frameCallbacks := s.frameCallbacks ++ [handle] }

/-- The function `frame(nowMs)` (lines 189-199); `started` and `finished` are the two
values of `performance.now()` and `handle` is returned by `requestAnimationFrame`. -/
def frame (host : Host K) (seed : Seed K) (s : Renderer K) (nowMs started finished : K)
    (handle : ℕ) : Renderer K :=
  let s1 :=
    if nowMs - s.lastFrameMs ≥ (FRAME_INTERVAL_MS : K) then
      let seconds := nowMs * 0.001
      let s2 := s.render host seed Caller.frame seconds
      { s2 with iterLimit := tuneQuality s2.iterLimit (finished - started), lastFrameMs := nowMs }
    else
      s
  s1.requestFrame handle

/-- The function `onResize()` (lines 201-207): the pending timeout `resizeTimer` is
cleared and a new one, with the handle returned by `setTimeout`, is requested. -/
def onResize (s : Renderer K) (handle : ℕ) : Renderer K :=
  { s with
    timeouts := s.timeouts.filter (fun t => t ≠ s.resizeTimer) ++ [handle]
    resizeTimer := handle }

/-- The callback passed to `setTimeout` in `onResize` (lines 203-206); `now` is the
value of `performance.now()`. -/
def resizeTimeout (host : Host K) (seed : Seed K) (s : Renderer K)
    (innerWidth innerHeight devicePixelRatio now : K) : Renderer K :=
  (s.resize host innerWidth innerHeight devicePixelRatio).render host seed
    Caller.resizeTimeout (now * 0.001)

/-- The function `onVisibilityChange()` (lines 209-220); `hidden` is the value of
`document.hidden` and `handle` is returned by `requestAnimationFrame` if it is called. -/
def onVisibilityChange (s : Renderer K) (hidden : Bool) (handle : ℕ) : Renderer K :=
  if hidden then
    { s with frameCallbacks := s.frameCallbacks.filter (fun h => h ≠ s.rafId), rafId := 0 }
  else if s.rafId = 0 then
    ({ s with lastFrameMs := 0 } : Renderer K).requestFrame handle
  else
    s

/-- The startup code (lines 222-224). -/
def startup (host : Host K) (seed : Seed K) (innerWidth innerHeight devicePixelRatio now : K)
    (handle : ℕ) : Renderer K :=
  (((Renderer.initial : Renderer K).resize host innerWidth innerHeight devicePixelRatio).render
    host seed Caller.startup (now * 0.001)).requestFrame handle

/-- The events the host delivers after startup. -/
inductive Event (K : Type) where
  | tick (nowMs started finished : K) (handle : ℕ)
  | resized (handle : ℕ)
  | timeout (innerWidth innerHeight devicePixelRatio now : K)
  | visibilityLost
  | visibilityRegained (handle : ℕ)

/-- One event. A scheduling tick runs the oldest pending frame callback and a timeout
expiry the oldest pending timeout; without a pending callback the event cannot occur
and the result is `none`. -/
def step (host : Host K) (seed : Seed K) (s : Renderer K) : Event K → Option (Renderer K)
  | Event.tick nowMs started finished handle =>
    match s.frameCallbacks with
    | [] => none
    | _ :: rest => some (frame host seed { s with frameCallbacks := rest } nowMs started
        finished handle)
  | Event.resized handle => some (onResize s handle)
  | Event.timeout innerWidth innerHeight devicePixelRatio now =>
    match s.timeouts with
    | [] => none
    | _ :: rest => some (resizeTimeout host seed { s with timeouts := rest } innerWidth
        innerHeight devicePixelRatio now)
  | Event.visibilityLost => some (onVisibilityChange s true 0)
  | Event.visibilityRegained handle => some (onVisibilityChange s false handle)

/-- A sequence of events, oldest first. -/
def run (host : Host K) (seed : Seed K) (s : Renderer K) : List (Event K) → Option (Renderer K)
  | [] => some s
  | e :: es =>
    match step host seed s e with
    | none => none
    | some s1 => run host seed s1 es

/-- The handle an event makes the host return, if any, is not zero. -/
def Event.HandleNonzero : Event K → Prop
  | Event.tick _ _ _ handle => handle ≠ 0
  | Event.resized handle => handle ≠ 0
  | Event.timeout _ _ _ _ => True
  | Event.visibilityLost => True
  | Event.visibilityRegained handle => handle ≠ 0

/-- The event is a scheduling tick. -/
def Event.isTick : Event K → Bool
  | Event.tick _ _ _ _ => true
  | _ => false

/-- The event is a timeout expiry. -/
def Event.isTimeout : Event K → Bool
  | Event.timeout _ _ _ _ => true
  | _ => false

/-- The event is a visibility-regained event. -/
def Event.isRegained : Event K → Bool
  | Event.visibilityRegained _ => true
  | _ => false

/-- The event is a resize event or the expiry of the resize timeout. -/
def Event.isResizing : Event K → Bool
  | Event.resized _ => true
  | Event.timeout _ _ _ _ => true
  | _ => false

/-- The timestamps of the scheduling ticks of a sequence of events at which the cadence
gate `nowMs - lastFrameMs ≥ FRAME_INTERVAL_MS` passes, each such tick recording its
timestamp as the new `lastFrameMs`. -/
def renderedTicks (lastFrameMs : K) : List (Event K) → List K
  | [] => []
  | Event.tick nowMs _ _ _ :: es =>
    if nowMs - lastFrameMs ≥ (FRAME_INTERVAL_MS : K) then nowMs :: renderedTicks nowMs es
    else renderedTicks lastFrameMs es
  | _ :: es => renderedTicks lastFrameMs es

/-- The states the renderer can be in between two events: those reached from the
startup code by a sequence of events, the host returning non-zero handles. -/
def Reachable (host : Host K) (seed : Seed K) (s : Renderer K) : Prop :=
  ∃ (innerWidth innerHeight devicePixelRatio now : K) (handle : ℕ) (es : List (Event K)),
    handle ≠ 0 ∧ (∀ e ∈ es, e.HandleNonzero) ∧
    run host seed (startup host seed innerWidth innerHeight devicePixelRatio now handle) es =
      some s

end Scheduling

section Rounded

variable {K : Type} [LinearOrderedField K] [FloorRing K]

/-! ## Rounded arithmetic (IEEE 754 binary64)

The definitions above compute in exact arithmetic. The definitions of this section
repeat `render`'s escape-time loop and pixel shading, `rand`, `seed` and `resize` with a
rounding function `fl` applied to the result of every arithmetic operation and to every
decimal literal that is not a binary64 number, in the order in which JavaScript evaluates
the expressions. With `fl := binary64` they compute what the code computes on doubles, as
long as no operation overflows; with `fl := id` they are the exact definitions. -/

/-- Rounding of a number to the nearest integer, a tie going to the even one. -/
def roundHalfEven (x : K) : ℤ :=
  if x - ⌊x⌋ < 1 / 2 then ⌊x⌋
  else if 1 / 2 < x - ⌊x⌋ then ⌊x⌋ + 1
  else if ⌊x⌋ % 2 = 0 then ⌊x⌋
  else ⌊x⌋ + 1

/-- The exponent `k` such that the binary64 numbers around `x` are the multiples of
`2 ^ k`: 52 below the binary exponent of `x`, and `-1074` for `0 < |x| < 2 ^ (-1022)`
(the subnormal numbers); at `x = 0` any exponent gives the rounding `0`. -/
def ulpExponent (x : K) : ℤ := max (Int.log 2 |x|) (-1022) - 52

/-- IEEE 754 binary64 rounding (to nearest, ties to even) of the exact result `x` of an
operation, for `|x| < 2 ^ 1024 - 2 ^ 970`; a larger result overflows to an infinity, which
this function does not represent. -/
def binary64 (x : K) : K :=
  (roundHalfEven (x / 2 ^ ulpExponent x) : K) * 2 ^ ulpExponent x

/-- The contract of `Math.sqrt` on doubles used in the proofs: on a positive double
(all are at least `2 ^ (-1074)`) the result is non-negative and within the relative
error `2 ^ (-53)` of the square root, as the correctly rounded square root is. -/
def Host.SqrtRounded (host : Host K) : Prop :=
  ∀ q : K, 2 ^ (-1074 : ℤ) ≤ q →
    0 ≤ host.sqrt q ∧
    q * (1 - 2 ^ (-53 : ℤ)) ^ 2 ≤ host.sqrt q * host.sqrt q ∧
    host.sqrt q * host.sqrt q ≤ q * (1 + 2 ^ (-53 : ℤ)) ^ 2

/-- The `while` loop of lines 152-162 with every operation rounded by `fl`: `zx * zx`,
`zy * zy`, the sum `zx2 + zy2` of the test, `2.0 * zx`, its product with `zy`, the sum
with `cIm`, the difference `zx2 - zy2` and the sum with `cRe`. -/
def escapeLoopFl (fl : K → K) (cRe cIm : K) (iterLimit : ℤ) : ℕ → Escape K → Escape K
  | 0, s => s
  | fuel + 1, s =>
    if (s.iteration : ℤ) < iterLimit then
      let zx2 := fl (s.zx * s.zx)
      let zy2 := fl (s.zy * s.zy)
      if fl (zx2 + zy2) > 4.0 then
        { s with zx2 := zx2, zy2 := zy2 }
      else
        escapeLoopFl fl cRe cIm iterLimit fuel
          { zx := fl (fl (zx2 - zy2) + cRe)
            zy := fl (fl (fl (2.0 * s.zx) * s.zy) + cIm)
            zx2 := zx2
            zy2 := zy2
            iteration := s.iteration + 1 }
    else
      s

/-- Lines 144-162 with rounded operations: the loop run from the sample `(zx0, zy0)`. -/
def escapeTimeFl (fl : K → K) (cRe cIm : K) (iterLimit : ℤ) (zx0 zy0 : K) : Escape K :=
  escapeLoopFl fl cRe cIm iterLimit iterLimit.toNat
    { zx := zx0, zy := zy0, zx2 := 0, zy2 := 0, iteration := 0 }

/-- Lines 171-172 with rounded operations: `magnitude` and `smooth`. The literal
`4.000001` is not a binary64 number and stands for its rounding. -/
def smoothOfFl (fl : K → K) (e : Escape K) : K :=
  let magnitude := fl (e.zx2 + e.zy2)
  fl (fl ((e.iteration : K) + 1) - fl (4 / max magnitude (fl 4.000001)))

/-- Line 135 with the rounded division: `paletteScale`. -/
def paletteScaleFl (fl : K → K) (iterLimit : ℤ) : K :=
  fl (((PALETTE_SIZE : K) - 1) / (iterLimit : K))

/-- Lines 173-179 with the rounded product: the palette index after clamping. -/
def paletteIndexOfFl (fl : K → K) (paletteScale : K) (e : Escape K) : ℤ :=
  let paletteIndex := jsOrZero (fl (smoothOfFl fl e * paletteScale))
  if paletteIndex < 0 then 0
  else if paletteIndex ≥ (PALETTE_SIZE : ℤ) then (PALETTE_SIZE : ℤ) - 1
  else paletteIndex

/-- Lines 144-181 with rounded operations: the value stored in `pixels32[p]` for the
sample `(zx0, zy0)`. -/
def shadePixelFl (fl : K → K) (palette : List ℕ) (cRe cIm : K) (iterLimit : ℤ)
    (paletteScale : K) (zx0 zy0 : K) : ℕ :=
  let e := escapeTimeFl fl cRe cIm iterLimit zx0 zy0
  if (e.iteration : ℤ) = iterLimit then interiorColor
  else loadU32 palette (paletteIndexOfFl fl paletteScale e)

/-- The function `rand(min, max)` (line 39) with rounded operations: the difference, the
product with the value `u` of `Math.random()`, and the sum. -/
def randFl (fl : K → K) (u min max : K) : K := fl (min + fl (u * fl (max - min)))

/-- The constant `TAU` (line 14) with the rounded product. -/
def TAUFl (fl : K → K) (host : Host K) : K := fl (host.PI * 2)

/-- The record `seed` (lines 42-64) with rounded operations; a decimal literal stands for
its rounding, and `-0.82` is the negation of the literal `0.82`. -/
def makeSeedFl (fl : K → K) (host : Host K) (random : ℕ → K) : Seed K :=
  { baseCr := randFl fl (random 0) (-fl 0.82) (fl 0.82)
    baseCi := randFl fl (random 1) (-fl 0.82) (fl 0.82)
    ampCr := randFl fl (random 2) (fl 0.04) (fl 0.18)
    ampCi := randFl fl (random 3) (fl 0.04) (fl 0.18)
    freqCr := randFl fl (random 4) (fl 0.08) (fl 0.2)
    freqCi := randFl fl (random 5) (fl 0.08) (fl 0.2)
    phaseCr := randFl fl (random 6) 0 (TAUFl fl host)
    phaseCi := randFl fl (random 7) 0 (TAUFl fl host)
    zoomBase := randFl fl (random 8) (fl 1.05) (fl 1.9)
    zoomAmp := randFl fl (random 9) (fl 0.04) (fl 0.18)
    zoomFreq := randFl fl (random 10) (fl 0.05) (fl 0.12)
    zoomPhase := randFl fl (random 11) 0 (TAUFl fl host)
    panX := randFl fl (random 12) (-fl 0.2) (fl 0.2)
    panY := randFl fl (random 13) (-fl 0.2) (fl 0.2)
    panAmpX := randFl fl (random 14) (fl 0.01) (fl 0.05)
    panAmpY := randFl fl (random 15) (fl 0.01) (fl 0.05)
    panFreqX := randFl fl (random 16) (fl 0.03) (fl 0.08)
    panFreqY := randFl fl (random 17) (fl 0.03) (fl 0.08)
    panPhaseX := randFl fl (random 18) 0 (TAUFl fl host)
    panPhaseY := randFl fl (random 19) 0 (TAUFl fl host)
    paletteShift := randFl fl (random 20) 0 1 }

/-- The function `resize()` with rounded operations: the product by `0.82` (which
stands for its rounding) or `1`, the product `viewportW * viewportH`, the quotient, and
the products by `scale`; `Math.sqrt` is the host's. -/
def resizeFl (fl : K → K) (host : Host K) (innerWidth innerHeight devicePixelRatio : K) :
    Viewport K :=
  let viewportW := max innerWidth 1
  let viewportH := max innerHeight 1
  let dpr := min (if devicePixelRatio = 0 then 1 else devicePixelRatio) 2
  let effectiveTargetPixels :=
    fl ((BASE_TARGET_PIXELS : K) * (if dpr > 1.25 then fl 0.82 else 1))
  let scale := min 1 (host.sqrt (fl (effectiveTargetPixels / fl (viewportW * viewportH))))
  let width := max MIN_WIDTH ⌊fl (viewportW * scale)⌋
  let height := max MIN_HEIGHT ⌊fl (viewportH * scale)⌋
  { width := width
    height := height
    effectiveTargetPixels := effectiveTargetPixels
    pixels32 := List.replicate (width * height).toNat 0
    viewportW := viewportW
    viewportH := viewportH
    scale := scale }

end Rounded

end JuliaBg

/-! ## The publication filter (`pub-filter.js`)

The two element lists `papers` and `buttons` are fixed when the script starts; a paper
is an element matching `.pub[data-authorship]`, so `dataset.authorship` is a string; a
button may lack `data-filter`, in which case `dataset.filter` is `undefined`. The class
list of an element is the list of its tokens. The papers and the buttons are taken to be
distinct elements. -/

namespace PubFilter

/-- Method `DOMTokenList.contains(token)`. -/
def ClassList.contains (classList : List String) (token : String) : Bool :=
  decide (token ∈ classList)

/-- Method `DOMTokenList.remove(token)`: the token is taken out of the list. -/
def ClassList.remove (classList : List String) (token : String) : List String :=
  classList.filter (fun c => decide (c ≠ token))

/-- Method `DOMTokenList.add(token)`: the token is appended unless already present. -/
def ClassList.add (classList : List String) (token : String) : List String :=
  if token ∈ classList then classList else classList ++ [token]

/-- Method `DOMTokenList.toggle(token, force)` with `force` given: a present token is
removed when `force` is false and kept otherwise; an absent token is appended when `force`
is true and not otherwise. -/
def ClassList.toggle (classList : List String) (token : String) (force : Bool) : List String :=
  if token ∈ classList then
    (if force then classList else ClassList.remove classList token)
  else
    (if force then classList ++ [token] else classList)

/-- An element of `papers`: `dataset.authorship` and `classList`. -/
structure Paper where
  authorship : String
  classList : List String
deriving DecidableEq, Repr

/-- An element of `buttons`: `dataset.filter` (`none` for `undefined`), `classList` and
the attribute `aria-pressed` (`none` when not set). -/
structure Button where
  filter : Option String
  classList : List String
  ariaPressed : Option String
deriving DecidableEq, Repr

/-- The state the script acts on: the class lists and attributes of `papers` and
`buttons`, in list order. -/
structure Page where
  papers : List Paper
  buttons : List Button
deriving DecidableEq, Repr

/-- Body of the first `papers.forEach`: toggle `is-hidden` with `!shouldShow`, then remove
`is-first-visible`. -/
def hidePaper (filterValue : String) (paper : Paper) : Paper :=
  let role := paper.authorship
  let shouldShow : Bool := decide (filterValue = "all") || decide (role = filterValue)
  { paper with
    classList :=
      ClassList.remove (ClassList.toggle paper.classList "is-hidden" (!shouldShow))
        "is-first-visible" }

/-- `papers.find(paper => !paper.classList.contains("is-hidden"))` followed by
`firstVisible.classList.add("is-first-visible")` when a paper is found: the first paper in
list order without `is-hidden` gets the class, the others are left as they are. -/
def addFirstVisible : List Paper → List Paper
  | [] => []
  | paper :: rest =>
    if !ClassList.contains paper.classList "is-hidden" then
      { paper with classList := ClassList.add paper.classList "is-first-visible" } :: rest
    else paper :: addFirstVisible rest

/-- Body of `buttons.forEach`: toggle `is-active` with `active` and set `aria-pressed`. -/
def pressButton (filterValue : String) (button : Button) : Button :=
  let active : Bool := decide (button.filter = some filterValue)
  { button with
    classList := ClassList.toggle button.classList "is-active" active
    ariaPressed := some (if active then "true" else "false") }

/-- Function `applyFilter(filterValue)`. -/
def applyFilter (filterValue : String) (page : Page) : Page :=
  { papers := addFirstVisible (page.papers.map (hidePaper filterValue))
    buttons := page.buttons.map (pressButton filterValue) }

/-- A page of three papers and two buttons, used in examples. -/
def examplePage : Page :=
  { papers :=
      [{ authorship := "first", classList := ["pub", "is-first-visible"] },
       { authorship := "coauthor", classList := ["pub", "is-hidden"] },
       { authorship := "first", classList := ["pub"] }]
    buttons :=
      [{ filter := some "all", classList := ["pub-filter-btn", "is-active"],
         ariaPressed := some "true" },
       { filter := some "coauthor", classList := ["pub-filter-btn"], ariaPressed := none }] }

end PubFilter

/-! ## Theorems -/

namespace JuliaBg

/-! ### 32-bit operators and `packRGBA` -/

theorem toUint32_lt (n : ℤ) : toUint32 n < 2 ^ 32 := by
  unfold toUint32; omega

theorem toUint32_toInt32 (n : ℤ) : toUint32 (toInt32 n) = toUint32 n := by
  unfold toUint32 toInt32; split_ifs <;> omega

theorem toUint32_natCast (n : ℕ) (h : n < 2 ^ 32) : toUint32 (n : ℤ) = n := by
  unfold toUint32; omega

theorem toInt32_emod (n : ℤ) : toInt32 n % 2 ^ 32 = n % 2 ^ 32 := by
  unfold toInt32; split_ifs <;> omega

theorem toInt32_of_range (n : ℤ) (h0 : 0 ≤ n) (h1 : n < 2 ^ 31) : toInt32 n = n := by
  unfold toInt32; split_ifs <;> omega

theorem toUint32_jsOr (a b : ℤ) : toUint32 (jsOr a b) = toUint32 a ||| toUint32 b := by
  unfold jsOr
  rw [toUint32_toInt32]
  exact toUint32_natCast _ (Nat.or_lt_two_pow (toUint32_lt a) (toUint32_lt b))

theorem toUint32_jsShl (a : ℤ) (k : ℕ) :
    toUint32 (jsShl a k) = toUint32 (a * 2 ^ (k % 32)) := by
  unfold jsShl
  rw [toUint32_toInt32]
  unfold toUint32
  rw [Int.mul_emod, toInt32_emod, ← Int.mul_emod]

theorem packRGBA_eq_or (r g b a : ℤ) :
    packRGBA r g b a =
      ((toUint32 (a * 2 ^ 24) ||| toUint32 (b * 2 ^ 16)) ||| toUint32 (g * 2 ^ 8)) |||
        toUint32 r := by
  unfold packRGBA jsUshr0
  simp only [toUint32_jsOr, toUint32_jsShl]

theorem byteOf_three_or (x : ℕ) : byteOf (255 * 2 ^ 24 ||| x) 3 = 255 := by
  unfold byteOf
  apply Nat.eq_of_testBit_eq
  intro i
  rw [show (256 : ℕ) = 2 ^ 8 by norm_num, Nat.testBit_mod_two_pow, ← Nat.shiftRight_eq_div_pow,
    Nat.testBit_shiftRight, Nat.testBit_or, show (255 : ℕ) = 2 ^ 8 - 1 by norm_num,
    Nat.testBit_two_pow_sub_one, Nat.mul_comm (2 ^ 8 - 1) (2 ^ 24), Nat.testBit_mul_pow_two,
    Nat.testBit_two_pow_sub_one]
  by_cases hi : i < 8
  · have h1 : 8 * 3 + i ≥ 24 := by omega
    have h2 : 8 * 3 + i - 24 < 8 := by omega
    simp [hi, h1, h2]
  · simp [hi]

/-- The alpha byte of `packRGBA(r, g, b, 255)` is 255 whatever the other channels. -/
theorem byteOf_packRGBA_alpha (r g b : ℤ) : byteOf (packRGBA r g b 255) 3 = 255 := by
  rw [packRGBA_eq_or]
  have h255 : toUint32 (255 * 2 ^ 24) = 255 * 2 ^ 24 := by decide
  rw [h255, Nat.or_assoc, Nat.or_assoc]
  exact byteOf_three_or _

theorem packRGBA_bytes (r g b a : ℕ) (hr : r < 256) (hg : g < 256) (hb : b < 256)
    (ha : a < 256) :
    packRGBA r g b a = r + 2 ^ 8 * g + 2 ^ 16 * b + 2 ^ 24 * a := by
  rw [packRGBA_eq_or]
  have e1 : toUint32 ((a : ℤ) * 2 ^ 24) = 2 ^ 24 * a := by unfold toUint32; omega
  have e2 : toUint32 ((b : ℤ) * 2 ^ 16) = 2 ^ 16 * b := by unfold toUint32; omega
  have e3 : toUint32 ((g : ℤ) * 2 ^ 8) = 2 ^ 8 * g := by unfold toUint32; omega
  have e4 : toUint32 (r : ℤ) = r := by unfold toUint32; omega
  rw [e1, e2, e3, e4]
  rw [← Nat.mul_add_lt_is_or (by omega : 2 ^ 16 * b < 2 ^ 24) a]
  rw [show 2 ^ 24 * a + 2 ^ 16 * b = 2 ^ 16 * (2 ^ 8 * a + b) by ring]
  rw [← Nat.mul_add_lt_is_or (by omega : 2 ^ 8 * g < 2 ^ 16) _]
  rw [show 2 ^ 16 * (2 ^ 8 * a + b) + 2 ^ 8 * g = 2 ^ 8 * (2 ^ 16 * a + 2 ^ 8 * b + g) by ring]
  rw [← Nat.mul_add_lt_is_or (by omega : r < 2 ^ 8) _]
  ring

theorem byteOf_packRGBA (r g b a : ℕ) (hr : r < 256) (hg : g < 256) (hb : b < 256)
    (ha : a < 256) :
    byteOf (packRGBA r g b a) 0 = r ∧ byteOf (packRGBA r g b a) 1 = g ∧
      byteOf (packRGBA r g b a) 2 = b ∧ byteOf (packRGBA r g b a) 3 = a := by
  rw [packRGBA_bytes r g b a hr hg hb ha]
  unfold byteOf
  refine ⟨?_, ?_, ?_, ?_⟩ <;> omega

/-- Integer form of `byteOf_packRGBA`: channels that are integers in `[0, 255]`. -/
theorem byteOf_packRGBA_int (r g b a : ℤ) (hr : 0 ≤ r ∧ r ≤ 255) (hg : 0 ≤ g ∧ g ≤ 255)
    (hb : 0 ≤ b ∧ b ≤ 255) (ha : 0 ≤ a ∧ a ≤ 255) :
    (byteOf (packRGBA r g b a) 0 : ℤ) = r ∧ (byteOf (packRGBA r g b a) 1 : ℤ) = g ∧
      (byteOf (packRGBA r g b a) 2 : ℤ) = b ∧ (byteOf (packRGBA r g b a) 3 : ℤ) = a := by
  obtain ⟨r, rfl⟩ := Int.eq_ofNat_of_zero_le hr.1
  obtain ⟨g, rfl⟩ := Int.eq_ofNat_of_zero_le hg.1
  obtain ⟨b, rfl⟩ := Int.eq_ofNat_of_zero_le hb.1
  obtain ⟨a, rfl⟩ := Int.eq_ofNat_of_zero_le ha.1
  have h := byteOf_packRGBA r g b a (by omega) (by omega) (by omega) (by omega)
  simp only [Nat.cast_inj]
  exact h

theorem interiorColor_eq : interiorColor = 0xFF120A08 := by decide

theorem byteOf_interiorColor : byteOf interiorColor 0 = 8 := by decide

/-- The expression `x | 0` is the floor of `x` when `0 ≤ x < 2^31`. -/
theorem jsOrZero_eq_floor {K : Type} [LinearOrderedField K] [FloorRing K] (x : K)
    (h0 : 0 ≤ x) (h1 : x < 2 ^ 31) : jsOrZero x = ⌊x⌋ := by
  have hf0 : 0 ≤ ⌊x⌋ := Int.floor_nonneg.mpr h0
  have hf1 : ⌊x⌋ < 2 ^ 31 := by
    apply Int.floor_lt.mpr
    push_cast
    norm_num at h1 ⊢
    exact h1
  unfold jsOrZero truncate jsOr
  rw [if_pos h0]
  have hz : toUint32 0 = 0 := by decide
  rw [hz, Nat.or_zero]
  have hu : ((toUint32 ⌊x⌋ : ℕ) : ℤ) = ⌊x⌋ := by unfold toUint32; omega
  rw [hu]
  exact toInt32_of_range _ hf0 hf1

/-! ### Palette -/

section PaletteLemmas

variable {K : Type} [LinearOrderedField K] [FloorRing K]

/-- A fill loop `for (i = 0; i < n; i += 1) arr[i] = f(i)` on a list. -/
theorem fill_length {α : Type} (f : ℕ → α) (n : ℕ) (l : List α) :
    ((List.range n).foldl (fun pal i => pal.set i (f i)) l).length = l.length := by
  induction n with
  | zero => simp
  | succ n ih => simp [List.range_succ, List.foldl_append, ih]

theorem fill_getElem? {α : Type} (f : ℕ → α) (n : ℕ) (l : List α) (i : ℕ) :
    ((List.range n).foldl (fun pal i => pal.set i (f i)) l)[i]? =
      if i < n ∧ i < l.length then some (f i) else l[i]? := by
  induction n with
  | zero => simp
  | succ n ih =>
    rw [List.range_succ, List.foldl_append]
    simp only [List.foldl_cons, List.foldl_nil]
    rw [List.getElem?_set, fill_length]
    by_cases hin : n = i
    · subst hin
      by_cases hl : n < l.length
      · simp [hl]
      · have : l[n]? = none := List.getElem?_eq_none (by omega)
        simp [hl, this]
    · rw [if_neg hin, ih]
      by_cases h1 : i < n ∧ i < l.length
      · rw [if_pos h1, if_pos ⟨by omega, h1.2⟩]
      · rw [if_neg h1, if_neg (by omega)]

theorem updatePalette_length (host : Host K) (seed : Seed K) (seconds : K)
    (palette : List ℕ) :
    (updatePalette host seed seconds palette).length = palette.length :=
  fill_length _ _ _

theorem updatePalette_getElem? (host : Host K) (seed : Seed K) (seconds : K)
    (palette : List ℕ) (hlen : palette.length = PALETTE_SIZE) (i : ℕ) (hi : i < PALETTE_SIZE) :
    (updatePalette host seed seconds palette)[i]? = some (paletteEntry host seed seconds i) := by
  unfold updatePalette
  rw [fill_getElem?, if_pos ⟨hi, by omega⟩]

/-- A load at an in-range index of the updated palette yields the entry written there. -/
theorem loadU32_updatePalette (host : Host K) (seed : Seed K) (seconds : K)
    (palette : List ℕ) (hlen : palette.length = PALETTE_SIZE) (i : ℤ) (h0 : 0 ≤ i)
    (h1 : i < (PALETTE_SIZE : ℤ)) :
    loadU32 (updatePalette host seed seconds palette) i =
      paletteEntry host seed seconds i.toNat := by
  have hi : i.toNat < PALETTE_SIZE := by
    have : ((i.toNat : ℕ) : ℤ) < (PALETTE_SIZE : ℤ) := by rw [Int.toNat_of_nonneg h0]; exact h1
    exact_mod_cast this
  unfold loadU32
  rw [if_pos h0, List.getD_eq_getElem?_getD,
    updatePalette_getElem? host seed seconds palette hlen i.toNat hi, Option.getD_some]

/-- A cosine wave `⌊base + (0.5 + 0.5 * c) * amp⌋` with `-1 ≤ c ≤ 1` lies in
`[base, base + amp]`. -/
theorem wave_bounds (base amp : ℤ) (hamp : 0 ≤ amp) (c : K) (hc : -1 ≤ c ∧ c ≤ 1) :
    base ≤ ⌊(base : K) + (0.5 + 0.5 * c) * (amp : K)⌋ ∧
      ⌊(base : K) + (0.5 + 0.5 * c) * (amp : K)⌋ ≤ base + amp := by
  have hamp' : (0 : K) ≤ (amp : K) := by exact_mod_cast hamp
  have h0 : (0 : K) ≤ 0.5 + 0.5 * c := by norm_num; linarith [hc.1]
  have h1 : (0.5 : K) + 0.5 * c ≤ 1 := by norm_num; linarith [hc.2]
  constructor
  · apply Int.le_floor.mpr
    have := mul_nonneg h0 hamp'
    linarith
  · have hle : (base : K) + (0.5 + 0.5 * c) * (amp : K) ≤ ((base + amp : ℤ) : K) := by
      push_cast
      have := mul_le_mul_of_nonneg_right h1 hamp'
      linarith
    have := Int.floor_le_floor hle
    rwa [Int.floor_intCast] at this

theorem paletteChannels_bounds (host : Host K) (hcos : host.CosBounded) (seed : Seed K)
    (seconds : K) (i : ℕ) :
    (18 ≤ (paletteChannels host seed seconds i).1 ∧
      (paletteChannels host seed seconds i).1 ≤ 223) ∧
    (16 ≤ (paletteChannels host seed seconds i).2.1 ∧
      (paletteChannels host seed seconds i).2.1 ≤ 211) ∧
    (28 ≤ (paletteChannels host seed seconds i).2.2 ∧
      (paletteChannels host seed seconds i).2.2 ≤ 238) := by
  unfold paletteChannels
  refine ⟨?_, ?_, ?_⟩
  · have := wave_bounds (K := K) 18 205 (by norm_num) _ (hcos
      (TAU host * (seed.paletteShift + seconds * 0.02 +
        (i : K) / ((PALETTE_SIZE : K) - 1) * 0.7 + 0.0)))
    simpa using this
  · have := wave_bounds (K := K) 16 195 (by norm_num) _ (hcos
      (TAU host * (seed.paletteShift + seconds * 0.02 +
        (i : K) / ((PALETTE_SIZE : K) - 1) * 0.7 + 0.2)))
    simpa using this
  · have := wave_bounds (K := K) 28 210 (by norm_num) _ (hcos
      (TAU host * (seed.paletteShift + seconds * 0.02 +
        (i : K) / ((PALETTE_SIZE : K) - 1) * 0.7 + 0.38)))
    simpa using this

/-- Under the cosine contract the bytes of a palette entry are its channels. -/
theorem paletteEntry_bytes (host : Host K) (hcos : host.CosBounded) (seed : Seed K)
    (seconds : K) (i : ℕ) :
    (byteOf (paletteEntry host seed seconds i) 0 : ℤ) = (paletteChannels host seed seconds i).1 ∧
    (byteOf (paletteEntry host seed seconds i) 1 : ℤ) =
      (paletteChannels host seed seconds i).2.1 ∧
    (byteOf (paletteEntry host seed seconds i) 2 : ℤ) =
      (paletteChannels host seed seconds i).2.2 ∧
    (byteOf (paletteEntry host seed seconds i) 3 : ℤ) = 255 := by
  obtain ⟨hr, hg, hb⟩ := paletteChannels_bounds host hcos seed seconds i
  unfold paletteEntry
  exact byteOf_packRGBA_int _ _ _ 255 (by omega) (by omega) (by omega) (by omega)

/-- Under the cosine contract no palette entry equals the interior colour. -/
theorem paletteEntry_ne_interior (host : Host K) (hcos : host.CosBounded) (seed : Seed K)
    (seconds : K) (i : ℕ) : paletteEntry host seed seconds i ≠ interiorColor := by
  intro h
  have h1 := (paletteEntry_bytes host hcos seed seconds i).1
  have h2 := (paletteChannels_bounds host hcos seed seconds i).1.1
  rw [h, byteOf_interiorColor] at h1
  omega

theorem byteOf_paletteEntry_alpha (host : Host K) (seed : Seed K) (seconds : K) (i : ℕ) :
    byteOf (paletteEntry host seed seconds i) 3 = 255 :=
  byteOf_packRGBA_alpha _ _ _

end PaletteLemmas

/-! ### Escape-time loop -/

section EscapeLemmas

variable {K : Type} [LinearOrderedField K]

theorem lit_four : (4.0 : K) = 4 := by norm_num

theorem lit_two : (2.0 : K) = 2 := by norm_num

/-- One pass of the `while` loop. -/
theorem escapeLoop_succ (cRe cIm : K) (iterLimit : ℤ) (fuel : ℕ) (s : Escape K) :
    escapeLoop cRe cIm iterLimit (fuel + 1) s =
      if (s.iteration : ℤ) < iterLimit then
        if s.zx * s.zx + s.zy * s.zy > 4.0 then
          { s with zx2 := s.zx * s.zx, zy2 := s.zy * s.zy }
        else
          escapeLoop cRe cIm iterLimit fuel
            { zx := s.zx * s.zx - s.zy * s.zy + cRe
              zy := 2.0 * s.zx * s.zy + cIm
              zx2 := s.zx * s.zx
              zy2 := s.zy * s.zy
              iteration := s.iteration + 1 }
      else s :=
  rfl

/-- What the `while` loop establishes, in terms of the orbit of the sample: the loop
variables hold the iterate numbered `iteration`, no earlier iterate escaped, and
either the limit is reached or the current iterate escapes and `zx2 + zy2` is its
squared modulus. -/
theorem escapeLoop_spec (cRe cIm : K) (iterLimit : ℤ) (z0 : K × K) :
    ∀ (fuel : ℕ) (s : Escape K),
      (s.zx, s.zy) = juliaOrbit (cRe, cIm) z0 s.iteration →
      (∀ k, k < s.iteration → ¬ normSq (juliaOrbit (cRe, cIm) z0 k) > 4) →
      (s.iteration : ℤ) ≤ iterLimit →
      iterLimit ≤ (s.iteration : ℤ) + fuel →
      ((escapeLoop cRe cIm iterLimit fuel s).zx, (escapeLoop cRe cIm iterLimit fuel s).zy) =
          juliaOrbit (cRe, cIm) z0 (escapeLoop cRe cIm iterLimit fuel s).iteration ∧
        (∀ k, k < (escapeLoop cRe cIm iterLimit fuel s).iteration →
          ¬ normSq (juliaOrbit (cRe, cIm) z0 k) > 4) ∧
        ((escapeLoop cRe cIm iterLimit fuel s).iteration : ℤ) ≤ iterLimit ∧
        (((escapeLoop cRe cIm iterLimit fuel s).iteration : ℤ) < iterLimit →
          normSq (juliaOrbit (cRe, cIm) z0 (escapeLoop cRe cIm iterLimit fuel s).iteration) > 4 ∧
          (escapeLoop cRe cIm iterLimit fuel s).zx2 + (escapeLoop cRe cIm iterLimit fuel s).zy2 =
            normSq (juliaOrbit (cRe, cIm) z0 (escapeLoop cRe cIm iterLimit fuel s).iteration)) := by
  intro fuel
  induction fuel with
  | zero =>
    intro s hz hno hle hfuel
    simp only [escapeLoop]
    refine ⟨hz, hno, hle, fun h => ?_⟩
    simp at hfuel
    omega
  | succ fuel ih =>
    intro s hz hno hle hfuel
    have hnorm : normSq (juliaOrbit (cRe, cIm) z0 s.iteration) = s.zx * s.zx + s.zy * s.zy := by
      rw [← hz]; rfl
    simp only [escapeLoop]
    by_cases hguard : (s.iteration : ℤ) < iterLimit
    · rw [if_pos hguard]
      by_cases hesc : s.zx * s.zx + s.zy * s.zy > 4.0
      · rw [if_pos hesc]
        refine ⟨hz, hno, hle, fun _ => ⟨?_, ?_⟩⟩
        · rw [hnorm]; rw [lit_four] at hesc; exact hesc
        · exact hnorm.symm
      · rw [if_neg hesc]
        apply ih
        · show (s.zx * s.zx - s.zy * s.zy + cRe, 2.0 * s.zx * s.zy + cIm) =
            juliaStep (cRe, cIm) (juliaOrbit (cRe, cIm) z0 s.iteration)
          rw [← hz, lit_two]; rfl
        · intro k hk
          have hk' : k < s.iteration + 1 := hk
          rcases Nat.lt_succ_iff_lt_or_eq.mp hk' with h | h
          · exact hno k h
          · rw [h, hnorm]; rw [lit_four] at hesc; exact hesc
        · show ((s.iteration + 1 : ℕ) : ℤ) ≤ iterLimit
          push_cast; omega
        · show iterLimit ≤ ((s.iteration + 1 : ℕ) : ℤ) + fuel
          push_cast at hfuel ⊢; omega
    · rw [if_neg hguard]
      exact ⟨hz, hno, hle, fun h => absurd h hguard⟩

/-- The escape-time loop run from a sample, for a limit that is not negative. -/
theorem escapeTime_spec (cRe cIm : K) (iterLimit : ℤ) (hlim : 0 ≤ iterLimit) (zx0 zy0 : K) :
    ((escapeTime cRe cIm iterLimit zx0 zy0).zx, (escapeTime cRe cIm iterLimit zx0 zy0).zy) =
        juliaOrbit (cRe, cIm) (zx0, zy0) (escapeTime cRe cIm iterLimit zx0 zy0).iteration ∧
      (∀ k, k < (escapeTime cRe cIm iterLimit zx0 zy0).iteration →
        ¬ normSq (juliaOrbit (cRe, cIm) (zx0, zy0) k) > 4) ∧
      ((escapeTime cRe cIm iterLimit zx0 zy0).iteration : ℤ) ≤ iterLimit ∧
      (((escapeTime cRe cIm iterLimit zx0 zy0).iteration : ℤ) < iterLimit →
        normSq (juliaOrbit (cRe, cIm) (zx0, zy0)
          (escapeTime cRe cIm iterLimit zx0 zy0).iteration) > 4 ∧
        (escapeTime cRe cIm iterLimit zx0 zy0).zx2 + (escapeTime cRe cIm iterLimit zx0 zy0).zy2 =
          normSq (juliaOrbit (cRe, cIm) (zx0, zy0)
            (escapeTime cRe cIm iterLimit zx0 zy0).iteration)) := by
  unfold escapeTime
  apply escapeLoop_spec cRe cIm iterLimit (zx0, zy0)
  · rfl
  · intro k hk; exact absurd hk (Nat.not_lt_zero k)
  · simpa using hlim
  · simp [Int.toNat_of_nonneg hlim]

/-- On the escape exit the magnitude used for colouring exceeds 4. -/
theorem escapeTime_magnitude (cRe cIm : K) (iterLimit : ℤ) (hlim : 0 ≤ iterLimit)
    (zx0 zy0 : K)
    (hesc : ((escapeTime cRe cIm iterLimit zx0 zy0).iteration : ℤ) ≠ iterLimit) :
    ((escapeTime cRe cIm iterLimit zx0 zy0).iteration : ℤ) < iterLimit ∧
      4 < (escapeTime cRe cIm iterLimit zx0 zy0).zx2 +
        (escapeTime cRe cIm iterLimit zx0 zy0).zy2 := by
  obtain ⟨_, _, hle, h⟩ := escapeTime_spec cRe cIm iterLimit hlim zx0 zy0
  have hlt := lt_of_le_of_ne hle hesc
  refine ⟨hlt, ?_⟩
  obtain ⟨h1, h2⟩ := h hlt
  rw [h2]; exact h1

/-- With `c = 0` the squared modulus of the iterate `k` is the `2^k`-th power of that
of the sample. -/
theorem normSq_orbit_zero (z0 : K × K) (k : ℕ) :
    normSq (juliaOrbit ((0 : K), (0 : K)) z0 k) = normSq z0 ^ (2 ^ k) := by
  induction k with
  | zero => simp [juliaOrbit]
  | succ k ih =>
    have hstep : ∀ z : K × K, normSq (juliaStep ((0 : K), (0 : K)) z) = normSq z ^ 2 := by
      intro z
      simp only [normSq, juliaStep]
      ring
    show normSq (juliaStep ((0 : K), (0 : K)) (juliaOrbit ((0 : K), (0 : K)) z0 k)) = _
    rw [hstep, ih, ← pow_mul, pow_succ]

end EscapeLemmas

/-! ### Framebuffer stores -/

theorem foldl_store_p (vs : List ℕ) (r : Raster) :
    (vs.foldl Raster.store r).p = r.p + vs.length := by
  induction vs generalizing r with
  | nil => simp
  | cons v vs ih =>
    simp only [List.foldl_cons, List.length_cons]
    rw [ih]
    simp only [Raster.store]
    omega

theorem foldl_store_writes (vs : List ℕ) (r : Raster) :
    (vs.foldl Raster.store r).writes =
      r.writes ++ (List.range vs.length).map (fun i => (r.p + i, vs.getD i 0)) := by
  induction vs generalizing r with
  | nil => simp
  | cons v vs ih =>
    simp only [List.foldl_cons, List.length_cons]
    rw [ih, List.range_succ_eq_map]
    simp only [Raster.store, List.append_assoc, List.map_cons, List.map_map,
      List.singleton_append, Nat.add_zero, List.getD_cons_zero]
    congr 2
    apply List.map_congr_left
    intro i _
    simp only [Function.comp, Nat.succ_eq_add_one, List.getD_cons_succ]
    congr 1
    omega

theorem foldl_store_length (vs : List ℕ) (r : Raster) :
    (vs.foldl Raster.store r).pixels32.length = r.pixels32.length := by
  induction vs generalizing r with
  | nil => simp
  | cons v vs ih =>
    simp only [List.foldl_cons]
    rw [ih]
    simp [Raster.store]

theorem foldl_store_getElem? (vs : List ℕ) (r : Raster) (i : ℕ) :
    (vs.foldl Raster.store r).pixels32[i]? =
      if r.p ≤ i ∧ i < r.p + vs.length ∧ i < r.pixels32.length then vs[i - r.p]?
      else r.pixels32[i]? := by
  induction vs generalizing r with
  | nil =>
    simp only [List.foldl_nil, List.length_nil]
    rw [if_neg (by omega)]
  | cons v vs ih =>
    simp only [List.foldl_cons, List.length_cons]
    rw [ih]
    simp only [Raster.store, List.length_set, List.getElem?_set]
    by_cases h1 : r.p + 1 ≤ i ∧ i < r.p + 1 + vs.length ∧ i < r.pixels32.length
    · rw [if_pos h1, if_pos (by omega)]
      obtain ⟨k, hk⟩ : ∃ k, i - r.p = k + 1 := ⟨i - r.p - 1, by omega⟩
      rw [hk, List.getElem?_cons_succ]
      congr 1
      omega
    · rw [if_neg h1]
      by_cases h2 : r.p = i
      · subst h2
        by_cases h3 : r.p < r.pixels32.length
        · rw [if_pos rfl, if_pos h3, if_pos (by omega)]
          simp
        · rw [if_pos rfl, if_neg h3, if_neg (by omega)]
          exact (List.getElem?_eq_none (by omega)).symm
      · rw [if_neg h2, if_neg (by omega)]

/-- Stores from cursor 0 that fill the buffer exactly leave the stored values in it. -/
theorem foldl_store_fill (vs buf : List ℕ) (h : vs.length = buf.length) :
    (vs.foldl Raster.store { pixels32 := buf, p := 0, writes := [] }).pixels32 = vs := by
  apply List.ext_getElem?
  intro i
  rw [foldl_store_getElem?]
  simp only [Nat.zero_le, Nat.zero_add, true_and, Nat.sub_zero]
  by_cases hi : i < vs.length
  · rw [if_pos ⟨hi, by omega⟩]
  · rw [if_neg (by omega), List.getElem?_eq_none (by omega), List.getElem?_eq_none (by omega)]

/-! ### The two loops of `render` -/

section RenderLemmas

variable {K : Type} [LinearOrderedField K] [FloorRing K]

/-- The value `render` stores for the pixel with linear index `i` of a raster of
width `w`: the shade of the sample of column `i % w` and row `i / w`. -/
theorem renderRow_eq (palette : List ℕ) (fp : FrameParams K) (width iterLimit : ℤ) (zy0 : K)
    (r : Raster) :
    renderRow palette fp width iterLimit zy0 r =
      (fp.xStart + (width.toNat : K) * fp.xStep,
        ((List.range width.toNat).map (fun (x : ℕ) =>
          shadePixel palette fp.cRe fp.cIm iterLimit fp.paletteScale
            (fp.xStart + (x : K) * fp.xStep) zy0)).foldl Raster.store r) := by
  unfold renderRow
  generalize width.toNat = n
  induction n with
  | zero => simp
  | succ n ih =>
    rw [List.range_succ, List.foldl_append, ih]
    simp only [List.foldl_cons, List.foldl_nil, List.map_append, List.map_cons, List.map_nil,
      List.foldl_append]
    congr 1
    push_cast
    ring

theorem renderRows_eq (palette : List ℕ) (fp : FrameParams K) (width height iterLimit : ℤ)
    (r : Raster) :
    renderRows palette fp width height iterLimit r =
      ((List.range (height.toNat * width.toNat)).map (fun (i : ℕ) =>
        shadePixel palette fp.cRe fp.cIm iterLimit fp.paletteScale
          (fp.xStart + ((i % width.toNat : ℕ) : K) * fp.xStep)
          (fp.yStart + ((i / width.toNat : ℕ) : K) * fp.yStep))).foldl Raster.store r := by
  unfold renderRows
  generalize height.toNat = h
  induction h with
  | zero => simp
  | succ h ih =>
    rw [List.range_succ, List.foldl_append, ih]
    simp only [List.foldl_cons, List.foldl_nil]
    rw [renderRow_eq, Nat.succ_mul, List.range_add, List.map_append, List.foldl_append,
      List.map_map]
    dsimp only
    congr 1
    apply List.map_congr_left
    intro x hx
    have hxw : x < width.toNat := List.mem_range.mp hx
    have hm : (h * width.toNat + x) % width.toNat = x := Nat.mul_add_mod_of_lt hxw
    have hd : (h * width.toNat + x) / width.toNat = h := by
      rw [Nat.mul_comm, Nat.mul_add_div (by omega : width.toNat > 0), Nat.div_eq_of_lt hxw,
        Nat.add_zero]
    simp only [Function.comp, hm, hd]

end RenderLemmas

/-! ### Colouring of one pixel -/

section SmoothLemmas

variable {K : Type} [LinearOrderedField K]

/-- The smooth estimate of a pixel whose magnitude exceeds 4 lies strictly between
`iteration` and `iteration + 1`. -/
theorem smoothOf_bounds (e : Escape K) (hm : 4 < e.zx2 + e.zy2) :
    (e.iteration : K) < smoothOf e ∧ smoothOf e < (e.iteration : K) + 1 := by
  unfold smoothOf
  dsimp only
  have hM : (4 : K) < max (e.zx2 + e.zy2) 4.000001 := lt_max_of_lt_left hm
  have hpos : (0 : K) < max (e.zx2 + e.zy2) 4.000001 := lt_trans (by norm_num) hM
  have h1 : 4 / max (e.zx2 + e.zy2) 4.000001 < 1 := (div_lt_one hpos).mpr hM
  have h0 : 0 < 4 / max (e.zx2 + e.zy2) 4.000001 := div_pos (by norm_num) hpos
  constructor <;> linarith

/-- For an escaped pixel the scaled smooth estimate lies in `[0, 1023)`. -/
theorem scaled_smooth_bounds (e : Escape K) (iterLimit : ℤ)
    (hit : (e.iteration : ℤ) < iterLimit) (hm : 4 < e.zx2 + e.zy2) :
    0 ≤ smoothOf e * (((PALETTE_SIZE : K) - 1) / (iterLimit : K)) ∧
      smoothOf e * (((PALETTE_SIZE : K) - 1) / (iterLimit : K)) < 1023 := by
  obtain ⟨hs0, hs1⟩ := smoothOf_bounds e hm
  have hit0 : (0 : K) ≤ (e.iteration : K) := Nat.cast_nonneg _
  have hL : (e.iteration : K) + 1 ≤ (iterLimit : K) := by
    have : (e.iteration : ℤ) + 1 ≤ iterLimit := hit
    exact_mod_cast this
  have hLpos : (0 : K) < (iterLimit : K) := by linarith
  have hP : ((PALETTE_SIZE : K) - 1) = 1023 := by unfold PALETTE_SIZE; norm_num
  rw [hP]
  constructor
  · exact mul_nonneg (by linarith) (div_nonneg (by norm_num) hLpos.le)
  · rw [← mul_div_assoc, div_lt_iff₀ hLpos]
    nlinarith

end SmoothLemmas

section PixelLemmas

variable {K : Type} [LinearOrderedField K] [FloorRing K]

theorem paletteIndexOf_range (paletteScale : K) (e : Escape K) :
    0 ≤ paletteIndexOf paletteScale e ∧ paletteIndexOf paletteScale e < (PALETTE_SIZE : ℤ) := by
  unfold paletteIndexOf PALETTE_SIZE
  dsimp only
  split_ifs <;> constructor <;> omega

theorem shadePixel_eq (palette : List ℕ) (cRe cIm : K) (iterLimit : ℤ) (paletteScale : K)
    (zx0 zy0 : K) :
    shadePixel palette cRe cIm iterLimit paletteScale zx0 zy0 =
      if ((escapeTime cRe cIm iterLimit zx0 zy0).iteration : ℤ) = iterLimit then interiorColor
      else loadU32 palette (paletteIndexOf paletteScale (escapeTime cRe cIm iterLimit zx0 zy0)) :=
  rfl

/-- Every value `render` can store is opaque, for a palette of full length. -/
theorem shadePixel_alpha (host : Host K) (seed : Seed K) (seconds : K) (palette : List ℕ)
    (hlen : palette.length = PALETTE_SIZE) (cRe cIm : K) (iterLimit : ℤ) (paletteScale : K)
    (zx0 zy0 : K) :
    byteOf (shadePixel (updatePalette host seed seconds palette) cRe cIm iterLimit paletteScale
      zx0 zy0) 3 = 255 := by
  rw [shadePixel_eq]
  split_ifs
  · decide
  · obtain ⟨h0, h1⟩ := paletteIndexOf_range paletteScale (escapeTime cRe cIm iterLimit zx0 zy0)
    rw [loadU32_updatePalette host seed seconds palette hlen _ h0 h1]
    exact byteOf_paletteEntry_alpha _ _ _ _

/-- Under the cosine contract a pixel holds the interior colour exactly when its
iteration count reached the limit. -/
theorem shadePixel_interior_iff (host : Host K) (hcos : host.CosBounded) (seed : Seed K)
    (seconds : K) (palette : List ℕ) (hlen : palette.length = PALETTE_SIZE) (cRe cIm : K)
    (iterLimit : ℤ) (paletteScale : K) (zx0 zy0 : K) :
    shadePixel (updatePalette host seed seconds palette) cRe cIm iterLimit paletteScale
        zx0 zy0 = interiorColor ↔
      ((escapeTime cRe cIm iterLimit zx0 zy0).iteration : ℤ) = iterLimit := by
  rw [shadePixel_eq]
  split_ifs with h
  · simp [h]
  · obtain ⟨h0, h1⟩ := paletteIndexOf_range paletteScale (escapeTime cRe cIm iterLimit zx0 zy0)
    rw [loadU32_updatePalette host seed seconds palette hlen _ h0 h1]
    constructor
    · intro hc; exact absurd hc (paletteEntry_ne_interior host hcos seed seconds _)
    · intro hc; exact absurd hc h

/-- For an escaped pixel, `(smooth * paletteScale) | 0` is the floor and needs no clamp. -/
theorem paletteIndexOf_escaped (e : Escape K) (iterLimit : ℤ)
    (hit : (e.iteration : ℤ) < iterLimit) (hm : 4 < e.zx2 + e.zy2) :
    jsOrZero (smoothOf e * (((PALETTE_SIZE : K) - 1) / (iterLimit : K))) =
        ⌊smoothOf e * (((PALETTE_SIZE : K) - 1) / (iterLimit : K))⌋ ∧
      paletteIndexOf (((PALETTE_SIZE : K) - 1) / (iterLimit : K)) e =
        ⌊smoothOf e * (((PALETTE_SIZE : K) - 1) / (iterLimit : K))⌋ ∧
      0 ≤ ⌊smoothOf e * (((PALETTE_SIZE : K) - 1) / (iterLimit : K))⌋ ∧
      ⌊smoothOf e * (((PALETTE_SIZE : K) - 1) / (iterLimit : K))⌋ ≤ 1022 := by
  obtain ⟨h0, h1⟩ := scaled_smooth_bounds e iterLimit hit hm
  have hor := jsOrZero_eq_floor _ h0 (lt_trans h1 (by norm_num))
  have hf0 : 0 ≤ ⌊smoothOf e * (((PALETTE_SIZE : K) - 1) / (iterLimit : K))⌋ :=
    Int.floor_nonneg.mpr h0
  have hf1 : ⌊smoothOf e * (((PALETTE_SIZE : K) - 1) / (iterLimit : K))⌋ < 1023 := by
    apply Int.floor_lt.mpr
    push_cast
    exact h1
  refine ⟨hor, ?_, hf0, by omega⟩
  unfold paletteIndexOf
  dsimp only
  have hP : ((PALETTE_SIZE : ℕ) : ℤ) = 1024 := rfl
  rw [hor, if_neg (by omega), if_neg (by rw [hP]; omega)]

end PixelLemmas

/-! ### The render pass -/

section RenderTheorems

variable {K : Type} [LinearOrderedField K] [FloorRing K]

/-- The framebuffer after `render` on an allocated buffer, as a sequence of stores. -/
theorem render_raster (host : Host K) (seed : Seed K) (width height iterLimit : ℤ)
    (palette buf : List ℕ) (seconds : K) :
    (render host seed width height iterLimit palette (some buf) seconds).raster =
      some (((List.range (height.toNat * width.toNat)).map (fun (i : ℕ) =>
        shadePixel (updatePalette host seed seconds palette)
          (frameParams host seed width height iterLimit seconds).cRe
          (frameParams host seed width height iterLimit seconds).cIm iterLimit
          (frameParams host seed width height iterLimit seconds).paletteScale
          (sampleOf (frameParams host seed width height iterLimit seconds)
            (i % width.toNat) (i / width.toNat)).1
          (sampleOf (frameParams host seed width height iterLimit seconds)
            (i % width.toNat) (i / width.toNat)).2)).foldl Raster.store
        { pixels32 := buf, p := 0, writes := [] }) := by
  simp only [render, renderRows_eq, sampleOf]

/-- The store number `y * width + x` of a render pass is the one of pixel `(x, y)`. -/
theorem render_write_at (host : Host K) (seed : Seed K) (width height iterLimit : ℤ)
    (palette buf : List ℕ) (seconds : K) (x y : ℕ) (hx : (x : ℤ) < width)
    (hy : (y : ℤ) < height) :
    ∃ r : Raster,
      (render host seed width height iterLimit palette (some buf) seconds).raster = some r ∧
      r.writes[y * width.toNat + x]? = some (y * width.toNat + x,
        shadePixel (updatePalette host seed seconds palette)
          (frameParams host seed width height iterLimit seconds).cRe
          (frameParams host seed width height iterLimit seconds).cIm iterLimit
          (frameParams host seed width height iterLimit seconds).paletteScale
          (sampleOf (frameParams host seed width height iterLimit seconds) x y).1
          (sampleOf (frameParams host seed width height iterLimit seconds) x y).2) := by
  refine ⟨_, render_raster host seed width height iterLimit palette buf seconds, ?_⟩
  have hxw : x < width.toNat := by omega
  have hyh : y < height.toNat := by omega
  have hlt : y * width.toNat + x < height.toNat * width.toNat := by
    calc y * width.toNat + x < y * width.toNat + width.toNat := by omega
      _ = (y + 1) * width.toNat := by ring
      _ ≤ height.toNat * width.toNat := Nat.mul_le_mul_right _ hyh
  have hm : (y * width.toNat + x) % width.toNat = x := Nat.mul_add_mod_of_lt hxw
  have hd : (y * width.toNat + x) / width.toNat = y := by
    rw [Nat.mul_comm, Nat.mul_add_div (by omega : width.toNat > 0), Nat.div_eq_of_lt hxw,
      Nat.add_zero]
  rw [foldl_store_writes]
  simp only [List.nil_append, List.length_map, List.length_range, Nat.zero_add]
  rw [List.getElem?_map, List.getElem?_range hlt]
  simp only [Option.map_some']
  rw [List.getD_eq_getElem?_getD, List.getElem?_map, List.getElem?_range hlt]
  simp only [Option.map_some', Option.getD_some, hm, hd]

/-- C1: for every frame and every pixel `(x, y)` of the raster, the store number
`y*width + x` of the render pass holds the shade computed from the sample
`z0 = (xStart + x*xStep, yStart + y*yStep)` (so the accumulated `zx0` is
`xStart + x*xStep`); the escape-time loop run from `z0` ends with `iteration` the
least `k < iterLimit` with `|z_k|² > 4` for the orbit `z_{k+1} = z_k² + c`, or with
`iterLimit` if there is none; on the escape exit `zx2 + zy2 = |z_k|²`; and the pixel is
written through the interior branch exactly when `iteration = iterLimit` (and, when
`Math.cos` is bounded by 1 and the palette has its 1024 slots, holds the interior
colour exactly then). -/
theorem C1_escape_time_refinement (host : Host K) (seed : Seed K)
    (width height iterLimit : ℤ) (palette buf : List ℕ) (seconds : K) (x y : ℕ)
    (hx : (x : ℤ) < width) (hy : (y : ℤ) < height) (hlim : 0 ≤ iterLimit) :
    (∃ r : Raster,
      (render host seed width height iterLimit palette (some buf) seconds).raster = some r ∧
      r.writes[y * width.toNat + x]? = some (y * width.toNat + x,
        shadePixel (updatePalette host seed seconds palette)
          (frameParams host seed width height iterLimit seconds).cRe
          (frameParams host seed width height iterLimit seconds).cIm iterLimit
          (frameParams host seed width height iterLimit seconds).paletteScale
          (sampleOf (frameParams host seed width height iterLimit seconds) x y).1
          (sampleOf (frameParams host seed width height iterLimit seconds) x y).2)) ∧
    (∀ (cRe cIm : K) (z0 : K × K),
      ((escapeTime cRe cIm iterLimit z0.1 z0.2).iteration : ℤ) ≤ iterLimit ∧
      (∀ k, k < (escapeTime cRe cIm iterLimit z0.1 z0.2).iteration →
        ¬ normSq (juliaOrbit (cRe, cIm) z0 k) > 4) ∧
      (((escapeTime cRe cIm iterLimit z0.1 z0.2).iteration : ℤ) < iterLimit →
        normSq (juliaOrbit (cRe, cIm) z0
          (escapeTime cRe cIm iterLimit z0.1 z0.2).iteration) > 4 ∧
        (escapeTime cRe cIm iterLimit z0.1 z0.2).zx2 +
            (escapeTime cRe cIm iterLimit z0.1 z0.2).zy2 =
          normSq (juliaOrbit (cRe, cIm) z0
            (escapeTime cRe cIm iterLimit z0.1 z0.2).iteration)) ∧
      (∀ (pal : List ℕ) (paletteScale : K),
        shadePixel pal cRe cIm iterLimit paletteScale z0.1 z0.2 =
          if ((escapeTime cRe cIm iterLimit z0.1 z0.2).iteration : ℤ) = iterLimit then
            interiorColor
          else loadU32 pal (paletteIndexOf paletteScale
            (escapeTime cRe cIm iterLimit z0.1 z0.2))) ∧
      (host.CosBounded → palette.length = PALETTE_SIZE → ∀ paletteScale : K,
        (shadePixel (updatePalette host seed seconds palette) cRe cIm iterLimit paletteScale
            z0.1 z0.2 = interiorColor ↔
          ((escapeTime cRe cIm iterLimit z0.1 z0.2).iteration : ℤ) = iterLimit))) := by
  refine ⟨render_write_at host seed width height iterLimit palette buf seconds x y hx hy, ?_⟩
  intro cRe cIm z0
  obtain ⟨_, hno, hle, hesc⟩ := escapeTime_spec cRe cIm iterLimit hlim z0.1 z0.2
  refine ⟨hle, hno, hesc, fun pal s => shadePixel_eq pal cRe cIm iterLimit s z0.1 z0.2, ?_⟩
  intro hcos hlen s
  exact shadePixel_interior_iff host hcos seed seconds palette hlen cRe cIm iterLimit s _ _

/-- Witness for C1: pixel `(3, 2)` of a 140 x 100 raster at `iterLimit = 88`, for the
example seed at time 0 with the real sine and cosine. -/
theorem C1_escape_time_refinement_witness :
    ((3 : ℕ) : ℤ) < 140 ∧ ((2 : ℕ) : ℤ) < 100 ∧ (0 : ℤ) ≤ 88 ∧
    ∃ r : Raster,
      (render (Host.mk Real.pi Real.cos Real.sin Real.sqrt) (exampleSeed ℝ) 140 100 88
        initialPalette (some (List.replicate 14000 0)) 0).raster = some r ∧
      r.writes[2 * (140 : ℤ).toNat + 3]? = some (2 * (140 : ℤ).toNat + 3,
        shadePixel (updatePalette (Host.mk Real.pi Real.cos Real.sin Real.sqrt) (exampleSeed ℝ)
            0 initialPalette)
          (frameParams (Host.mk Real.pi Real.cos Real.sin Real.sqrt) (exampleSeed ℝ)
            140 100 88 0).cRe
          (frameParams (Host.mk Real.pi Real.cos Real.sin Real.sqrt) (exampleSeed ℝ)
            140 100 88 0).cIm 88
          (frameParams (Host.mk Real.pi Real.cos Real.sin Real.sqrt) (exampleSeed ℝ)
            140 100 88 0).paletteScale
          (sampleOf (frameParams (Host.mk Real.pi Real.cos Real.sin Real.sqrt) (exampleSeed ℝ)
            140 100 88 0) 3 2).1
          (sampleOf (frameParams (Host.mk Real.pi Real.cos Real.sin Real.sqrt) (exampleSeed ℝ)
            140 100 88 0) 3 2).2) :=
  ⟨by norm_num, by norm_num, by norm_num,
    (C1_escape_time_refinement (Host.mk Real.pi Real.cos Real.sin Real.sqrt) (exampleSeed ℝ)
      140 100 88 initialPalette (List.replicate 14000 0) 0 3 2 (by norm_num) (by norm_num)
      (by norm_num)).1⟩

/-- C2: for a viewport with `width ≥ 140`, `height ≥ 100`, a framebuffer of
`width*height` pixels and the 1024-slot palette, one render pass stores to the indices
`0 .. width*height - 1` once each and in this order, pixel `(x, y)` at index
`y*width + x`; the cursor `p` ends at `width*height`; every stored value has alpha
byte 255; and the buffer then holds exactly the stored values. -/
theorem C2_render_writes_every_pixel (host : Host K) (seed : Seed K)
    (width height iterLimit : ℤ) (palette buf : List ℕ) (seconds : K)
    (hw : MIN_WIDTH ≤ width) (hh : MIN_HEIGHT ≤ height)
    (hbuf : buf.length = (width * height).toNat) (hpal : palette.length = PALETTE_SIZE) :
    ∃ r : Raster,
      (render host seed width height iterLimit palette (some buf) seconds).raster = some r ∧
      r.p = (width * height).toNat ∧
      r.writes.map Prod.fst = List.range (width * height).toNat ∧
      (∀ x y : ℕ, (x : ℤ) < width → (y : ℤ) < height →
        r.writes[y * width.toNat + x]? = some (y * width.toNat + x,
          shadePixel (updatePalette host seed seconds palette)
            (frameParams host seed width height iterLimit seconds).cRe
            (frameParams host seed width height iterLimit seconds).cIm iterLimit
            (frameParams host seed width height iterLimit seconds).paletteScale
            (sampleOf (frameParams host seed width height iterLimit seconds) x y).1
            (sampleOf (frameParams host seed width height iterLimit seconds) x y).2)) ∧
      (∀ w ∈ r.writes, byteOf w.2 3 = 255) ∧
      r.pixels32 = r.writes.map Prod.snd := by
  have hw0 : 0 ≤ width := le_trans (by decide) hw
  have hh0 : 0 ≤ height := le_trans (by decide) hh
  have hsize : (width * height).toNat = height.toNat * width.toNat := by
    apply Int.ofNat.inj
    simp only [Int.ofNat_eq_coe]
    rw [Int.toNat_of_nonneg (mul_nonneg hw0 hh0)]
    push_cast
    rw [Int.toNat_of_nonneg hw0, Int.toNat_of_nonneg hh0, mul_comm]
  refine ⟨_, render_raster host seed width height iterLimit palette buf seconds, ?_, ?_, ?_, ?_,
    ?_⟩
  · rw [foldl_store_p]; simp [hsize]
  · rw [foldl_store_writes]
    simp only [List.nil_append, List.length_map, List.length_range, List.map_map, Nat.zero_add,
      hsize]
    conv_rhs => rw [← List.map_id (List.range (height.toNat * width.toNat))]
    apply List.map_congr_left
    intro i _
    rfl
  · intro x y hx hy
    obtain ⟨r, hr, hget⟩ :=
      render_write_at host seed width height iterLimit palette buf seconds x y hx hy
    rw [render_raster] at hr
    rw [Option.some.inj hr]
    exact hget
  · intro w hmem
    rw [foldl_store_writes] at hmem
    simp only [List.nil_append, List.length_map, List.length_range, Nat.zero_add,
      List.mem_map, List.mem_range] at hmem
    obtain ⟨i, hi, rfl⟩ := hmem
    dsimp only
    rw [List.getD_eq_getElem?_getD, List.getElem?_map, List.getElem?_range hi]
    simp only [Option.map_some', Option.getD_some]
    exact shadePixel_alpha host seed seconds palette hpal _ _ _ _ _ _
  · rw [foldl_store_fill _ _ (by simp [hbuf, hsize]), foldl_store_writes]
    simp only [List.nil_append, List.length_map, List.length_range, List.map_map, Nat.zero_add]
    apply List.ext_getElem?
    intro i
    by_cases hi : i < height.toNat * width.toNat
    · simp only [List.getElem?_map, List.getElem?_range hi, Option.map_some', Function.comp,
        List.getD_eq_getElem?_getD, Option.getD_some]
    · rw [List.getElem?_eq_none (by simpa using hi), List.getElem?_eq_none (by simpa using hi)]

/-- Witness for C2: the smallest viewport, 140 x 100, with a fresh buffer and the initial
palette. -/
theorem C2_render_writes_every_pixel_witness :
    MIN_WIDTH ≤ 140 ∧ MIN_HEIGHT ≤ 100 ∧
    (List.replicate 14000 0).length = ((140 : ℤ) * 100).toNat ∧
    initialPalette.length = PALETTE_SIZE ∧
    ∃ r : Raster,
      (render (Host.mk Real.pi Real.cos Real.sin Real.sqrt) (exampleSeed ℝ) 140 100 88
        initialPalette (some (List.replicate 14000 0)) 0).raster = some r ∧
      r.p = ((140 : ℤ) * 100).toNat ∧
      r.writes.map Prod.fst = List.range ((140 : ℤ) * 100).toNat ∧
      (∀ w ∈ r.writes, byteOf w.2 3 = 255) ∧
      r.pixels32 = r.writes.map Prod.snd := by
  have hbuf : (List.replicate 14000 0).length = ((140 : ℤ) * 100).toNat := by
    rw [List.length_replicate]; rfl
  have hpal : initialPalette.length = PALETTE_SIZE := by simp [initialPalette]
  obtain ⟨r, h1, h2, h3, _, h5, h6⟩ :=
    C2_render_writes_every_pixel (Host.mk Real.pi Real.cos Real.sin Real.sqrt) (exampleSeed ℝ)
      140 100 88 initialPalette (List.replicate 14000 0) 0 (by decide) (by decide) hbuf hpal
  exact ⟨by decide, by decide, hbuf, hpal, r, h1, h2, h3, h5, h6⟩

end RenderTheorems

/-! ### Quality controller -/

section QualityTheorems

variable {K : Type} [LinearOrderedField K]

theorem tuneQuality_range (n : ℤ) (ms : K) (h : MIN_ITER ≤ n ∧ n ≤ BASE_MAX_ITER) :
    MIN_ITER ≤ tuneQuality n ms ∧ tuneQuality n ms ≤ BASE_MAX_ITER := by
  unfold tuneQuality MIN_ITER BASE_MAX_ITER at *
  split_ifs <;> omega

theorem tuneQuality_step (n : ℤ) (ms : K) :
    n - 2 ≤ tuneQuality n ms ∧ tuneQuality n ms ≤ n + 1 := by
  unfold tuneQuality MIN_ITER BASE_MAX_ITER
  split_ifs <;> omega

theorem tuneQualityMany_range (ds : List K) (n : ℤ) (h : MIN_ITER ≤ n ∧ n ≤ BASE_MAX_ITER) :
    MIN_ITER ≤ tuneQualityMany n ds ∧ tuneQualityMany n ds ≤ BASE_MAX_ITER := by
  induction ds generalizing n with
  | nil => simpa [tuneQualityMany] using h
  | cons d ds ih =>
    have := ih (tuneQuality n d) (tuneQuality_range n d h)
    simpa [tuneQualityMany] using this

/-- C3: starting from `iterLimit = BASE_MAX_ITER = 88`, after any finite sequence of
`tuneQuality` calls with arbitrary durations `iterLimit` is an integer between
`MIN_ITER = 52` and `88`; and one further call decreases it by at most 2 and
increases it by at most 1. -/
theorem C3_iterLimit_bounded (durations : List K) (renderMs : K) :
    (52 ≤ tuneQualityMany BASE_MAX_ITER durations ∧
      tuneQualityMany BASE_MAX_ITER durations ≤ 88) ∧
    (∀ iterLimit : ℤ, iterLimit - 2 ≤ tuneQuality iterLimit renderMs ∧
      tuneQuality iterLimit renderMs ≤ iterLimit + 1) :=
  ⟨tuneQualityMany_range durations BASE_MAX_ITER (by decide),
    fun n => tuneQuality_step n renderMs⟩

/-- C4 fails as stated: `iterLimit = 53` is reached from 88 by the durations
`60` (seventeen times), `10`, `60`, and one more slow frame (`renderMs = 60 > 56`)
yields `52 = max(52, 53 - 2)`, not `53 - 2 = 51`. -/
theorem C4_counterexample :
    ReachableIterLimit ℚ 53 ∧ (60 : ℚ) > 56 ∧ (53 : ℤ) > MIN_ITER ∧
      tuneQuality 53 (60 : ℚ) = 52 ∧ tuneQuality 53 (60 : ℚ) ≠ 53 - 2 := by
  refine ⟨⟨List.replicate 17 60 ++ [10, 60], ?_⟩, by norm_num, by decide, ?_, ?_⟩
  · norm_num [tuneQualityMany, tuneQuality, List.replicate, BASE_MAX_ITER, MIN_ITER]
  · norm_num [tuneQuality, MIN_ITER]
  · norm_num [tuneQuality, MIN_ITER]

/-- C4 (amended): for every integer `iterLimit` (so for every value reachable from 88)
and every duration, if `renderMs > 56` and `iterLimit > 52` the new value is
`max(52, iterLimit - 2)`, which is `iterLimit - 2` unless `iterLimit = 53`; otherwise,
if `renderMs < 30` and `iterLimit < 88`, it is `iterLimit + 1`; otherwise (in particular
whenever `30 ≤ renderMs ≤ 56`) it is unchanged. -/
theorem C4_tuneQuality_policy (iterLimit : ℤ) (renderMs : K) :
    (renderMs > 56 ∧ iterLimit > 52 →
      tuneQuality iterLimit renderMs = max 52 (iterLimit - 2) ∧
      (iterLimit ≠ 53 → tuneQuality iterLimit renderMs = iterLimit - 2)) ∧
    (¬ (renderMs > 56 ∧ iterLimit > 52) → renderMs < 30 ∧ iterLimit < 88 →
      tuneQuality iterLimit renderMs = iterLimit + 1) ∧
    (¬ (renderMs > 56 ∧ iterLimit > 52) → ¬ (renderMs < 30 ∧ iterLimit < 88) →
      tuneQuality iterLimit renderMs = iterLimit) ∧
    (30 ≤ renderMs ∧ renderMs ≤ 56 → tuneQuality iterLimit renderMs = iterLimit) := by
  refine ⟨?_, ?_, ?_, ?_⟩
  · intro h
    have : tuneQuality iterLimit renderMs = max 52 (iterLimit - 2) := by
      simp only [tuneQuality, MIN_ITER]; rw [if_pos h]
    refine ⟨this, fun hne => ?_⟩
    rw [this]; omega
  · intro h1 h2
    simp only [tuneQuality, MIN_ITER, BASE_MAX_ITER]
    rw [if_neg h1, if_pos h2]; omega
  · intro h1 h2
    simp only [tuneQuality, MIN_ITER, BASE_MAX_ITER]
    rw [if_neg h1, if_neg h2]
  · intro h
    simp only [tuneQuality, MIN_ITER, BASE_MAX_ITER]
    rw [if_neg (fun hh => absurd hh.1 (not_lt.mpr h.2)),
      if_neg (fun hh => absurd hh.1 (not_lt.mpr h.1))]

/-- Witness for C4 (amended): `iterLimit = 86`, reached from 88 by one slow frame, tuned
with a duration of 60 ms, becomes 84. -/
theorem C4_tuneQuality_policy_witness :
    ReachableIterLimit ℚ 86 ∧ ((60 : ℚ) > 56 ∧ (86 : ℤ) > 52) ∧
      tuneQuality 86 (60 : ℚ) = 86 - 2 :=
  ⟨⟨[60], by norm_num [tuneQualityMany, tuneQuality, BASE_MAX_ITER, MIN_ITER]⟩,
    ⟨by norm_num, by norm_num⟩,
    ((C4_tuneQuality_policy 86 (60 : ℚ)).1 ⟨by norm_num, by norm_num⟩).2 (by norm_num)⟩

end QualityTheorems

/-! ### Interior and escape invariants -/

section OriginLemmas

variable {K : Type} [LinearOrderedField K]

theorem juliaOrbit_zero (k : ℕ) :
    juliaOrbit ((0 : K), (0 : K)) ((0 : K), (0 : K)) k = ((0 : K), (0 : K)) := by
  induction k with
  | zero => rfl
  | succ k ih =>
    show juliaStep _ (juliaOrbit _ _ k) = _
    rw [ih]
    simp [juliaStep]

/-- With `c = 0` and a positive limit the loop ends at `iteration = 0` exactly for
the samples with `|z0|² > 4`. -/
theorem escapeTime_zero_of_outside (iterLimit : ℤ) (hlim : 0 < iterLimit) (zx0 zy0 : K)
    (hout : zx0 * zx0 + zy0 * zy0 > 4) :
    escapeTime (0 : K) 0 iterLimit zx0 zy0 =
      { zx := zx0, zy := zy0, zx2 := zx0 * zx0, zy2 := zy0 * zy0, iteration := 0 } := by
  unfold escapeTime
  obtain ⟨n, hn⟩ : ∃ n, iterLimit.toNat = n + 1 := ⟨iterLimit.toNat - 1, by omega⟩
  rw [hn]
  simp only [escapeLoop]
  rw [if_pos (by simpa using hlim), if_pos (by rw [lit_four]; exact hout)]

end OriginLemmas

section InvariantTheorems

variable {K : Type} [LinearOrderedField K] [FloorRing K]

/-- C5: for `c = (0,0)` and the sample `z0 = (0,0)`, for every `iterLimit ≥ 1` the
escape-time loop never takes the escape exit: every iterate is `(0,0)`, the loop ends
with `iteration = iterLimit` and `z = (0,0)`, and the pixel receives the interior colour
`packRGBA(8,10,18,255)`. -/
theorem C5_interior_invariant (iterLimit : ℤ) (hlim : 1 ≤ iterLimit) (palette : List ℕ)
    (paletteScale : K) :
    (∀ k, juliaOrbit ((0 : K), (0 : K)) ((0 : K), (0 : K)) k = ((0 : K), (0 : K))) ∧
    ((escapeTime (0 : K) 0 iterLimit 0 0).iteration : ℤ) = iterLimit ∧
    (escapeTime (0 : K) 0 iterLimit 0 0).zx = 0 ∧
    (escapeTime (0 : K) 0 iterLimit 0 0).zy = 0 ∧
    shadePixel palette (0 : K) 0 iterLimit paletteScale 0 0 = interiorColor ∧
    interiorColor = packRGBA 8 10 18 255 := by
  obtain ⟨hz, _, hle, hesc⟩ := escapeTime_spec (0 : K) 0 iterLimit (by omega) 0 0
  have hit : ((escapeTime (0 : K) 0 iterLimit 0 0).iteration : ℤ) = iterLimit := by
    by_contra hne
    obtain ⟨h4, _⟩ := hesc (lt_of_le_of_ne hle hne)
    rw [juliaOrbit_zero] at h4
    simp [normSq] at h4
    linarith
  rw [juliaOrbit_zero] at hz
  refine ⟨juliaOrbit_zero, hit, (Prod.mk.inj hz).1, (Prod.mk.inj hz).2, ?_, rfl⟩
  rw [shadePixel_eq, if_pos hit]

/-- Witness for C5: `iterLimit = 88`, the initial limit. -/
theorem C5_interior_invariant_witness :
    (1 : ℤ) ≤ 88 ∧ ((escapeTime (0 : ℚ) 0 88 0 0).iteration : ℤ) = 88 ∧
      shadePixel initialPalette (0 : ℚ) 0 88 (1023 / 88) 0 0 = interiorColor :=
  ⟨by norm_num, (C5_interior_invariant (88 : ℤ) (by norm_num) initialPalette (1023 / 88 : ℚ)).2.1,
    (C5_interior_invariant (88 : ℤ) (by norm_num) initialPalette (1023 / 88 : ℚ)).2.2.2.2.1⟩

/-- In exact arithmetic, for `c = (0,0)`, `iterLimit ≥ 52` and a sample with `|z0|² > 4`,
the loop exits on its first check with `iteration = 0`; the pixel receives
`palette[floor((1 - 4/max(|z0|², 4.000001)) * 1023 / iterLimit)]`, the index is within
`[0, 1023]`, and the value differs from the interior colour: its red byte is at least
18 while that of the interior colour is 8. -/
theorem escape_invariant_exact (host : Host K) (hcos : host.CosBounded) (seed : Seed K)
    (seconds : K) (palette : List ℕ) (hpal : palette.length = PALETTE_SIZE)
    (iterLimit : ℤ) (hlo : MIN_ITER ≤ iterLimit)
    (zx0 zy0 : K) (hout : zx0 * zx0 + zy0 * zy0 > 4) :
    (escapeTime (0 : K) 0 iterLimit zx0 zy0).iteration = 0 ∧
    shadePixel (updatePalette host seed seconds palette) (0 : K) 0 iterLimit
        (((PALETTE_SIZE : K) - 1) / (iterLimit : K)) zx0 zy0 =
      loadU32 (updatePalette host seed seconds palette)
        ⌊(1 - 4 / max (zx0 * zx0 + zy0 * zy0) 4.000001) * 1023 / (iterLimit : K)⌋ ∧
    0 ≤ ⌊(1 - 4 / max (zx0 * zx0 + zy0 * zy0) 4.000001) * 1023 / (iterLimit : K)⌋ ∧
    ⌊(1 - 4 / max (zx0 * zx0 + zy0 * zy0) 4.000001) * 1023 / (iterLimit : K)⌋ <
      (updatePalette host seed seconds palette).length ∧
    shadePixel (updatePalette host seed seconds palette) (0 : K) 0 iterLimit
        (((PALETTE_SIZE : K) - 1) / (iterLimit : K)) zx0 zy0 ≠ interiorColor ∧
    18 ≤ byteOf (shadePixel (updatePalette host seed seconds palette) (0 : K) 0 iterLimit
        (((PALETTE_SIZE : K) - 1) / (iterLimit : K)) zx0 zy0) 0 ∧
    byteOf interiorColor 0 = 8 := by
  have hlim : 0 < iterLimit := lt_of_lt_of_le (by decide) hlo
  have he := escapeTime_zero_of_outside iterLimit hlim zx0 zy0 hout
  have hit : ((escapeTime (0 : K) 0 iterLimit zx0 zy0).iteration : ℤ) < iterLimit := by
    rw [he]; simpa using hlim
  have hm : 4 < (escapeTime (0 : K) 0 iterLimit zx0 zy0).zx2 +
      (escapeTime (0 : K) 0 iterLimit zx0 zy0).zy2 := by rw [he]; exact hout
  obtain ⟨_, hidx, hf0, hf1⟩ := paletteIndexOf_escaped _ iterLimit hit hm
  have hfloor : smoothOf (escapeTime (0 : K) 0 iterLimit zx0 zy0) *
      (((PALETTE_SIZE : K) - 1) / (iterLimit : K)) =
      (1 - 4 / max (zx0 * zx0 + zy0 * zy0) 4.000001) * 1023 / (iterLimit : K) := by
    rw [he]
    simp only [smoothOf, PALETTE_SIZE]
    push_cast
    ring
  rw [hfloor] at hidx hf0 hf1
  have hshade : shadePixel (updatePalette host seed seconds palette) (0 : K) 0 iterLimit
      (((PALETTE_SIZE : K) - 1) / (iterLimit : K)) zx0 zy0 =
      loadU32 (updatePalette host seed seconds palette)
        ⌊(1 - 4 / max (zx0 * zx0 + zy0 * zy0) 4.000001) * 1023 / (iterLimit : K)⌋ := by
    rw [shadePixel_eq, if_neg (ne_of_lt hit), hidx]
  have hP : ((PALETTE_SIZE : ℕ) : ℤ) = 1024 := rfl
  have hload := loadU32_updatePalette host seed seconds palette hpal _ hf0 (by rw [hP]; omega)
  refine ⟨by rw [he], hshade, hf0, ?_, ?_, ?_, byteOf_interiorColor⟩
  · rw [updatePalette_length, hpal, hP]; omega
  · rw [hshade, hload]
    exact paletteEntry_ne_interior host hcos seed seconds _
  · rw [hshade, hload]
    have h1 := (paletteEntry_bytes host hcos seed seconds
      ⌊(1 - 4 / max (zx0 * zx0 + zy0 * zy0) 4.000001) * 1023 / (iterLimit : K)⌋.toNat).1
    have h2 := (paletteChannels_bounds host hcos seed seconds
      ⌊(1 - 4 / max (zx0 * zx0 + zy0 * zy0) 4.000001) * 1023 / (iterLimit : K)⌋.toNat).1.1
    omega

end InvariantTheorems

/-! ### The recurrence on Mathlib's complex numbers -/

/-- Over the reals, `juliaStep` is `z ↦ z² + c` on `ℂ`. -/
theorem juliaStep_complex (c z : ℝ × ℝ) :
    (Complex.mk (juliaStep c z).1 (juliaStep c z).2) =
      (Complex.mk z.1 z.2) ^ 2 + Complex.mk c.1 c.2 := by
  apply Complex.ext
  · simp [juliaStep, sq]
  · simp [juliaStep, sq]; ring

/-- Over the reals, `normSq` is the squared modulus on `ℂ`. -/
theorem normSq_complex (z : ℝ × ℝ) : normSq z = Complex.normSq (Complex.mk z.1 z.2) := by
  simp [normSq, Complex.normSq_apply]

/-! ### The 4 x 3 scenario -/

/-- The example seed at time 0 with the real sine and cosine, on a 4 x 3 raster:
`c = (0, 0)` and the sample of pixel `(0, 0)` is `(-1, -0.75)`. -/
theorem frameParams_example :
    (frameParams (Host.mk Real.pi Real.cos Real.sin Real.sqrt) (exampleSeed ℝ) 4 3 10 0).cRe
      = 0 ∧
    (frameParams (Host.mk Real.pi Real.cos Real.sin Real.sqrt) (exampleSeed ℝ) 4 3 10 0).cIm
      = 0 ∧
    sampleOf (frameParams (Host.mk Real.pi Real.cos Real.sin Real.sqrt) (exampleSeed ℝ) 4 3 10 0)
      0 0 = (-1, -3 / 4) := by
  refine ⟨?_, ?_, ?_⟩
  · simp [frameParams, exampleSeed]
  · simp [frameParams, exampleSeed]
  · simp [frameParams, exampleSeed, sampleOf]
    norm_num

/-- The loop run from `(-1, -0.75)` with `c = (0, 0)` leaves through the escape exit in
its third pass. -/
theorem escapeTime_example : (escapeTime (0 : ℝ) 0 10 (-1) (-3 / 4)).iteration = 2 := by
  have e : escapeTime (0 : ℝ) 0 10 (-1) (-3 / 4) =
      escapeLoop 0 0 10 (7 + 1 + 1 + 1) ⟨-1, -3 / 4, 0, 0, 0⟩ := by
    have h10 : Int.toNat 10 = 7 + 1 + 1 + 1 := rfl
    unfold escapeTime
    rw [h10]
  rw [e, escapeLoop_succ, if_pos (by norm_num), if_neg (by norm_num), escapeLoop_succ,
    if_pos (by norm_num), if_neg (by norm_num), escapeLoop_succ,
    if_pos (by norm_num), if_pos (by norm_num)]

/-! ### Classification for `c = 0` and smooth colouring -/

section ScenarioTheorems

variable {K : Type} [LinearOrderedField K] [FloorRing K]

/-- In exact arithmetic, for `c = (0,0)` and `iterLimit = 10`, a pixel whose sample has
`|z0|² > 4` is classified escaped at iteration 0; a pixel is classified interior
(its iteration count reaches 10, and it then receives the interior colour) exactly when
`(|z0|²)^512 ≤ 4`, in particular whenever `|z0| ≤ 1`; and a sample with `|z0|² ≤ 4` but
`(|z0|²)^512 > 4` escapes at an iteration between 1 and 9. -/
theorem scenario_classification_exact (zx0 zy0 : K) (palette : List ℕ) (paletteScale : K) :
    (zx0 * zx0 + zy0 * zy0 > 4 → (escapeTime (0 : K) 0 10 zx0 zy0).iteration = 0) ∧
    ((escapeTime (0 : K) 0 10 zx0 zy0).iteration = 10 ↔ (zx0 * zx0 + zy0 * zy0) ^ 512 ≤ 4) ∧
    ((escapeTime (0 : K) 0 10 zx0 zy0).iteration = 10 →
      shadePixel palette (0 : K) 0 10 paletteScale zx0 zy0 = interiorColor) ∧
    (zx0 * zx0 + zy0 * zy0 ≤ 1 → (escapeTime (0 : K) 0 10 zx0 zy0).iteration = 10) ∧
    (zx0 * zx0 + zy0 * zy0 ≤ 4 → (zx0 * zx0 + zy0 * zy0) ^ 512 > 4 →
      1 ≤ (escapeTime (0 : K) 0 10 zx0 zy0).iteration ∧
      (escapeTime (0 : K) 0 10 zx0 zy0).iteration ≤ 9) := by
  obtain ⟨_, hno, hle, hesc⟩ := escapeTime_spec (0 : K) 0 10 (by norm_num) zx0 zy0
  have hle' : (escapeTime (0 : K) 0 10 zx0 zy0).iteration ≤ 10 := by exact_mod_cast hle
  have hn : normSq (zx0, zy0) = zx0 * zx0 + zy0 * zy0 := rfl
  have hn0 : 0 ≤ zx0 * zx0 + zy0 * zy0 := add_nonneg (mul_self_nonneg _) (mul_self_nonneg _)
  simp only [normSq_orbit_zero, hn] at hno hesc
  generalize zx0 * zx0 + zy0 * zy0 = n at hno hesc hn0 ⊢
  have h29 : (2 : ℕ) ^ 9 = 512 := by norm_num
  have hiff : (escapeTime (0 : K) 0 10 zx0 zy0).iteration = 10 ↔ n ^ 512 ≤ 4 := by
    constructor
    · intro h10
      have := hno 9 (by omega)
      rw [h29] at this
      exact not_lt.mp this
    · intro h512
      by_contra hne
      have hlt : (escapeTime (0 : K) 0 10 zx0 zy0).iteration < 10 := lt_of_le_of_ne hle' hne
      obtain ⟨h4, _⟩ := hesc (by exact_mod_cast hlt)
      have hk : 2 ^ (escapeTime (0 : K) 0 10 zx0 zy0).iteration ≤ 512 := by
        rw [← h29]
        exact Nat.pow_le_pow_right (by norm_num) (by omega)
      rcases le_or_lt n 1 with h1 | h1
      · have h := pow_le_one₀ (n := 2 ^ (escapeTime (0 : K) 0 10 zx0 zy0).iteration) hn0 h1
        exact absurd (lt_of_lt_of_le h4 h) (by norm_num)
      · have h := pow_le_pow_right₀ h1.le hk
        exact absurd (lt_of_lt_of_le h4 (le_trans h h512)) (lt_irrefl _)
  refine ⟨?_, hiff, ?_, ?_, ?_⟩
  · intro hout
    have hz : ¬ (escapeTime (0 : K) 0 10 zx0 zy0).iteration ≠ 0 := by
      intro hpos
      have := hno 0 (Nat.pos_of_ne_zero hpos)
      rw [pow_zero, pow_one] at this
      exact this hout
    exact not_not.mp hz
  · intro h10
    rw [shadePixel_eq, if_pos (by exact_mod_cast h10)]
  · intro h1
    exact hiff.mpr (le_trans (pow_le_one₀ hn0 h1) (by norm_num))
  · intro h4 h512
    have hne : (escapeTime (0 : K) 0 10 zx0 zy0).iteration ≠ 10 :=
      fun h => absurd (hiff.mp h) (not_le.mpr h512)
    refine ⟨?_, by omega⟩
    by_contra h0
    have hz : (escapeTime (0 : K) 0 10 zx0 zy0).iteration = 0 := by omega
    obtain ⟨hgt, _⟩ := hesc (by rw [hz]; norm_num)
    rw [hz, pow_zero, pow_one] at hgt
    exact absurd hgt (not_lt.mpr h4)

/-- C8: for every escaped pixel (`iteration < iterLimit`; in particular for every
`iterLimit` in `[52, 88]`) the smooth-colouring step is safe: the divisor
`max(|z|², 4.000001)` is at least `4.000001` and not zero; the truncation
`(smooth * paletteScale) | 0` equals `floor(smooth * 1023 / iterLimit)`; the index used
is that floor clamped to `[0, 1023]`; and it lies inside the 1024-entry palette. -/
theorem C8_smooth_colouring_safe (cRe cIm zx0 zy0 : K) (iterLimit : ℤ)
    (hesc : ((escapeTime cRe cIm iterLimit zx0 zy0).iteration : ℤ) < iterLimit) :
    (4.000001 : K) ≤ max ((escapeTime cRe cIm iterLimit zx0 zy0).zx2 +
      (escapeTime cRe cIm iterLimit zx0 zy0).zy2) 4.000001 ∧
    max ((escapeTime cRe cIm iterLimit zx0 zy0).zx2 +
      (escapeTime cRe cIm iterLimit zx0 zy0).zy2) (4.000001 : K) ≠ 0 ∧
    jsOrZero (smoothOf (escapeTime cRe cIm iterLimit zx0 zy0) *
        (((PALETTE_SIZE : K) - 1) / (iterLimit : K))) =
      ⌊smoothOf (escapeTime cRe cIm iterLimit zx0 zy0) * ((PALETTE_SIZE : K) - 1) /
        (iterLimit : K)⌋ ∧
    paletteIndexOf (((PALETTE_SIZE : K) - 1) / (iterLimit : K))
        (escapeTime cRe cIm iterLimit zx0 zy0) =
      max 0 (min ((PALETTE_SIZE : ℤ) - 1)
        ⌊smoothOf (escapeTime cRe cIm iterLimit zx0 zy0) * ((PALETTE_SIZE : K) - 1) /
          (iterLimit : K)⌋) ∧
    0 ≤ paletteIndexOf (((PALETTE_SIZE : K) - 1) / (iterLimit : K))
      (escapeTime cRe cIm iterLimit zx0 zy0) ∧
    paletteIndexOf (((PALETTE_SIZE : K) - 1) / (iterLimit : K))
      (escapeTime cRe cIm iterLimit zx0 zy0) < (PALETTE_SIZE : ℤ) ∧
    (∀ (host : Host K) (seed : Seed K) (seconds : K) (palette : List ℕ),
      palette.length = PALETTE_SIZE →
      (paletteIndexOf (((PALETTE_SIZE : K) - 1) / (iterLimit : K))
        (escapeTime cRe cIm iterLimit zx0 zy0)).toNat <
          (updatePalette host seed seconds palette).length) := by
  have hlim : 0 ≤ iterLimit := le_trans (Int.natCast_nonneg _) hesc.le
  obtain ⟨_, hm⟩ := escapeTime_magnitude cRe cIm iterLimit hlim zx0 zy0 (ne_of_lt hesc)
  obtain ⟨hor, hidx, hf0, hf1⟩ := paletteIndexOf_escaped _ iterLimit hesc hm
  have hre : smoothOf (escapeTime cRe cIm iterLimit zx0 zy0) *
      (((PALETTE_SIZE : K) - 1) / (iterLimit : K)) =
      smoothOf (escapeTime cRe cIm iterLimit zx0 zy0) * ((PALETTE_SIZE : K) - 1) /
        (iterLimit : K) := by rw [mul_div_assoc]
  have hP : ((PALETTE_SIZE : ℕ) : ℤ) = 1024 := rfl
  have hM : (4.000001 : K) ≤ max ((escapeTime cRe cIm iterLimit zx0 zy0).zx2 +
      (escapeTime cRe cIm iterLimit zx0 zy0).zy2) 4.000001 := le_max_right _ _
  obtain ⟨hr0, hr1⟩ := paletteIndexOf_range (((PALETTE_SIZE : K) - 1) / (iterLimit : K))
    (escapeTime cRe cIm iterLimit zx0 zy0)
  refine ⟨hM, ?_, ?_, ?_, hr0, hr1, ?_⟩
  · exact ne_of_gt (lt_of_lt_of_le (by norm_num) hM)
  · rw [← hre]; exact hor
  · rw [← hre, hidx, hP]
    omega
  · intro host seed seconds palette hlen
    rw [updatePalette_length, hlen]
    have : ((paletteIndexOf (((PALETTE_SIZE : K) - 1) / (iterLimit : K))
        (escapeTime cRe cIm iterLimit zx0 zy0)).toNat : ℤ) < (PALETTE_SIZE : ℤ) := by
      rw [Int.toNat_of_nonneg hr0]; exact hr1
    exact_mod_cast this

/-- Witness for C8: with `c = (0,0)` and `iterLimit = 52` the sample `(3, 0)` escapes. -/
theorem C8_smooth_colouring_safe_witness :
    (((escapeTime (0 : ℚ) 0 52 3 0).iteration : ℤ) < 52) ∧
    paletteIndexOf (((PALETTE_SIZE : ℚ) - 1) / ((52 : ℤ) : ℚ)) (escapeTime (0 : ℚ) 0 52 3 0) <
      (PALETTE_SIZE : ℤ) :=
  have h : ((escapeTime (0 : ℚ) 0 52 3 0).iteration : ℤ) < 52 := by
    rw [escapeTime_zero_of_outside 52 (by norm_num) (3 : ℚ) 0 (by norm_num)]
    norm_num
  ⟨h, (C8_smooth_colouring_safe (0 : ℚ) 0 3 0 52 h).2.2.2.2.2.1⟩

end ScenarioTheorems

/-! ### Palette entries -/

section PaletteTheorems

variable {K : Type} [LinearOrderedField K] [FloorRing K]

/-- The channels computed by the loop body of `updatePalette` are those of the
specification's formulas. -/
theorem paletteChannels_eq_spec (host : Host K) (seed : Seed K) (seconds : K) (i : ℕ) :
    paletteChannels host seed seconds i =
      (specChannel host 18 205 0 (specPhase seed seconds i),
        specChannel host 16 195 0.2 (specPhase seed seconds i),
        specChannel host 28 210 0.38 (specPhase seed seconds i)) := by
  have key : ∀ off : K,
      TAU host * (seed.paletteShift + seconds * 0.02 +
        (i : K) / ((PALETTE_SIZE : K) - 1) * 0.7 + off) =
      2 * host.PI * (specPhase seed seconds i + off) := by
    intro off
    unfold TAU specPhase PALETTE_SIZE
    push_cast
    ring
  have zero_lit : (0.0 : K) = 0 := by norm_num
  have wave : ∀ base amp c : K, base + (0.5 + 0.5 * c) * amp = base + 0.5 * (1 + c) * amp := by
    intro base amp c; ring
  simp only [paletteChannels, specChannel, key, wave, zero_lit]

/-- C10: for every animation time, every `paletteShift` and every slot `i < 1024`,
`updatePalette` writes `palette[i] = packRGBA(r, g, b, 255)` with
`phase = paletteShift + 0.02*seconds + 0.7*i/1023` and
`r = floor(18 + 0.5*(1+cos(2*pi*phase))*205)`,
`g = floor(16 + 0.5*(1+cos(2*pi*(phase+0.2)))*195)`,
`b = floor(28 + 0.5*(1+cos(2*pi*(phase+0.38)))*210)`; and, `cos` taking values in
`[-1, 1]`, red lies in `[18, 223]`, green in `[16, 211]`, blue in `[28, 238]`, these are
bytes 0, 1, 2 of the entry and byte 3 (alpha) is 255. -/
theorem C10_palette_entries (host : Host K) (hcos : host.CosBounded) (seed : Seed K)
    (seconds : K) (palette : List ℕ) (hlen : palette.length = PALETTE_SIZE) (i : ℕ)
    (hi : i < PALETTE_SIZE) :
    (updatePalette host seed seconds palette)[i]? =
      some (packRGBA (specChannel host 18 205 0 (specPhase seed seconds i))
        (specChannel host 16 195 0.2 (specPhase seed seconds i))
        (specChannel host 28 210 0.38 (specPhase seed seconds i)) 255) ∧
    (18 ≤ specChannel host 18 205 0 (specPhase seed seconds i) ∧
      specChannel host 18 205 0 (specPhase seed seconds i) ≤ 223) ∧
    (16 ≤ specChannel host 16 195 0.2 (specPhase seed seconds i) ∧
      specChannel host 16 195 0.2 (specPhase seed seconds i) ≤ 211) ∧
    (28 ≤ specChannel host 28 210 0.38 (specPhase seed seconds i) ∧
      specChannel host 28 210 0.38 (specPhase seed seconds i) ≤ 238) ∧
    (byteOf (packRGBA (specChannel host 18 205 0 (specPhase seed seconds i))
        (specChannel host 16 195 0.2 (specPhase seed seconds i))
        (specChannel host 28 210 0.38 (specPhase seed seconds i)) 255) 0 : ℤ) =
      specChannel host 18 205 0 (specPhase seed seconds i) ∧
    (byteOf (packRGBA (specChannel host 18 205 0 (specPhase seed seconds i))
        (specChannel host 16 195 0.2 (specPhase seed seconds i))
        (specChannel host 28 210 0.38 (specPhase seed seconds i)) 255) 1 : ℤ) =
      specChannel host 16 195 0.2 (specPhase seed seconds i) ∧
    (byteOf (packRGBA (specChannel host 18 205 0 (specPhase seed seconds i))
        (specChannel host 16 195 0.2 (specPhase seed seconds i))
        (specChannel host 28 210 0.38 (specPhase seed seconds i)) 255) 2 : ℤ) =
      specChannel host 28 210 0.38 (specPhase seed seconds i) ∧
    (byteOf (packRGBA (specChannel host 18 205 0 (specPhase seed seconds i))
        (specChannel host 16 195 0.2 (specPhase seed seconds i))
        (specChannel host 28 210 0.38 (specPhase seed seconds i)) 255) 3 : ℤ) = 255 := by
  have hget := updatePalette_getElem? host seed seconds palette hlen i hi
  have hb := paletteChannels_bounds host hcos seed seconds i
  have hbytes := paletteEntry_bytes host hcos seed seconds i
  unfold paletteEntry at hget hbytes
  rw [paletteChannels_eq_spec] at hget hb hbytes
  exact ⟨hget, hb.1, hb.2.1, hb.2.2, hbytes.1, hbytes.2.1, hbytes.2.2.1, hbytes.2.2.2⟩

/-- Witness for C10: the last slot of the initial palette, at time 0, with the real
cosine. -/
theorem C10_palette_entries_witness :
    (18 ≤ specChannel (Host.mk Real.pi Real.cos Real.sin Real.sqrt) 18 205 0
      (specPhase (Seed.mk 0 0 0 0 0 0 0 0 (3 / 2) 0 0 0 0 0 0 0 0 0 0 0 (1 / 2)) (0 : ℝ) 1023) ∧
    specChannel (Host.mk Real.pi Real.cos Real.sin Real.sqrt) 18 205 0
      (specPhase (Seed.mk 0 0 0 0 0 0 0 0 (3 / 2) 0 0 0 0 0 0 0 0 0 0 0 (1 / 2)) (0 : ℝ) 1023)
        ≤ 223) :=
  (C10_palette_entries (Host.mk Real.pi Real.cos Real.sin Real.sqrt)
    (fun x => ⟨Real.neg_one_le_cos x, Real.cos_le_one x⟩)
    (Seed.mk 0 0 0 0 0 0 0 0 (3 / 2) 0 0 0 0 0 0 0 0 0 0 0 (1 / 2)) (0 : ℝ) initialPalette
    (by simp [initialPalette]) 1023 (by decide)).2.1

end PaletteTheorems

/-! ### Packing of colours -/

/-- The intermediate `a << 24` of `packRGBA` is negative for `128 ≤ a ≤ 255`. -/
theorem jsShl_alpha_negative (a : ℤ) (h0 : 128 ≤ a) (h1 : a ≤ 255) :
    jsShl a 24 = a * 2 ^ 24 - 2 ^ 32 ∧ jsShl a 24 < 0 := by
  unfold jsShl toInt32
  norm_num
  constructor
  · split_ifs <;> omega
  · split_ifs <;> omega

/-- C11: for integers `r, g, b, a` in `[0, 255]`,
`packRGBA(r,g,b,a) = r + 2^8*g + 2^16*b + 2^24*a`, a value in `[0, 2^32)`; the
intermediate `a << 24` is negative for `a ≥ 128` and `>>> 0` returns the unsigned value;
bytes 0, 1, 2, 3 of the result are `r, g, b, a`; and
`packRGBA(8,10,18,255) = 0xFF120A08`. -/
theorem C11_packRGBA_little_endian (r g b a : ℤ) (hr : 0 ≤ r ∧ r ≤ 255)
    (hg : 0 ≤ g ∧ g ≤ 255) (hb : 0 ≤ b ∧ b ≤ 255) (ha : 0 ≤ a ∧ a ≤ 255) :
    (packRGBA r g b a : ℤ) = r + 2 ^ 8 * g + 2 ^ 16 * b + 2 ^ 24 * a ∧
    packRGBA r g b a < 2 ^ 32 ∧
    (128 ≤ a → jsShl a 24 < 0 ∧
      jsOr (jsOr (jsOr (jsShl a 24) (jsShl b 16)) (jsShl g 8)) r < 0) ∧
    (byteOf (packRGBA r g b a) 0 : ℤ) = r ∧
    (byteOf (packRGBA r g b a) 1 : ℤ) = g ∧
    (byteOf (packRGBA r g b a) 2 : ℤ) = b ∧
    (byteOf (packRGBA r g b a) 3 : ℤ) = a ∧
    packRGBA 8 10 18 255 = 0xFF120A08 ∧ interiorColor = 0xFF120A08 := by
  have hbytes := byteOf_packRGBA_int r g b a hr hg hb ha
  obtain ⟨rn, rfl⟩ := Int.eq_ofNat_of_zero_le hr.1
  obtain ⟨gn, rfl⟩ := Int.eq_ofNat_of_zero_le hg.1
  obtain ⟨bn, rfl⟩ := Int.eq_ofNat_of_zero_le hb.1
  obtain ⟨an, rfl⟩ := Int.eq_ofNat_of_zero_le ha.1
  have hsum := packRGBA_bytes rn gn bn an (by omega) (by omega) (by omega) (by omega)
  have hlt : packRGBA (rn : ℤ) gn bn an < 2 ^ 32 := by rw [hsum]; omega
  refine ⟨?_, hlt, ?_, hbytes.1, hbytes.2.1, hbytes.2.2.1, hbytes.2.2.2, by decide, by decide⟩
  · rw [hsum]; push_cast; ring
  · intro h128
    refine ⟨(jsShl_alpha_negative _ h128 ha.2).2, ?_⟩
    have hu : toUint32 (jsOr (jsOr (jsOr (jsShl (an : ℤ) 24) (jsShl (bn : ℤ) 16))
        (jsShl (gn : ℤ) 8)) (rn : ℤ)) = rn + 2 ^ 8 * gn + 2 ^ 16 * bn + 2 ^ 24 * an := hsum
    have hbig : 2 ^ 31 ≤ toUint32 (jsOr (jsOr (jsOr (jsShl (an : ℤ) 24) (jsShl (bn : ℤ) 16))
        (jsShl (gn : ℤ) 8)) (rn : ℤ)) := by rw [hu]; omega
    generalize jsOr (jsOr (jsShl (an : ℤ) 24) (jsShl (bn : ℤ) 16)) (jsShl (gn : ℤ) 8) = x
      at hbig ⊢
    unfold jsOr at hbig ⊢
    rw [toUint32_toInt32] at hbig
    have hlt32 := Nat.or_lt_two_pow (toUint32_lt x) (toUint32_lt (rn : ℤ))
    rw [toUint32_natCast _ hlt32] at hbig
    unfold toInt32
    split_ifs <;> omega

/-- Witness for C11: the interior colour `packRGBA(8, 10, 18, 255)`. -/
theorem C11_packRGBA_little_endian_witness :
    (packRGBA 8 10 18 255 : ℤ) = 8 + 2 ^ 8 * 10 + 2 ^ 16 * 18 + 2 ^ 24 * 255 ∧
      (byteOf (packRGBA 8 10 18 255) 3 : ℤ) = 255 :=
  ⟨(C11_packRGBA_little_endian 8 10 18 255 (by norm_num) (by norm_num) (by norm_num)
      (by norm_num)).1,
    (C11_packRGBA_little_endian 8 10 18 255 (by norm_num) (by norm_num) (by norm_num)
      (by norm_num)).2.2.2.2.2.2.1⟩

/-! ### Scheduler -/

section SchedulerLemmas

variable {K : Type} [LinearOrderedField K] [FloorRing K]

theorem run_append (host : Host K) (seed : Seed K) (s : Renderer K) (es fs : List (Event K)) :
    run host seed s (es ++ fs) =
      match run host seed s es with
      | none => none
      | some s1 => run host seed s1 fs := by
  induction es generalizing s with
  | nil => rfl
  | cons e es ih =>
    simp only [List.cons_append, run]
    cases step host seed s e with
    | none => rfl
    | some s1 => exact ih s1

theorem run_cons_some (host : Host K) (seed : Seed K) (s s2 : Renderer K) (e : Event K)
    (es : List (Event K)) (h : run host seed s (e :: es) = some s2) :
    ∃ s1, step host seed s e = some s1 ∧ run host seed s1 es = some s2 := by
  simp only [run] at h
  cases hstep : step host seed s e with
  | none => rw [hstep] at h; exact absurd h (by simp)
  | some s1 => rw [hstep] at h; exact ⟨s1, rfl, h⟩

theorem reachable_step (host : Host K) (seed : Seed K) (s s1 : Renderer K) (e : Event K)
    (hs : Reachable host seed s) (he : e.HandleNonzero) (hstep : step host seed s e = some s1) :
    Reachable host seed s1 := by
  obtain ⟨w, h, d, now, handle, es, hh, hes, hrun⟩ := hs
  refine ⟨w, h, d, now, handle, es ++ [e], hh, ?_, ?_⟩
  · intro e' he'
    rcases List.mem_append.mp he' with h1 | h1
    · exact hes e' h1
    · rw [List.mem_singleton.mp h1]; exact he
  · rw [run_append, hrun]
    simp only [run, hstep]

theorem reachable_run (host : Host K) (seed : Seed K) (es : List (Event K)) :
    ∀ (s s1 : Renderer K), Reachable host seed s → (∀ e ∈ es, e.HandleNonzero) →
      run host seed s es = some s1 → Reachable host seed s1 := by
  induction es with
  | nil =>
    intro s s1 hs _ hrun
    simp only [run, Option.some.injEq] at hrun
    rw [← hrun]; exact hs
  | cons e es ih =>
    intro s s1 hs hes hrun
    obtain ⟨s2, hstep, hrest⟩ := run_cons_some host seed s s1 e es hrun
    exact ih s2 s1 (reachable_step host seed s s2 e hs (hes e (List.mem_cons_self _ _)) hstep)
      (fun e' he' => hes e' (List.mem_cons_of_mem _ he')) hrest

/-- The callbacks pending after `frame`: only the one just requested, if none was pending
when it started. -/
theorem frame_scheduling (host : Host K) (seed : Seed K) (s : Renderer K)
    (nowMs started finished : K) (handle : ℕ) :
    (frame host seed s nowMs started finished handle).rafId = handle ∧
    (frame host seed s nowMs started finished handle).frameCallbacks =
      s.frameCallbacks ++ [handle] ∧
    (frame host seed s nowMs started finished handle).timeouts = s.timeouts ∧
    (frame host seed s nowMs started finished handle).resizeTimer = s.resizeTimer := by
  unfold frame
  dsimp only
  split_ifs <;> simp [Renderer.requestFrame, Renderer.render]

/-- The scheduling invariant is kept by every event: the pending frame callbacks are
exactly the one named by `rafId`, and there is none when `rafId` is 0. -/
theorem step_inv (host : Host K) (seed : Seed K) (s s1 : Renderer K) (e : Event K)
    (hinv : s.frameCallbacks = if s.rafId = 0 then [] else [s.rafId]) (he : e.HandleNonzero)
    (hstep : step host seed s e = some s1) :
    s1.frameCallbacks = if s1.rafId = 0 then [] else [s1.rafId] := by
  cases e with
  | tick nowMs started finished handle =>
    have hh : handle ≠ 0 := he
    simp only [step] at hstep
    by_cases h0 : s.rafId = 0
    · rw [if_pos h0] at hinv
      rw [hinv] at hstep
      exact absurd hstep (by simp)
    · rw [if_neg h0] at hinv
      rw [hinv] at hstep
      simp only [Option.some.injEq] at hstep
      obtain ⟨h1, h2, _, _⟩ := frame_scheduling host seed
        { s with frameCallbacks := [] } nowMs started finished handle
      rw [← hstep, h1, h2, if_neg hh]
      rfl
  | resized handle =>
    simp only [step, Option.some.injEq] at hstep
    rw [← hstep]
    exact hinv
  | timeout w h d now =>
    simp only [step] at hstep
    cases ht : s.timeouts with
    | nil => rw [ht] at hstep; exact absurd hstep (by simp)
    | cons t rest =>
      rw [ht] at hstep
      simp only [Option.some.injEq] at hstep
      rw [← hstep]
      exact hinv
  | visibilityLost =>
    simp only [step, Option.some.injEq] at hstep
    rw [← hstep]
    simp only [onVisibilityChange, if_true]
    rw [hinv]
    by_cases h0 : s.rafId = 0
    · simp [h0]
    · simp [h0]
  | visibilityRegained handle =>
    have hh : handle ≠ 0 := he
    simp only [step, Option.some.injEq] at hstep
    rw [← hstep]
    by_cases h0 : s.rafId = 0
    · rw [if_pos h0] at hinv
      simp [onVisibilityChange, h0, Renderer.requestFrame, hinv, hh]
    · simp only [onVisibilityChange, Bool.false_eq_true, if_false, if_neg h0]
      rw [if_neg h0] at hinv
      exact hinv

theorem startup_inv (host : Host K) (seed : Seed K) (w h d now : K) (handle : ℕ)
    (hh : handle ≠ 0) :
    (startup host seed w h d now handle).frameCallbacks =
      if (startup host seed w h d now handle).rafId = 0 then []
      else [(startup host seed w h d now handle).rafId] := by
  simp [startup, Renderer.requestFrame, Renderer.render, Renderer.resize, Renderer.initial, hh]

theorem run_inv (host : Host K) (seed : Seed K) (es : List (Event K)) :
    ∀ (s s1 : Renderer K), (s.frameCallbacks = if s.rafId = 0 then [] else [s.rafId]) →
      (∀ e ∈ es, e.HandleNonzero) → run host seed s es = some s1 →
      s1.frameCallbacks = if s1.rafId = 0 then [] else [s1.rafId] := by
  induction es with
  | nil =>
    intro s s1 hs _ hrun
    simp only [run, Option.some.injEq] at hrun
    rw [← hrun]; exact hs
  | cons e es ih =>
    intro s s1 hs hes hrun
    obtain ⟨s2, hstep, hrest⟩ := run_cons_some host seed s s1 e es hrun
    exact ih s2 s1 (step_inv host seed s s2 e hs (hes e (List.mem_cons_self _ _)) hstep)
      (fun e' he' => hes e' (List.mem_cons_of_mem _ he')) hrest

theorem reachable_inv (host : Host K) (seed : Seed K) (s : Renderer K)
    (hs : Reachable host seed s) :
    s.frameCallbacks = if s.rafId = 0 then [] else [s.rafId] := by
  obtain ⟨w, h, d, now, handle, es, hh, hes, hrun⟩ := hs
  exact run_inv host seed es _ s (startup_inv host seed w h d now handle hh) hes hrun

end SchedulerLemmas

section SchedulerTheorems

variable {K : Type} [LinearOrderedField K] [FloorRing K]

/-- When the cadence gate passes, `frame` renders, tunes and records the timestamp. -/
theorem frame_of_gate (host : Host K) (seed : Seed K) (s : Renderer K)
    (nowMs started finished : K) (handle : ℕ)
    (hgate : nowMs - s.lastFrameMs ≥ (FRAME_INTERVAL_MS : K)) :
    frame host seed s nowMs started finished handle =
      ({ s.render host seed Caller.frame (nowMs * 0.001) with
          iterLimit := tuneQuality s.iterLimit (finished - started)
          lastFrameMs := nowMs } : Renderer K).requestFrame handle := by
  unfold frame
  dsimp only
  rw [if_pos hgate]
  rfl

/-- When the cadence gate fails, `frame` only requests the next callback. -/
theorem frame_of_not_gate (host : Host K) (seed : Seed K) (s : Renderer K)
    (nowMs started finished : K) (handle : ℕ)
    (hgate : ¬ nowMs - s.lastFrameMs ≥ (FRAME_INTERVAL_MS : K)) :
    frame host seed s nowMs started finished handle = s.requestFrame handle := by
  unfold frame
  dsimp only
  rw [if_neg hgate]

/-- While no frame callback is pending and no visibility-regained event occurs, no
scheduling tick can occur, `rafId` stays 0, and `render` is invoked once by every
expiry of the resize timeout and by nothing else. -/
theorem hidden_run (host : Host K) (seed : Seed K) (es : List (Event K)) :
    ∀ (s s1 : Renderer K), s.rafId = 0 → s.frameCallbacks = [] →
      (∀ e ∈ es, e.isRegained = false) → run host seed s es = some s1 →
      s1.rafId = 0 ∧ s1.frameCallbacks = [] ∧ (∀ e ∈ es, e.isTick = false) ∧
      s1.lastFrameMs = s.lastFrameMs ∧ s1.iterLimit = s.iterLimit ∧
      ∃ extra : List (RenderCall K), s1.renderLog = s.renderLog ++ extra ∧
        (∀ c ∈ extra, c.caller = Caller.resizeTimeout) ∧
        extra.length = es.countP Event.isTimeout := by
  induction es with
  | nil =>
    intro s s1 h0 hc _ hrun
    simp only [run, Option.some.injEq] at hrun
    subst hrun
    exact ⟨h0, hc, fun e he => absurd he (List.not_mem_nil e), rfl, rfl, [], by simp,
      fun c hcm => absurd hcm (List.not_mem_nil c), rfl⟩
  | cons e es ih =>
    intro s s1 h0 hc hes hrun
    obtain ⟨s2, hstep, hrest⟩ := run_cons_some host seed s s1 e es hrun
    have hes' : ∀ e' ∈ es, e'.isRegained = false :=
      fun e' he' => hes e' (List.mem_cons_of_mem _ he')
    cases e with
    | tick nowMs started finished handle =>
      simp only [step, hc] at hstep
      exact absurd hstep (by simp)
    | resized handle =>
      simp only [step, Option.some.injEq] at hstep
      subst hstep
      obtain ⟨a, b, c, d, e5, extra, hlog, hcal, hlen⟩ :=
        ih (onResize s handle) s1 h0 hc hes' hrest
      refine ⟨a, b, ?_, d, e5, extra, hlog, hcal, ?_⟩
      · intro e' he'
        rcases List.mem_cons.mp he' with h | h
        · rw [h]; rfl
        · exact c e' h
      · rw [hlen]; simp [List.countP_cons, Event.isTimeout]
    | timeout w h d now =>
      simp only [step] at hstep
      cases ht : s.timeouts with
      | nil => rw [ht] at hstep; exact absurd hstep (by simp)
      | cons t rest =>
        rw [ht] at hstep
        simp only [Option.some.injEq] at hstep
        subst hstep
        obtain ⟨a, b, c, d5, e5, extra, hlog, hcal, hlen⟩ :=
          ih (resizeTimeout host seed { s with timeouts := rest } w h d now) s1 h0 hc hes' hrest
        refine ⟨a, b, ?_, d5, e5,
          { caller := Caller.resizeTimeout, seconds := now * 0.001 } :: extra, ?_, ?_, ?_⟩
        · intro e' he'
          rcases List.mem_cons.mp he' with h | h
          · rw [h]; rfl
          · exact c e' h
        · rw [hlog]
          simp [resizeTimeout, Renderer.render, Renderer.resize]
        · intro c5 hc5
          rcases List.mem_cons.mp hc5 with h | h
          · rw [h]
          · exact hcal c5 h
        · simp [List.countP_cons, Event.isTimeout, hlen]
    | visibilityLost =>
      simp only [step, Option.some.injEq] at hstep
      subst hstep
      obtain ⟨a, b, c, d, e5, extra, hlog, hcal, hlen⟩ :=
        ih (onVisibilityChange s true 0) s1 (by simp [onVisibilityChange])
          (by simp [onVisibilityChange, hc]) hes' hrest
      refine ⟨a, b, ?_, ?_, ?_, extra, ?_, hcal, ?_⟩
      · intro e' he'
        rcases List.mem_cons.mp he' with h | h
        · rw [h]; rfl
        · exact c e' h
      · rw [d]; simp [onVisibilityChange]
      · rw [e5]; simp [onVisibilityChange]
      · rw [hlog]; simp [onVisibilityChange]
      · rw [hlen]; simp [List.countP_cons, Event.isTimeout]
    | visibilityRegained handle =>
      have := hes (Event.visibilityRegained handle) (List.mem_cons_self _ _)
      simp [Event.isRegained] at this

/-- Resize events and expiries of the resize timeout leave the scheduling variables
as they are. -/
theorem resizing_run (host : Host K) (seed : Seed K) (es : List (Event K)) :
    ∀ (s s1 : Renderer K), (∀ e ∈ es, e.isResizing = true) → run host seed s es = some s1 →
      s1.rafId = s.rafId ∧ s1.frameCallbacks = s.frameCallbacks ∧
      s1.lastFrameMs = s.lastFrameMs := by
  induction es with
  | nil =>
    intro s s1 _ hrun
    simp only [run, Option.some.injEq] at hrun
    subst hrun
    exact ⟨rfl, rfl, rfl⟩
  | cons e es ih =>
    intro s s1 hes hrun
    obtain ⟨s2, hstep, hrest⟩ := run_cons_some host seed s s1 e es hrun
    have hes' : ∀ e' ∈ es, e'.isResizing = true :=
      fun e' he' => hes e' (List.mem_cons_of_mem _ he')
    have he := hes e (List.mem_cons_self _ _)
    obtain ⟨a, b, c⟩ := ih s2 s1 hes' hrest
    cases e with
    | tick nowMs started finished handle => simp [Event.isResizing] at he
    | resized handle =>
      simp only [step, Option.some.injEq] at hstep
      subst hstep
      exact ⟨a, b, c⟩
    | timeout w h d now =>
      simp only [step] at hstep
      cases ht : s.timeouts with
      | nil => rw [ht] at hstep; exact absurd hstep (by simp)
      | cons t rest =>
        rw [ht] at hstep
        simp only [Option.some.injEq] at hstep
        subst hstep
        exact ⟨a, b, c⟩
    | visibilityLost => simp [Event.isResizing] at he
    | visibilityRegained handle => simp [Event.isResizing] at he

end SchedulerTheorems

section SchedulerClaims

variable {K : Type} [LinearOrderedField K] [FloorRing K]

/-- From a reachable state, a visibility-lost event followed by events without a
visibility-regained one: no tick occurs, no frame callback is pending at the end, and
`render` is invoked exactly by the expiries of the resize timeout. -/
theorem lost_then_hidden (host : Host K) (seed : Seed K) (s s1 : Renderer K)
    (hs : Reachable host seed s) (es : List (Event K))
    (hes : ∀ e ∈ es, e.isRegained = false)
    (hrun : run host seed s (Event.visibilityLost :: es) = some s1) :
    (∀ e ∈ es, e.isTick = false) ∧ s1.rafId = 0 ∧ s1.frameCallbacks = [] ∧
    ∃ extra : List (RenderCall K), s1.renderLog = s.renderLog ++ extra ∧
      (∀ c ∈ extra, c.caller = Caller.resizeTimeout) ∧
      extra.length = es.countP Event.isTimeout := by
  obtain ⟨s2, hstep, hrest⟩ := run_cons_some host seed s s1 _ es hrun
  simp only [step, Option.some.injEq] at hstep
  subst hstep
  have hinv := reachable_inv host seed s hs
  have hc : (onVisibilityChange s true 0).frameCallbacks = [] := by
    simp only [onVisibilityChange, if_true]
    rw [hinv]
    by_cases h0 : s.rafId = 0
    · simp [h0]
    · simp [h0]
  obtain ⟨a, b, c, _, _, extra, hlog, hcal, hlen⟩ :=
    hidden_run host seed es (onVisibilityChange s true 0) s1 (by simp [onVisibilityChange]) hc
      hes hrest
  exact ⟨c, a, b, extra, by rw [hlog]; simp [onVisibilityChange], hcal, hlen⟩

/-- C12 fails as stated: after startup, a resize event followed by a visibility-lost
event leaves the resize timeout pending; when it expires, with no visibility-regained
event in between, its callback calls `resize()` and then `render`. -/
theorem C12_counterexample :
    ∃ s1 s2 : Renderer ℝ,
      run (Host.mk Real.pi Real.cos Real.sin Real.sqrt) (exampleSeed ℝ)
        (startup (Host.mk Real.pi Real.cos Real.sin Real.sqrt) (exampleSeed ℝ) 1200 600 1 0 1)
        [Event.resized 1, Event.visibilityLost] = some s1 ∧
      s1.rafId = 0 ∧ s1.frameCallbacks = [] ∧
      step (Host.mk Real.pi Real.cos Real.sin Real.sqrt) (exampleSeed ℝ) s1
        (Event.timeout 1200 600 1 100) = some s2 ∧
      s2.renderLog = s1.renderLog ++
        [{ caller := Caller.resizeTimeout, seconds := 100 * 0.001 }] :=
  ⟨_, _, rfl, rfl, rfl, rfl, rfl⟩

/-- C12 (amended): in every state reachable after startup, from a visibility-lost event
until the next visibility-regained event no frame callback is pending, no scheduling
tick occurs and `rafId` is 0, so `frame` never invokes `render`; `render` is invoked
only by the expiry of the resize timeout, once per expiry, hence not at all when no
resize timeout expires while hidden. -/
theorem C12_no_frame_while_hidden (host : Host K) (seed : Seed K) (s s1 : Renderer K)
    (hs : Reachable host seed s) (es : List (Event K))
    (hes : ∀ e ∈ es, e.isRegained = false)
    (hrun : run host seed s (Event.visibilityLost :: es) = some s1) :
    (∀ e ∈ es, e.isTick = false) ∧ s1.rafId = 0 ∧ s1.frameCallbacks = [] ∧
    ∃ extra : List (RenderCall K), s1.renderLog = s.renderLog ++ extra ∧
      (∀ c ∈ extra, c.caller = Caller.resizeTimeout) ∧
      extra.length = es.countP Event.isTimeout ∧
      (es.countP Event.isTimeout = 0 → s1.renderLog = s.renderLog) := by
  obtain ⟨c, a, b, extra, hlog, hcal, hlen⟩ := lost_then_hidden host seed s s1 hs es hes hrun
  refine ⟨c, a, b, extra, hlog, hcal, hlen, ?_⟩
  intro h0
  rw [h0] at hlen
  rw [hlog, List.length_eq_zero.mp hlen, List.append_nil]

/-- Witness for C12 (amended): after startup, a visibility-lost event followed by a
resize event. -/
theorem C12_no_frame_while_hidden_witness :
    ∃ s1 : Renderer ℝ,
      run (Host.mk Real.pi Real.cos Real.sin Real.sqrt) (exampleSeed ℝ)
        (startup (Host.mk Real.pi Real.cos Real.sin Real.sqrt) (exampleSeed ℝ) 1200 600 1 0 1)
        [Event.visibilityLost, Event.resized 1] = some s1 ∧
      s1.rafId = 0 ∧ s1.frameCallbacks = [] :=
  ⟨_, rfl,
    (C12_no_frame_while_hidden (Host.mk Real.pi Real.cos Real.sin Real.sqrt) (exampleSeed ℝ)
      (startup (Host.mk Real.pi Real.cos Real.sin Real.sqrt) (exampleSeed ℝ) 1200 600 1 0 1) _
      ⟨1200, 600, 1, 0, 1, [], by norm_num, fun e he => absurd he (List.not_mem_nil e), rfl⟩
      [Event.resized 1]
      (fun e he => by rw [List.mem_singleton.mp he]; rfl) rfl).2.1,
    (C12_no_frame_while_hidden (Host.mk Real.pi Real.cos Real.sin Real.sqrt) (exampleSeed ℝ)
      (startup (Host.mk Real.pi Real.cos Real.sin Real.sqrt) (exampleSeed ℝ) 1200 600 1 0 1) _
      ⟨1200, 600, 1, 0, 1, [], by norm_num, fun e he => absurd he (List.not_mem_nil e), rfl⟩
      [Event.resized 1]
      (fun e he => by rw [List.mem_singleton.mp he]; rfl) rfl).2.2.1⟩

/-- C13 fails as stated: after startup, a visibility-lost and a visibility-regained event
leave `lastFrameMs = 0` and one callback pending; a first tick with the timestamp
`nowMs = 50` does not pass the gate `50 - 0 ≥ 70`, and `render` is not invoked. -/
theorem C13_counterexample :
    ∃ s1 s2 : Renderer ℝ,
      run (Host.mk Real.pi Real.cos Real.sin Real.sqrt) (exampleSeed ℝ)
        (startup (Host.mk Real.pi Real.cos Real.sin Real.sqrt) (exampleSeed ℝ) 1200 600 1 0 1)
        [Event.visibilityLost, Event.visibilityRegained 2] = some s1 ∧
      s1.lastFrameMs = 0 ∧ s1.frameCallbacks = [2] ∧
      step (Host.mk Real.pi Real.cos Real.sin Real.sqrt) (exampleSeed ℝ) s1
        (Event.tick 50 50 50 3) = some s2 ∧
      s2.renderLog = s1.renderLog ∧ s2.lastFrameMs = 0 := by
  refine ⟨_, _, rfl, rfl, rfl, rfl, ?_, ?_⟩
  · rw [frame_of_not_gate _ _ _ _ _ _ _ (by
      show ¬ (50 : ℝ) - 0 ≥ ((FRAME_INTERVAL_MS : ℕ) : ℝ)
      unfold FRAME_INTERVAL_MS
      norm_num)]
    rfl
  · rw [frame_of_not_gate _ _ _ _ _ _ _ (by
      show ¬ (50 : ℝ) - 0 ≥ ((FRAME_INTERVAL_MS : ℕ) : ℝ)
      unfold FRAME_INTERVAL_MS
      norm_num)]
    rfl

/-- C13 (amended): from a reachable state, after a visibility-lost event, any events
without a visibility-regained one, a visibility-regained event and any resize events
and timeout expiries, `lastFrameMs` is 0 and exactly the callback requested on resume is
pending; the first scheduling tick then performs a `render`, and records its
timestamp, for every timestamp `nowMs ≥ FRAME_INTERVAL_MS = 70`. -/
theorem C13_resume_renders_first_tick (host : Host K) (seed : Seed K) (s s1 : Renderer K)
    (hs : Reachable host seed s) (es1 es2 : List (Event K)) (handle : ℕ)
    (h1 : ∀ e ∈ es1, e.isRegained = false) (h2 : ∀ e ∈ es2, e.isResizing = true)
    (hrun : run host seed s
      (Event.visibilityLost :: (es1 ++ Event.visibilityRegained handle :: es2)) = some s1)
    (nowMs started finished : K) (next : ℕ) (hnow : nowMs ≥ (FRAME_INTERVAL_MS : K)) :
    s1.lastFrameMs = 0 ∧ s1.rafId = handle ∧ s1.frameCallbacks = [handle] ∧
    ∃ s2 : Renderer K,
      step host seed s1 (Event.tick nowMs started finished next) = some s2 ∧
      s2.renderLog = s1.renderLog ++ [{ caller := Caller.frame, seconds := nowMs * 0.001 }] ∧
      s2.lastFrameMs = nowMs := by
  have hsplit : (Event.visibilityLost :: (es1 ++ Event.visibilityRegained handle :: es2)) =
      (Event.visibilityLost :: es1) ++ (Event.visibilityRegained handle :: es2) := rfl
  rw [hsplit, run_append] at hrun
  cases hA : run host seed s (Event.visibilityLost :: es1) with
  | none => rw [hA] at hrun; exact absurd hrun (by simp)
  | some sA =>
    rw [hA] at hrun
    obtain ⟨_, hA0, hAc, _⟩ := lost_then_hidden host seed s sA hs es1 h1 hA
    obtain ⟨sB, hstepB, hrest⟩ := run_cons_some host seed sA s1 _ es2 hrun
    simp only [step, Option.some.injEq] at hstepB
    subst hstepB
    obtain ⟨a, b, c⟩ := resizing_run host seed es2 _ s1 h2 hrest
    have e1 : s1.lastFrameMs = 0 := by
      rw [c]; simp [onVisibilityChange, hA0, Renderer.requestFrame]
    have e2 : s1.rafId = handle := by
      rw [a]; simp [onVisibilityChange, hA0, Renderer.requestFrame]
    have e3 : s1.frameCallbacks = [handle] := by
      rw [b]; simp [onVisibilityChange, hA0, Renderer.requestFrame, hAc]
    refine ⟨e1, e2, e3, ?_⟩
    have hgate : nowMs - ({ s1 with frameCallbacks := [] } : Renderer K).lastFrameMs ≥
        (FRAME_INTERVAL_MS : K) := by
      show nowMs - s1.lastFrameMs ≥ (FRAME_INTERVAL_MS : K)
      rw [e1, sub_zero]; exact hnow
    refine ⟨frame host seed { s1 with frameCallbacks := [] } nowMs started finished next,
      by simp only [step, e3], ?_, ?_⟩
    · rw [frame_of_gate host seed _ nowMs started finished next hgate]
      rfl
    · rw [frame_of_gate host seed _ nowMs started finished next hgate]
      rfl

end SchedulerClaims

section CadenceLemmas

variable {K : Type} [LinearOrderedField K]

/-- The timestamps at which the gate passes are at least `FRAME_INTERVAL_MS` after
`lastFrameMs` and after one another. -/
theorem renderedTicks_chain (es : List (Event K)) :
    ∀ lastFrameMs : K,
      List.Chain (fun a b : K => b - a ≥ (FRAME_INTERVAL_MS : K)) lastFrameMs
        (renderedTicks lastFrameMs es) := by
  induction es with
  | nil => intro l; exact List.Chain.nil
  | cons e es ih =>
    intro l
    cases e with
    | tick nowMs started finished handle =>
      simp only [renderedTicks]
      split_ifs with hgate
      · exact List.Chain.cons hgate (ih nowMs)
      · exact ih l
    | resized handle => exact ih l
    | timeout w h d now => exact ih l
    | visibilityLost => exact ih l
    | visibilityRegained handle => exact ih l

end CadenceLemmas

section CadenceClaims

variable {K : Type} [LinearOrderedField K] [FloorRing K]

/-- Witness for C13 (amended): after startup, a visibility-lost event and a
visibility-regained event returning the handle 2, then a tick at 100 ms. -/
theorem C13_resume_renders_first_tick_witness :
    ∃ s1 : Renderer ℝ,
      run (Host.mk Real.pi Real.cos Real.sin Real.sqrt) (exampleSeed ℝ)
        (startup (Host.mk Real.pi Real.cos Real.sin Real.sqrt) (exampleSeed ℝ) 1200 600 1 0 1)
        [Event.visibilityLost, Event.visibilityRegained 2] = some s1 ∧
      (100 : ℝ) ≥ ((FRAME_INTERVAL_MS : ℕ) : ℝ) ∧
      s1.lastFrameMs = 0 ∧ s1.rafId = 2 ∧ s1.frameCallbacks = [2] ∧
      ∃ s2 : Renderer ℝ,
        step (Host.mk Real.pi Real.cos Real.sin Real.sqrt) (exampleSeed ℝ) s1
          (Event.tick 100 100 130 3) = some s2 ∧
        s2.renderLog = s1.renderLog ++ [{ caller := Caller.frame, seconds := 100 * 0.001 }] ∧
        s2.lastFrameMs = 100 :=
  have hnow : (100 : ℝ) ≥ ((FRAME_INTERVAL_MS : ℕ) : ℝ) := by
    unfold FRAME_INTERVAL_MS; norm_num
  ⟨_, rfl, hnow,
    C13_resume_renders_first_tick (Host.mk Real.pi Real.cos Real.sin Real.sqrt) (exampleSeed ℝ)
      (startup (Host.mk Real.pi Real.cos Real.sin Real.sqrt) (exampleSeed ℝ) 1200 600 1 0 1) _
      ⟨1200, 600, 1, 0, 1, [], by norm_num, fun e he => absurd he (List.not_mem_nil e), rfl⟩
      [] [] 2 (fun e he => absurd he (List.not_mem_nil e))
      (fun e he => absurd he (List.not_mem_nil e)) rfl 100 100 130 3 hnow⟩

/-- C14: the host returning non-zero handles, in every state reachable after startup at
most one frame callback is pending, and `rafId` is 0 exactly when none is pending (else
the pending callback is the one named by `rafId`); a visibility-regained event while a
callback is pending changes nothing, so a second visibility-regained event schedules no
second callback; and after one or several visibility-lost events no callback is
pending. -/
theorem C14_no_double_scheduling (host : Host K) (seed : Seed K) (s : Renderer K)
    (hs : Reachable host seed s) :
    s.frameCallbacks.length ≤ 1 ∧
    (s.rafId = 0 ↔ s.frameCallbacks = []) ∧
    (s.rafId ≠ 0 → s.frameCallbacks = [s.rafId]) ∧
    (s.rafId ≠ 0 → ∀ handle : ℕ, onVisibilityChange s false handle = s) ∧
    (∀ h1 h2 : ℕ, h1 ≠ 0 →
      onVisibilityChange (onVisibilityChange s false h1) false h2 =
        onVisibilityChange s false h1 ∧
      (onVisibilityChange (onVisibilityChange s false h1) false h2).frameCallbacks.length ≤ 1) ∧
    (onVisibilityChange s true 0).frameCallbacks = [] ∧
    (onVisibilityChange (onVisibilityChange s true 0) true 0).frameCallbacks = [] := by
  have hinv := reachable_inv host seed s hs
  have hreg : ∀ (t : Renderer K), t.rafId ≠ 0 → ∀ handle : ℕ,
      onVisibilityChange t false handle = t := by
    intro t ht handle
    simp [onVisibilityChange, ht]
  have hlost : (onVisibilityChange s true 0).frameCallbacks = [] := by
    simp only [onVisibilityChange, if_true]
    rw [hinv]
    by_cases h0 : s.rafId = 0
    · simp [h0]
    · simp [h0]
  refine ⟨?_, ?_, ?_, hreg s, ?_, hlost, ?_⟩
  · rw [hinv]; split_ifs <;> simp
  · rw [hinv]
    constructor
    · intro h0; rw [if_pos h0]
    · intro h; by_contra h0; rw [if_neg h0] at h; exact absurd h (by simp)
  · intro h0; rw [hinv, if_neg h0]
  · intro h1 h2 hh1
    have hr : (onVisibilityChange s false h1).rafId ≠ 0 := by
      by_cases h0 : s.rafId = 0
      · simp [onVisibilityChange, h0, Renderer.requestFrame, hh1]
      · rw [hreg s h0]; exact h0
    have hfix := hreg _ hr h2
    refine ⟨hfix, ?_⟩
    rw [hfix]
    by_cases h0 : s.rafId = 0
    · rw [if_pos h0] at hinv
      simp [onVisibilityChange, h0, Renderer.requestFrame, hinv]
    · rw [hreg s h0, hinv]; simp [h0]
  · simp only [onVisibilityChange, if_true]
    simp only [onVisibilityChange, if_true] at hlost
    rw [hlost]
    rfl

/-- Witness for C14: the state after startup, with the handle 1, then a tick. -/
theorem C14_no_double_scheduling_witness :
    ∃ s1 : Renderer ℝ,
      run (Host.mk Real.pi Real.cos Real.sin Real.sqrt) (exampleSeed ℝ)
        (startup (Host.mk Real.pi Real.cos Real.sin Real.sqrt) (exampleSeed ℝ) 1200 600 1 0 1)
        [Event.tick 100 100 130 2] = some s1 ∧
      s1.frameCallbacks.length ≤ 1 ∧ (s1.rafId = 0 ↔ s1.frameCallbacks = []) :=
  ⟨_, rfl,
    (C14_no_double_scheduling (Host.mk Real.pi Real.cos Real.sin Real.sqrt) (exampleSeed ℝ) _
      ⟨1200, 600, 1, 0, 1, [Event.tick 100 100 130 2], by norm_num,
        fun e he => by
          rw [List.mem_singleton.mp he]
          show (2 : ℕ) ≠ 0
          norm_num,
        rfl⟩).1,
    (C14_no_double_scheduling (Host.mk Real.pi Real.cos Real.sin Real.sqrt) (exampleSeed ℝ) _
      ⟨1200, 600, 1, 0, 1, [Event.tick 100 100 130 2], by norm_num,
        fun e he => by
          rw [List.mem_singleton.mp he]
          show (2 : ℕ) ≠ 0
          norm_num,
        rfl⟩).2.1⟩

/-- A run of scheduling ticks invokes `render` exactly at the ticks where the gate
passes, with `seconds = nowMs * 0.001`. -/
theorem ticks_run (host : Host K) (seed : Seed K) (es : List (Event K)) :
    ∀ (s s1 : Renderer K), (∀ e ∈ es, e.isTick = true) → run host seed s es = some s1 →
      s1.renderLog = s.renderLog ++ (renderedTicks s.lastFrameMs es).map
        (fun t => ({ caller := Caller.frame, seconds := t * 0.001 } : RenderCall K)) := by
  induction es with
  | nil =>
    intro s s1 _ hrun
    simp only [run, Option.some.injEq] at hrun
    subst hrun
    simp [renderedTicks]
  | cons e es ih =>
    intro s s1 hes hrun
    obtain ⟨s2, hstep, hrest⟩ := run_cons_some host seed s s1 e es hrun
    have hes' : ∀ e' ∈ es, e'.isTick = true :=
      fun e' he' => hes e' (List.mem_cons_of_mem _ he')
    have he := hes e (List.mem_cons_self _ _)
    have hih := ih s2 s1 hes' hrest
    cases e with
    | tick nowMs started finished handle =>
      simp only [step] at hstep
      cases hc : s.frameCallbacks with
      | nil => rw [hc] at hstep; exact absurd hstep (by simp)
      | cons c rest =>
        rw [hc] at hstep
        simp only [Option.some.injEq] at hstep
        by_cases hgate : nowMs - s.lastFrameMs ≥ (FRAME_INTERVAL_MS : K)
        · have hgate' : nowMs - ({ s with frameCallbacks := rest } : Renderer K).lastFrameMs ≥
              (FRAME_INTERVAL_MS : K) := hgate
          rw [frame_of_gate host seed { s with frameCallbacks := rest } nowMs started finished
            handle hgate'] at hstep
          subst hstep
          rw [hih]
          simp only [renderedTicks, if_pos hgate, List.map_cons]
          simp [Renderer.requestFrame, Renderer.render]
        · have hgate' : ¬ nowMs - ({ s with frameCallbacks := rest } : Renderer K).lastFrameMs ≥
              (FRAME_INTERVAL_MS : K) := hgate
          rw [frame_of_not_gate host seed { s with frameCallbacks := rest } nowMs started
            finished handle hgate'] at hstep
          subst hstep
          rw [hih]
          simp only [renderedTicks, if_neg hgate]
          simp [Renderer.requestFrame]
    | resized handle => simp [Event.isTick] at he
    | timeout w h d now => simp [Event.isTick] at he
    | visibilityLost => simp [Event.isTick] at he
    | visibilityRegained handle => simp [Event.isTick] at he

/-- While a frame callback is pending, every sequence of scheduling ticks can occur. -/
theorem ticks_enabled (host : Host K) (seed : Seed K) (es : List (Event K)) :
    ∀ s : Renderer K, (∀ e ∈ es, e.isTick = true) → s.frameCallbacks ≠ [] →
      ∃ s1, run host seed s es = some s1 := by
  induction es with
  | nil => intro s _ _; exact ⟨s, rfl⟩
  | cons e es ih =>
    intro s hes hc
    have hes' : ∀ e' ∈ es, e'.isTick = true :=
      fun e' he' => hes e' (List.mem_cons_of_mem _ he')
    have he := hes e (List.mem_cons_self _ _)
    cases e with
    | tick nowMs started finished handle =>
      cases hcs : s.frameCallbacks with
      | nil => exact absurd hcs hc
      | cons c rest =>
        obtain ⟨_, h2, _, _⟩ := frame_scheduling host seed
          { s with frameCallbacks := rest } nowMs started finished handle
        obtain ⟨s1, h1⟩ := ih (frame host seed { s with frameCallbacks := rest } nowMs started
          finished handle) hes' (by rw [h2]; simp)
        exact ⟨s1, by simp only [run, step, hcs]; exact h1⟩
    | resized handle => simp [Event.isTick] at he
    | timeout w h d now => simp [Event.isTick] at he
    | visibilityLost => simp [Event.isTick] at he
    | visibilityRegained handle => simp [Event.isTick] at he

/-- C15: `frame(nowMs)` renders if and only if `nowMs - lastFrameMs ≥ 70`. When it
renders, `render(nowMs * 0.001)` runs with the old `iterLimit`, then `tuneQuality` is
applied once and `lastFrameMs` becomes `nowMs`; when it skips, `lastFrameMs`,
`iterLimit`, the palette and the framebuffer are unchanged. Hence in a run of scheduling
ticks `render` is invoked exactly at the ticks passing the gate, and the timestamps of
two consecutive rendered ticks are at least 70 ms apart. -/
theorem C15_cadence_gate (host : Host K) (seed : Seed K) (s : Renderer K) :
    (∀ (nowMs started finished : K) (handle : ℕ),
      (nowMs - s.lastFrameMs ≥ 70 →
        (frame host seed s nowMs started finished handle).renderLog =
          s.renderLog ++ [{ caller := Caller.frame, seconds := nowMs * 0.001 }] ∧
        (frame host seed s nowMs started finished handle).pixels32 =
          (s.render host seed Caller.frame (nowMs * 0.001)).pixels32 ∧
        (frame host seed s nowMs started finished handle).palette =
          (s.render host seed Caller.frame (nowMs * 0.001)).palette ∧
        (frame host seed s nowMs started finished handle).iterLimit =
          tuneQuality s.iterLimit (finished - started) ∧
        (frame host seed s nowMs started finished handle).lastFrameMs = nowMs) ∧
      (¬ nowMs - s.lastFrameMs ≥ 70 →
        (frame host seed s nowMs started finished handle).renderLog = s.renderLog ∧
        (frame host seed s nowMs started finished handle).pixels32 = s.pixels32 ∧
        (frame host seed s nowMs started finished handle).palette = s.palette ∧
        (frame host seed s nowMs started finished handle).iterLimit = s.iterLimit ∧
        (frame host seed s nowMs started finished handle).lastFrameMs = s.lastFrameMs)) ∧
    (∀ (es : List (Event K)) (s1 : Renderer K), (∀ e ∈ es, e.isTick = true) →
      run host seed s es = some s1 →
      s1.renderLog = s.renderLog ++ (renderedTicks s.lastFrameMs es).map
        (fun t => ({ caller := Caller.frame, seconds := t * 0.001 } : RenderCall K)) ∧
      List.Chain (fun a b : K => b - a ≥ 70) s.lastFrameMs (renderedTicks s.lastFrameMs es)) := by
  have h70 : ((FRAME_INTERVAL_MS : ℕ) : K) = 70 := by unfold FRAME_INTERVAL_MS; norm_num
  constructor
  · intro nowMs started finished handle
    constructor
    · intro hgate
      rw [← h70] at hgate
      rw [frame_of_gate host seed s nowMs started finished handle hgate]
      exact ⟨rfl, rfl, rfl, rfl, rfl⟩
    · intro hgate
      rw [← h70] at hgate
      rw [frame_of_not_gate host seed s nowMs started finished handle hgate]
      exact ⟨rfl, rfl, rfl, rfl, rfl⟩
  · intro es s1 hes hrun
    refine ⟨ticks_run host seed es s s1 hes hrun, ?_⟩
    have := renderedTicks_chain es s.lastFrameMs
    rw [h70] at this
    exact this

/-- Witness for C15: after startup, ticks at 100 ms, 130 ms and 180 ms; the first and
the last render, the second is skipped. -/
theorem C15_cadence_gate_witness :
    ∃ s1 : Renderer ℝ,
      run (Host.mk Real.pi Real.cos Real.sin Real.sqrt) (exampleSeed ℝ)
        (startup (Host.mk Real.pi Real.cos Real.sin Real.sqrt) (exampleSeed ℝ) 1200 600 1 0 1)
        [Event.tick 100 100 120 2, Event.tick 130 130 130 3, Event.tick 180 180 200 4] =
          some s1 ∧
      renderedTicks (0 : ℝ)
        [Event.tick 100 100 120 2, Event.tick 130 130 130 3, Event.tick 180 180 200 4] =
          [100, 180] ∧
      s1.renderLog =
        (startup (Host.mk Real.pi Real.cos Real.sin Real.sqrt) (exampleSeed ℝ)
          1200 600 1 0 1).renderLog ++
        (renderedTicks (0 : ℝ)
          [Event.tick 100 100 120 2, Event.tick 130 130 130 3, Event.tick 180 180 200 4]).map
          (fun t => ({ caller := Caller.frame, seconds := t * 0.001 } : RenderCall ℝ)) := by
  have hticks : ∀ e ∈ [Event.tick (100 : ℝ) 100 120 2, Event.tick 130 130 130 3,
      Event.tick 180 180 200 4], e.isTick = true := by
    intro e he
    simp only [List.mem_cons, List.mem_singleton, List.not_mem_nil, or_false] at he
    rcases he with h | h | h <;> rw [h] <;> rfl
  have hr : renderedTicks (0 : ℝ)
      [Event.tick 100 100 120 2, Event.tick 130 130 130 3, Event.tick 180 180 200 4] =
        [100, 180] := by
    simp only [renderedTicks, FRAME_INTERVAL_MS]
    norm_num
  obtain ⟨s1, hrun⟩ := ticks_enabled (Host.mk Real.pi Real.cos Real.sin Real.sqrt)
    (exampleSeed ℝ)
    [Event.tick (100 : ℝ) 100 120 2, Event.tick 130 130 130 3, Event.tick 180 180 200 4]
    (startup (Host.mk Real.pi Real.cos Real.sin Real.sqrt) (exampleSeed ℝ) 1200 600 1 0 1)
    hticks (by simp [startup, Renderer.requestFrame])
  exact ⟨s1, hrun, hr,
    ((C15_cadence_gate (Host.mk Real.pi Real.cos Real.sin Real.sqrt) (exampleSeed ℝ)
      (startup (Host.mk Real.pi Real.cos Real.sin Real.sqrt) (exampleSeed ℝ)
        1200 600 1 0 1)).2 _ s1 hticks hrun).1⟩

end CadenceClaims

/-! ### Seed ranges, viewport and zoom -/

section SeedLemmas

variable {K : Type} [LinearOrderedField K]

/-- A draw `u` in `[0, 1)` is mapped by `rand` into `[min, max)`. -/
theorem rand_range (u min max : K) (hu0 : 0 ≤ u) (hu1 : u < 1) (hmm : min < max) :
    min ≤ rand u min max ∧ rand u min max < max := by
  unfold rand
  have hd : 0 < max - min := sub_pos.mpr hmm
  constructor
  · have := mul_nonneg hu0 hd.le
    linarith
  · have := mul_lt_mul_of_pos_right hu1 hd
    linarith

end SeedLemmas

section SeedTheorems

variable {K : Type} [LinearOrderedField K]

/-- In exact arithmetic, `Math.PI` being positive, each of the 21 fields of the seed,
drawn by the calls number 0 to 20 of `Math.random()` and by no other, lies in its
half-open range: `baseCr, baseCi` in `[-0.82, 0.82)`, `ampCr, ampCi` in `[0.04, 0.18)`,
`freqCr, freqCi` in `[0.08, 0.2)`, the five phases in `[0, 2*pi)`, `zoomBase` in
`[1.05, 1.9)`, `zoomAmp` in `[0.04, 0.18)`, `zoomFreq` in `[0.05, 0.12)`, `panX, panY` in
`[-0.2, 0.2)`, `panAmpX, panAmpY` in `[0.01, 0.05)`, `panFreqX, panFreqY` in
`[0.03, 0.08)`, `paletteShift` in `[0, 1)`. -/
theorem makeSeed_ranges_exact (host : Host K) (hpi : 0 < host.PI) (random : ℕ → K)
    (hrandom : ∀ i, 0 ≤ random i ∧ random i < 1) :
    (∀ u min max : K, rand u min max = min + u * (max - min) ∧
      (0 ≤ u → u < 1 → min < max → min ≤ rand u min max ∧ rand u min max < max)) ∧
    (∀ random2 : ℕ → K, (∀ i, i < 21 → random2 i = random i) →
      makeSeed host random2 = makeSeed host random) ∧
    (-0.82 ≤ (makeSeed host random).baseCr ∧ (makeSeed host random).baseCr < 0.82) ∧
    (-0.82 ≤ (makeSeed host random).baseCi ∧ (makeSeed host random).baseCi < 0.82) ∧
    (0.04 ≤ (makeSeed host random).ampCr ∧ (makeSeed host random).ampCr < 0.18) ∧
    (0.04 ≤ (makeSeed host random).ampCi ∧ (makeSeed host random).ampCi < 0.18) ∧
    (0.08 ≤ (makeSeed host random).freqCr ∧ (makeSeed host random).freqCr < 0.2) ∧
    (0.08 ≤ (makeSeed host random).freqCi ∧ (makeSeed host random).freqCi < 0.2) ∧
    (0 ≤ (makeSeed host random).phaseCr ∧ (makeSeed host random).phaseCr < 2 * host.PI) ∧
    (0 ≤ (makeSeed host random).phaseCi ∧ (makeSeed host random).phaseCi < 2 * host.PI) ∧
    (1.05 ≤ (makeSeed host random).zoomBase ∧ (makeSeed host random).zoomBase < 1.9) ∧
    (0.04 ≤ (makeSeed host random).zoomAmp ∧ (makeSeed host random).zoomAmp < 0.18) ∧
    (0.05 ≤ (makeSeed host random).zoomFreq ∧ (makeSeed host random).zoomFreq < 0.12) ∧
    (0 ≤ (makeSeed host random).zoomPhase ∧ (makeSeed host random).zoomPhase < 2 * host.PI) ∧
    (-0.2 ≤ (makeSeed host random).panX ∧ (makeSeed host random).panX < 0.2) ∧
    (-0.2 ≤ (makeSeed host random).panY ∧ (makeSeed host random).panY < 0.2) ∧
    (0.01 ≤ (makeSeed host random).panAmpX ∧ (makeSeed host random).panAmpX < 0.05) ∧
    (0.01 ≤ (makeSeed host random).panAmpY ∧ (makeSeed host random).panAmpY < 0.05) ∧
    (0.03 ≤ (makeSeed host random).panFreqX ∧ (makeSeed host random).panFreqX < 0.08) ∧
    (0.03 ≤ (makeSeed host random).panFreqY ∧ (makeSeed host random).panFreqY < 0.08) ∧
    (0 ≤ (makeSeed host random).panPhaseX ∧ (makeSeed host random).panPhaseX < 2 * host.PI) ∧
    (0 ≤ (makeSeed host random).panPhaseY ∧ (makeSeed host random).panPhaseY < 2 * host.PI) ∧
    (0 ≤ (makeSeed host random).paletteShift ∧ (makeSeed host random).paletteShift < 1) := by
  have htau : (0 : K) < TAU host := by unfold TAU; linarith
  have htau2 : TAU host = 2 * host.PI := by unfold TAU; ring
  have r := fun (i : ℕ) (min max : K) (h : min < max) =>
    rand_range (random i) min max (hrandom i).1 (hrandom i).2 h
  refine ⟨fun u min max => ⟨rfl, fun h0 h1 h => rand_range u min max h0 h1 h⟩, ?_,
    r 0 _ _ (by norm_num), r 1 _ _ (by norm_num), r 2 _ _ (by norm_num),
    r 3 _ _ (by norm_num), r 4 _ _ (by norm_num), r 5 _ _ (by norm_num),
    ?_, ?_, r 8 _ _ (by norm_num), r 9 _ _ (by norm_num), r 10 _ _ (by norm_num), ?_,
    r 12 _ _ (by norm_num), r 13 _ _ (by norm_num), r 14 _ _ (by norm_num),
    r 15 _ _ (by norm_num), r 16 _ _ (by norm_num), r 17 _ _ (by norm_num), ?_, ?_,
    r 20 _ _ (by norm_num)⟩
  · intro random2 h
    simp only [makeSeed]
    rw [h 0 (by norm_num), h 1 (by norm_num), h 2 (by norm_num), h 3 (by norm_num),
      h 4 (by norm_num), h 5 (by norm_num), h 6 (by norm_num), h 7 (by norm_num),
      h 8 (by norm_num), h 9 (by norm_num), h 10 (by norm_num), h 11 (by norm_num),
      h 12 (by norm_num), h 13 (by norm_num), h 14 (by norm_num), h 15 (by norm_num),
      h 16 (by norm_num), h 17 (by norm_num), h 18 (by norm_num), h 19 (by norm_num),
      h 20 (by norm_num)]
  · rw [← htau2]; exact r 6 _ _ htau
  · rw [← htau2]; exact r 7 _ _ htau
  · rw [← htau2]; exact r 11 _ _ htau
  · rw [← htau2]; exact r 18 _ _ htau
  · rw [← htau2]; exact r 19 _ _ htau

end SeedTheorems

section ViewportClaims

variable {K : Type} [LinearOrderedField K] [FloorRing K]

/-- C18: for every escaped pixel (`iteration < iterLimit`, `iterLimit ≥ 1`),
`iteration < smooth < iteration + 1`, so `smooth * 1023 / iterLimit` lies in
`[0, 1023)` and the unclamped `paletteIndex` lies in `[0, 1022]`: neither clamp branch
of `render` is taken; and in a render pass every stored value is the interior colour
or a palette entry of index at most 1022, never a load of `palette[1023]`. -/
theorem C18_clamps_never_taken (iterLimit : ℤ) (hlim : 1 ≤ iterLimit) :
    (∀ cRe cIm zx0 zy0 : K,
      ((escapeTime cRe cIm iterLimit zx0 zy0).iteration : ℤ) < iterLimit →
      ((escapeTime cRe cIm iterLimit zx0 zy0).iteration : K) <
        smoothOf (escapeTime cRe cIm iterLimit zx0 zy0) ∧
      smoothOf (escapeTime cRe cIm iterLimit zx0 zy0) <
        ((escapeTime cRe cIm iterLimit zx0 zy0).iteration : K) + 1 ∧
      0 ≤ smoothOf (escapeTime cRe cIm iterLimit zx0 zy0) *
        (((PALETTE_SIZE : K) - 1) / (iterLimit : K)) ∧
      smoothOf (escapeTime cRe cIm iterLimit zx0 zy0) *
        (((PALETTE_SIZE : K) - 1) / (iterLimit : K)) < 1023 ∧
      0 ≤ jsOrZero (smoothOf (escapeTime cRe cIm iterLimit zx0 zy0) *
        (((PALETTE_SIZE : K) - 1) / (iterLimit : K))) ∧
      jsOrZero (smoothOf (escapeTime cRe cIm iterLimit zx0 zy0) *
        (((PALETTE_SIZE : K) - 1) / (iterLimit : K))) ≤ 1022 ∧
      ¬ jsOrZero (smoothOf (escapeTime cRe cIm iterLimit zx0 zy0) *
        (((PALETTE_SIZE : K) - 1) / (iterLimit : K))) < 0 ∧
      ¬ jsOrZero (smoothOf (escapeTime cRe cIm iterLimit zx0 zy0) *
        (((PALETTE_SIZE : K) - 1) / (iterLimit : K))) ≥ (PALETTE_SIZE : ℤ) ∧
      paletteIndexOf (((PALETTE_SIZE : K) - 1) / (iterLimit : K))
          (escapeTime cRe cIm iterLimit zx0 zy0) =
        jsOrZero (smoothOf (escapeTime cRe cIm iterLimit zx0 zy0) *
          (((PALETTE_SIZE : K) - 1) / (iterLimit : K)))) ∧
    (∀ (host : Host K) (seed : Seed K) (width height : ℤ) (palette buf : List ℕ)
      (seconds : K) (r : Raster),
      (render host seed width height iterLimit palette (some buf) seconds).raster = some r →
      ∀ w ∈ r.writes, w.2 = interiorColor ∨
        ∃ idx : ℤ, 0 ≤ idx ∧ idx ≤ 1022 ∧
          w.2 = loadU32 (updatePalette host seed seconds palette) idx) := by
  have hP : ((PALETTE_SIZE : ℕ) : ℤ) = 1024 := rfl
  have pixel : ∀ cRe cIm zx0 zy0 : K,
      ((escapeTime cRe cIm iterLimit zx0 zy0).iteration : ℤ) < iterLimit →
      4 < (escapeTime cRe cIm iterLimit zx0 zy0).zx2 +
        (escapeTime cRe cIm iterLimit zx0 zy0).zy2 := by
    intro cRe cIm zx0 zy0 hesc
    exact (escapeTime_magnitude cRe cIm iterLimit (by omega) zx0 zy0 (ne_of_lt hesc)).2
  constructor
  · intro cRe cIm zx0 zy0 hesc
    have hm := pixel cRe cIm zx0 zy0 hesc
    obtain ⟨hs0, hs1⟩ := smoothOf_bounds _ hm
    obtain ⟨hb0, hb1⟩ := scaled_smooth_bounds _ iterLimit hesc hm
    obtain ⟨hor, hidx, hf0, hf1⟩ := paletteIndexOf_escaped _ iterLimit hesc hm
    refine ⟨hs0, hs1, hb0, hb1, ?_, ?_, ?_, ?_, ?_⟩
    · rw [hor]; exact hf0
    · rw [hor]; exact hf1
    · rw [hor]; omega
    · rw [hor, hP]; omega
    · rw [hor]; exact hidx
  · intro host seed width height palette buf seconds r hr w hw
    rw [render_raster] at hr
    rw [← Option.some.inj hr, foldl_store_writes] at hw
    simp only [List.nil_append, List.length_map, List.length_range, Nat.zero_add,
      List.mem_map, List.mem_range] at hw
    obtain ⟨i, hi, rfl⟩ := hw
    dsimp only
    rw [List.getD_eq_getElem?_getD, List.getElem?_map, List.getElem?_range hi]
    simp only [Option.map_some', Option.getD_some]
    rw [shadePixel_eq]
    split_ifs with hit
    · exact Or.inl rfl
    · right
      obtain ⟨_, _, hle, _⟩ := escapeTime_spec
        (frameParams host seed width height iterLimit seconds).cRe
        (frameParams host seed width height iterLimit seconds).cIm iterLimit (by omega)
        (sampleOf (frameParams host seed width height iterLimit seconds)
          (i % width.toNat) (i / width.toNat)).1
        (sampleOf (frameParams host seed width height iterLimit seconds)
          (i % width.toNat) (i / width.toNat)).2
      have hesc := lt_of_le_of_ne hle hit
      have hm := pixel _ _ _ _ hesc
      obtain ⟨_, hidx, hf0, hf1⟩ := paletteIndexOf_escaped _ iterLimit hesc hm
      refine ⟨_, ?_, ?_, rfl⟩
      · show 0 ≤ paletteIndexOf ((frameParams host seed width height iterLimit
          seconds).paletteScale) _
        show 0 ≤ paletteIndexOf (((PALETTE_SIZE : K) - 1) / (iterLimit : K)) _
        rw [hidx]; exact hf0
      · show paletteIndexOf (((PALETTE_SIZE : K) - 1) / (iterLimit : K)) _ ≤ 1022
        rw [hidx]; exact hf1

/-- Witness for C18: with `c = (0,0)` and `iterLimit = 52` the sample `(3, 0)` escapes
and its palette index is not clamped. -/
theorem C18_clamps_never_taken_witness :
    (1 : ℤ) ≤ 52 ∧ ((escapeTime (0 : ℚ) 0 52 3 0).iteration : ℤ) < 52 ∧
    jsOrZero (smoothOf (escapeTime (0 : ℚ) 0 52 3 0) *
      (((PALETTE_SIZE : ℚ) - 1) / ((52 : ℤ) : ℚ))) ≤ 1022 :=
  have h : ((escapeTime (0 : ℚ) 0 52 3 0).iteration : ℤ) < 52 := by
    rw [escapeTime_zero_of_outside 52 (by norm_num) (3 : ℚ) 0 (by norm_num)]
    norm_num
  ⟨by norm_num, h,
    ((C18_clamps_never_taken (52 : ℤ) (by norm_num)).1 (0 : ℚ) 0 3 0 h).2.2.2.2.2.1⟩

end ViewportClaims

section ZoomClaims

variable {K : Type} [LinearOrderedField K]

/-- C19: for a seed with `zoomBase` in `[1.05, 1.9]` and `zoomAmp` in `[0.04, 0.18]`,
`Math.sin` taking values in `[-1, 1]`, and every animation time,
`0.87 ≤ zoom ≤ 2.08`, so `zoom` is not zero; with `width ≥ 140` and `height ≥ 100`,
`xSpan = 3.2/zoom`, `ySpan = 2.4/zoom`, `xStep` and `yStep` are divisions by non-zero
numbers and strictly positive, and the samples advance strictly from left to right and
from top to bottom. -/
theorem C19_zoom_positive (host : Host K) (hsin : host.SinBounded) (seed : Seed K)
    (hbase : 1.05 ≤ seed.zoomBase ∧ seed.zoomBase ≤ 1.9)
    (hamp : 0.04 ≤ seed.zoomAmp ∧ seed.zoomAmp ≤ 0.18)
    (width height iterLimit : ℤ) (hw : MIN_WIDTH ≤ width) (hh : MIN_HEIGHT ≤ height)
    (seconds : K) :
    (frameParams host seed width height iterLimit seconds).zoom =
      seed.zoomBase + seed.zoomAmp * host.sin (seconds * seed.zoomFreq + seed.zoomPhase) ∧
    0.87 ≤ (frameParams host seed width height iterLimit seconds).zoom ∧
    (frameParams host seed width height iterLimit seconds).zoom ≤ 2.08 ∧
    (frameParams host seed width height iterLimit seconds).zoom ≠ 0 ∧
    (width : K) ≠ 0 ∧ (height : K) ≠ 0 ∧
    (frameParams host seed width height iterLimit seconds).xSpan =
      3.2 / (frameParams host seed width height iterLimit seconds).zoom ∧
    (frameParams host seed width height iterLimit seconds).ySpan =
      2.4 / (frameParams host seed width height iterLimit seconds).zoom ∧
    0 < (frameParams host seed width height iterLimit seconds).xSpan ∧
    0 < (frameParams host seed width height iterLimit seconds).ySpan ∧
    0 < (frameParams host seed width height iterLimit seconds).xStep ∧
    0 < (frameParams host seed width height iterLimit seconds).yStep ∧
    (∀ x y : ℕ,
      (sampleOf (frameParams host seed width height iterLimit seconds) x y).1 <
        (sampleOf (frameParams host seed width height iterLimit seconds) (x + 1) y).1 ∧
      (sampleOf (frameParams host seed width height iterLimit seconds) x y).2 <
        (sampleOf (frameParams host seed width height iterLimit seconds) x (y + 1)).2) := by
  obtain ⟨hs0, hs1⟩ := hsin (seconds * seed.zoomFreq + seed.zoomPhase)
  have hamp0 : (0 : K) ≤ seed.zoomAmp := le_trans (by norm_num) hamp.1
  have hlo : -(0.18 : K) ≤
      seed.zoomAmp * host.sin (seconds * seed.zoomFreq + seed.zoomPhase) := by
    have h1 : -seed.zoomAmp ≤
        seed.zoomAmp * host.sin (seconds * seed.zoomFreq + seed.zoomPhase) := by
      have := mul_le_mul_of_nonneg_left hs0 hamp0
      linarith
    linarith [hamp.2]
  have hhi : seed.zoomAmp * host.sin (seconds * seed.zoomFreq + seed.zoomPhase) ≤
      (0.18 : K) := by
    have h1 : seed.zoomAmp * host.sin (seconds * seed.zoomFreq + seed.zoomPhase) ≤
        seed.zoomAmp := by
      have := mul_le_mul_of_nonneg_left hs1 hamp0
      linarith
    linarith [hamp.2]
  have hz0 : (0.87 : K) ≤ seed.zoomBase +
      seed.zoomAmp * host.sin (seconds * seed.zoomFreq + seed.zoomPhase) := by
    have := hbase.1
    norm_num at this hlo ⊢
    linarith
  have hz1 : seed.zoomBase +
      seed.zoomAmp * host.sin (seconds * seed.zoomFreq + seed.zoomPhase) ≤ (2.08 : K) := by
    have := hbase.2
    norm_num at this hhi ⊢
    linarith
  have hzpos : (0 : K) < seed.zoomBase +
      seed.zoomAmp * host.sin (seconds * seed.zoomFreq + seed.zoomPhase) :=
    lt_of_lt_of_le (by norm_num) hz0
  have hwpos : (0 : K) < (width : K) := by
    have : (0 : ℤ) < width := lt_of_lt_of_le (by decide) hw
    exact_mod_cast this
  have hhpos : (0 : K) < (height : K) := by
    have : (0 : ℤ) < height := lt_of_lt_of_le (by decide) hh
    exact_mod_cast this
  have hxs : (0 : K) < 3.2 / (seed.zoomBase +
      seed.zoomAmp * host.sin (seconds * seed.zoomFreq + seed.zoomPhase)) :=
    div_pos (by norm_num) hzpos
  have hys : (0 : K) < 2.4 / (seed.zoomBase +
      seed.zoomAmp * host.sin (seconds * seed.zoomFreq + seed.zoomPhase)) :=
    div_pos (by norm_num) hzpos
  have hxstep : (0 : K) < 3.2 / (seed.zoomBase +
      seed.zoomAmp * host.sin (seconds * seed.zoomFreq + seed.zoomPhase)) / (width : K) :=
    div_pos hxs hwpos
  have hystep : (0 : K) < 2.4 / (seed.zoomBase +
      seed.zoomAmp * host.sin (seconds * seed.zoomFreq + seed.zoomPhase)) / (height : K) :=
    div_pos hys hhpos
  refine ⟨rfl, hz0, hz1, ne_of_gt hzpos, ne_of_gt hwpos, ne_of_gt hhpos, rfl, rfl, hxs, hys,
    hxstep, hystep, ?_⟩
  intro x y
  simp only [sampleOf, frameParams]
  constructor
  · push_cast
    linarith
  · push_cast
    linarith

/-- Witness for C19: the example seed at time 0 with the real sine, on a 140 x 100
raster. -/
theorem C19_zoom_positive_witness :
    (0.87 : ℝ) ≤ (frameParams (Host.mk Real.pi Real.cos Real.sin Real.sqrt) (exampleSeed ℝ)
      140 100 88 0).zoom ∧
    0 < (frameParams (Host.mk Real.pi Real.cos Real.sin Real.sqrt) (exampleSeed ℝ)
      140 100 88 0).xStep :=
  ⟨(C19_zoom_positive (Host.mk Real.pi Real.cos Real.sin Real.sqrt)
      (fun x => ⟨Real.neg_one_le_sin x, Real.sin_le_one x⟩) (exampleSeed ℝ)
      (by simp only [exampleSeed]; norm_num) (by simp only [exampleSeed]; norm_num)
      140 100 88 (by decide) (by decide) 0).2.1,
    (C19_zoom_positive (Host.mk Real.pi Real.cos Real.sin Real.sqrt)
      (fun x => ⟨Real.neg_one_le_sin x, Real.sin_le_one x⟩) (exampleSeed ℝ)
      (by simp only [exampleSeed]; norm_num) (by simp only [exampleSeed]; norm_num)
      140 100 88 (by decide) (by decide) 0).2.2.2.2.2.2.2.2.2.2.1⟩

end ZoomClaims

/-! ### Rounding to binary64 -/

section RoundingLemmas

variable {K : Type} [LinearOrderedField K] [FloorRing K]

/-- A number within less than `1/2` of an integer is rounded to it. -/
theorem roundHalfEven_of_close (y : K) (n : ℤ) (h : |y - n| < 1 / 2) :
    roundHalfEven y = n := by
  obtain ⟨h1, h2⟩ := abs_lt.mp h
  unfold roundHalfEven
  by_cases hn : (n : K) ≤ y
  · have hf : ⌊y⌋ = n := Int.floor_eq_iff.mpr ⟨hn, by linarith⟩
    rw [hf, if_pos (by linarith)]
  · have hn' : y < n := lt_of_not_ge hn
    have hf : ⌊y⌋ = n - 1 := Int.floor_eq_iff.mpr ⟨by push_cast; linarith, by push_cast; linarith⟩
    rw [hf]
    have h3 : ¬ y - ((n - 1 : ℤ) : K) < 1 / 2 := by push_cast; linarith
    have h4 : 1 / 2 < y - ((n - 1 : ℤ) : K) := by push_cast; linarith
    rw [if_neg h3, if_pos h4]
    ring

theorem roundHalfEven_intCast (n : ℤ) : roundHalfEven (n : K) = n :=
  roundHalfEven_of_close (n : K) n (by simp)

/-- Rounding to the nearest integer moves a number by at most `1/2`. -/
theorem roundHalfEven_error (y : K) : |(roundHalfEven y : K) - y| ≤ 1 / 2 := by
  have h1 := Int.floor_le y
  have h2 := Int.lt_floor_add_one y
  unfold roundHalfEven
  split_ifs with a b c
  · rw [abs_le]; constructor <;> linarith
  · rw [abs_le]; push_cast; constructor <;> linarith
  · rw [abs_le]; constructor <;> linarith
  · rw [abs_le]; push_cast; constructor <;> linarith

/-- The binary exponent of a number between `2 ^ e` and `2 ^ (e + 1)`. -/
theorem log_two_eq (x : K) (e : ℤ) (h1 : (2 : K) ^ e ≤ x) (h2 : x < (2 : K) ^ (e + 1)) :
    Int.log 2 x = e := by
  have hx : 0 < x := lt_of_lt_of_le (zpow_pos (by norm_num) e) h1
  have a : e ≤ Int.log 2 x :=
    (Int.zpow_le_iff_le_log (by norm_num) hx).mp (by exact_mod_cast h1)
  have b : Int.log 2 x < e + 1 :=
    (Int.lt_zpow_iff_log_lt (by norm_num) hx).mp (by exact_mod_cast h2)
  omega

theorem ulpExponent_of_normal (x : K) (e : ℤ) (he : -1022 ≤ e) (h1 : (2 : K) ^ e ≤ |x|)
    (h2 : |x| < (2 : K) ^ (e + 1)) : ulpExponent x = e - 52 := by
  unfold ulpExponent
  rw [log_two_eq |x| e h1 h2, max_eq_left he]

/-- Evaluation of `binary64` at a number of binary exponent `e ≥ -1022` whose quotient
by `2 ^ (e - 52)` is within less than `1/2` of the integer `n`. -/
theorem binary64_eq (x : K) (e n : ℤ) (he : -1022 ≤ e) (h1 : (2 : K) ^ e ≤ |x|)
    (h2 : |x| < (2 : K) ^ (e + 1)) (hn : |x / 2 ^ (e - 52) - n| < 1 / 2) :
    binary64 x = n * 2 ^ (e - 52) := by
  unfold binary64
  rw [ulpExponent_of_normal x e he h1 h2, roundHalfEven_of_close _ n hn]

/-- Evaluation of `binary64` at a positive number. -/
theorem binary64_eval (x v : K) (e n : ℤ) (he : -1022 ≤ e) (h1 : (2 : K) ^ e ≤ x)
    (h2 : x < (2 : K) ^ (e + 1)) (hn : |x / 2 ^ (e - 52) - n| < 1 / 2)
    (hv : v = n * 2 ^ (e - 52)) : binary64 x = v := by
  have hpos : 0 < x := lt_of_lt_of_le (zpow_pos (by norm_num) e) h1
  rw [hv]
  exact binary64_eq x e n he (by rwa [abs_of_pos hpos]) (by rwa [abs_of_pos hpos]) hn

/-- Evaluation of `binary64` at a negative number. -/
theorem binary64_eval_neg (x v : K) (e n : ℤ) (he : -1022 ≤ e) (h1 : (2 : K) ^ e ≤ -x)
    (h2 : -x < (2 : K) ^ (e + 1)) (hn : |x / 2 ^ (e - 52) - n| < 1 / 2)
    (hv : v = n * 2 ^ (e - 52)) : binary64 x = v := by
  have hneg : x < 0 := by
    have := lt_of_lt_of_le (zpow_pos (by norm_num : (0 : K) < 2) e) h1
    linarith
  rw [hv]
  exact binary64_eq x e n he (by rwa [abs_of_neg hneg]) (by rwa [abs_of_neg hneg]) hn

theorem binary64_zero : binary64 (0 : K) = 0 := by
  unfold binary64
  simp [roundHalfEven]

/-- Within the normal range the relative error of `binary64` is at most `2 ^ (-53)`. -/
theorem binary64_error (x : K) (hx : (2 : K) ^ (-1022 : ℤ) ≤ |x|) :
    |binary64 x - x| ≤ 2 ^ (-53 : ℤ) * |x| := by
  have hpos : 0 < |x| := lt_of_lt_of_le (zpow_pos (by norm_num) _) hx
  have hlog : -1022 ≤ Int.log 2 |x| :=
    (Int.zpow_le_iff_le_log (by norm_num) hpos).mp (by exact_mod_cast hx)
  have hle : (2 : K) ^ Int.log 2 |x| ≤ |x| := by
    have := Int.zpow_log_le_self (b := 2) (r := |x|) (by norm_num) hpos
    exact_mod_cast this
  have hk : ulpExponent x = Int.log 2 |x| - 52 := by
    unfold ulpExponent
    rw [max_eq_left hlog]
  have hg : (0 : K) < 2 ^ ulpExponent x := zpow_pos (by norm_num) _
  have herr := roundHalfEven_error (x / 2 ^ ulpExponent x)
  have hfac : binary64 x - x =
      ((roundHalfEven (x / 2 ^ ulpExponent x) : K) - x / 2 ^ ulpExponent x) *
        2 ^ ulpExponent x := by
    unfold binary64
    field_simp
  rw [hfac, abs_mul, abs_of_pos hg]
  have hstep : |(roundHalfEven (x / 2 ^ ulpExponent x) : K) - x / 2 ^ ulpExponent x| *
      2 ^ ulpExponent x ≤ 1 / 2 * 2 ^ ulpExponent x :=
    mul_le_mul_of_nonneg_right herr hg.le
  have hpow : (1 / 2 : K) * 2 ^ ulpExponent x = 2 ^ (-53 : ℤ) * 2 ^ Int.log 2 |x| := by
    rw [hk, ← zpow_add₀ (by norm_num : (2 : K) ≠ 0)]
    have : (1 / 2 : K) = 2 ^ (-1 : ℤ) := by norm_num
    rw [this, ← zpow_add₀ (by norm_num : (2 : K) ≠ 0)]
    congr 1
    ring
  calc _ ≤ 1 / 2 * 2 ^ ulpExponent x := hstep
    _ = 2 ^ (-53 : ℤ) * 2 ^ Int.log 2 |x| := hpow
    _ ≤ 2 ^ (-53 : ℤ) * |x| := mul_le_mul_of_nonneg_left hle (zpow_pos (by norm_num) _).le

/-- Bounds of `binary64` on a positive number of the normal range. -/
theorem binary64_bounds (x : K) (hx : (2 : K) ^ (-1022 : ℤ) ≤ x) :
    x * (1 - 2 ^ (-53 : ℤ)) ≤ binary64 x ∧ binary64 x ≤ x * (1 + 2 ^ (-53 : ℤ)) := by
  have hpos : 0 < x := lt_of_lt_of_le (zpow_pos (by norm_num) _) hx
  have h := binary64_error x (by rwa [abs_of_pos hpos])
  rw [abs_of_pos hpos, abs_le] at h
  constructor <;> nlinarith [h.1, h.2]

end RoundingLemmas

/-! ### The escape-time loop in rounded arithmetic -/

section RoundedLoopStep

variable {K : Type} [LinearOrderedField K]

/-- One pass of the `while` loop in rounded arithmetic. -/
theorem escapeLoopFl_succ (fl : K → K) (cRe cIm : K) (iterLimit : ℤ) (fuel : ℕ)
    (s : Escape K) :
    escapeLoopFl fl cRe cIm iterLimit (fuel + 1) s =
      if (s.iteration : ℤ) < iterLimit then
        if fl (fl (s.zx * s.zx) + fl (s.zy * s.zy)) > 4.0 then
          { s with zx2 := fl (s.zx * s.zx), zy2 := fl (s.zy * s.zy) }
        else
          escapeLoopFl fl cRe cIm iterLimit fuel
            { zx := fl (fl (fl (s.zx * s.zx) - fl (s.zy * s.zy)) + cRe)
              zy := fl (fl (fl (2.0 * s.zx) * s.zy) + cIm)
              zx2 := fl (s.zx * s.zx)
              zy2 := fl (s.zy * s.zy)
              iteration := s.iteration + 1 }
      else s :=
  rfl

/-- Without rounding the loop is the exact one. -/
theorem escapeLoopFl_id (cRe cIm : K) (iterLimit : ℤ) (fuel : ℕ) (s : Escape K) :
    escapeLoopFl id cRe cIm iterLimit fuel s = escapeLoop cRe cIm iterLimit fuel s := by
  induction fuel generalizing s with
  | zero => rfl
  | succ n ih =>
    rw [escapeLoopFl_succ, escapeLoop_succ]
    simp only [id]
    split_ifs
    · rfl
    · exact ih _
    · rfl

theorem escapeTimeFl_id (cRe cIm : K) (iterLimit : ℤ) (zx0 zy0 : K) :
    escapeTimeFl id cRe cIm iterLimit zx0 zy0 = escapeTime cRe cIm iterLimit zx0 zy0 :=
  escapeLoopFl_id cRe cIm iterLimit _ _

/-- When the first test of the loop, on the computed `zx2 + zy2`, succeeds, the loop
ends in its first pass with `iteration = 0`. -/
theorem escapeTimeFl_first_exit (fl : K → K) (cRe cIm : K) (iterLimit : ℤ)
    (hlim : 0 < iterLimit) (zx0 zy0 : K)
    (hout : fl (fl (zx0 * zx0) + fl (zy0 * zy0)) > 4) :
    escapeTimeFl fl cRe cIm iterLimit zx0 zy0 =
      { zx := zx0, zy := zy0, zx2 := fl (zx0 * zx0), zy2 := fl (zy0 * zy0),
        iteration := 0 } := by
  unfold escapeTimeFl
  obtain ⟨n, hn⟩ : ∃ n, iterLimit.toNat = n + 1 := ⟨iterLimit.toNat - 1, by omega⟩
  rw [hn, escapeLoopFl_succ]
  rw [if_pos (by simpa using hlim), if_pos (by rw [lit_four]; exact hout)]

end RoundedLoopStep

section RoundedLoop

variable {K : Type} [LinearOrderedField K] [FloorRing K]

theorem paletteIndexOfFl_range (fl : K → K) (paletteScale : K) (e : Escape K) :
    0 ≤ paletteIndexOfFl fl paletteScale e ∧
      paletteIndexOfFl fl paletteScale e < (PALETTE_SIZE : ℤ) := by
  unfold paletteIndexOfFl PALETTE_SIZE
  dsimp only
  split_ifs <;> constructor <;> omega

theorem shadePixelFl_eq (fl : K → K) (palette : List ℕ) (cRe cIm : K) (iterLimit : ℤ)
    (paletteScale : K) (zx0 zy0 : K) :
    shadePixelFl fl palette cRe cIm iterLimit paletteScale zx0 zy0 =
      if ((escapeTimeFl fl cRe cIm iterLimit zx0 zy0).iteration : ℤ) = iterLimit then
        interiorColor
      else loadU32 palette
        (paletteIndexOfFl fl paletteScale (escapeTimeFl fl cRe cIm iterLimit zx0 zy0)) :=
  rfl

end RoundedLoop

/-! ### The sample `(2, -3 * 2^-52)` on doubles -/

/-- On doubles, with `c = (0, 0)` and a limit of at least 2, the loop run from the
sample `(2, -3 * 2^-52)` does not leave in its first pass: `zx * zx + zy * zy` is rounded
to `4`. It leaves in the second pass, with `iteration = 1`. -/
theorem escapeTimeFl_double_example (iterLimit : ℤ) (hlim : 2 ≤ iterLimit) :
    escapeTimeFl binary64 (0 : ℚ) 0 iterLimit 2 (-3 / 2 ^ 52) =
      { zx := 4, zy := -3 / 2 ^ 50, zx2 := 16, zy2 := 9 / 2 ^ 100, iteration := 1 } := by
  have e4 : binary64 (4 : ℚ) = 4 :=
    binary64_eval _ _ 2 (2 ^ 52) (by norm_num) (by norm_num) (by norm_num)
      (by rw [abs_lt]; norm_num) (by norm_num)
  have e16 : binary64 (16 : ℚ) = 16 :=
    binary64_eval _ _ 4 (2 ^ 52) (by norm_num) (by norm_num) (by norm_num)
      (by rw [abs_lt]; norm_num) (by norm_num)
  have ey2 : binary64 ((9 : ℚ) / 2 ^ 104) = 9 / 2 ^ 104 :=
    binary64_eval _ _ (-101) (9 * 2 ^ 49) (by norm_num) (by norm_num) (by norm_num)
      (by rw [abs_lt]; norm_num) (by norm_num)
  have es : binary64 ((4 : ℚ) + 9 / 2 ^ 104) = 4 :=
    binary64_eval _ _ 2 (2 ^ 52) (by norm_num) (by norm_num) (by norm_num)
      (by rw [abs_lt]; norm_num) (by norm_num)
  have ed : binary64 ((4 : ℚ) - 9 / 2 ^ 104) = 4 :=
    binary64_eval _ _ 1 (2 ^ 53) (by norm_num) (by norm_num) (by norm_num)
      (by rw [abs_lt]; norm_num) (by norm_num)
  have ezy : binary64 ((-3 : ℚ) / 2 ^ 50) = -3 / 2 ^ 50 :=
    binary64_eval_neg _ _ (-49) (-(3 * 2 ^ 51)) (by norm_num) (by norm_num) (by norm_num)
      (by rw [abs_lt]; norm_num) (by norm_num)
  have ey2b : binary64 ((9 : ℚ) / 2 ^ 100) = 9 / 2 ^ 100 :=
    binary64_eval _ _ (-97) (9 * 2 ^ 49) (by norm_num) (by norm_num) (by norm_num)
      (by rw [abs_lt]; norm_num) (by norm_num)
  have es2 : binary64 ((16 : ℚ) + 9 / 2 ^ 100) = 16 :=
    binary64_eval _ _ 4 (2 ^ 52) (by norm_num) (by norm_num) (by norm_num)
      (by rw [abs_lt]; norm_num) (by norm_num)
  have a1 : (2 : ℚ) * 2 = 4 := by norm_num
  have a2 : (-3 / 2 ^ 52 : ℚ) * (-3 / 2 ^ 52) = 9 / 2 ^ 104 := by norm_num
  have a3 : (2.0 : ℚ) * 2 = 4 := by norm_num
  have a4 : (4 : ℚ) * (-3 / 2 ^ 52) = -3 / 2 ^ 50 := by norm_num
  have a5 : (4 : ℚ) * 4 = 16 := by norm_num
  have a6 : (-3 / 2 ^ 50 : ℚ) * (-3 / 2 ^ 50) = 9 / 2 ^ 100 := by norm_num
  obtain ⟨n, hn⟩ : ∃ n, iterLimit.toNat = n + 1 + 1 := ⟨iterLimit.toNat - 2, by omega⟩
  unfold escapeTimeFl
  rw [hn, escapeLoopFl_succ]
  simp only [a1, a2, a3, e4, ey2, es, add_zero]
  rw [if_pos (by simp only [Nat.cast_zero]; omega), if_neg (by norm_num)]
  simp only [a4, ezy, ed, e4]
  rw [escapeLoopFl_succ]
  simp only [a5, a6, e16, ey2b, es2]
  rw [if_pos (by simp only [Nat.cast_zero, Nat.cast_one, zero_add]; omega),
    if_pos (by norm_num)]

/-- On doubles, with `iterLimit = 52`, the pixel of the sample `(2, -3 * 2^-52)` receives
the palette entry of index 34. -/
theorem paletteIndexOfFl_double_example :
    paletteIndexOfFl binary64 (paletteScaleFl binary64 52)
      (escapeTimeFl binary64 (0 : ℚ) 0 52 2 (-3 / 2 ^ 52)) = 34 := by
  have eps : binary64 (((1024 : ℚ) - 1) / 52) = 5537478868750021 / 2 ^ 48 :=
    binary64_eval _ _ 4 5537478868750021 (by norm_num) (by norm_num) (by norm_num)
      (by rw [abs_lt]; norm_num) (by norm_num)
  have es2 : binary64 ((16 : ℚ) + 9 / 2 ^ 100) = 16 :=
    binary64_eval _ _ 4 (2 ^ 52) (by norm_num) (by norm_num) (by norm_num)
      (by rw [abs_lt]; norm_num) (by norm_num)
  have elit : binary64 (4.000001 : ℚ) = 4503600753270403 / 2 ^ 50 :=
    binary64_eval _ _ 2 4503600753270403 (by norm_num) (by norm_num) (by norm_num)
      (by rw [abs_lt]; norm_num) (by norm_num)
  have emax : max (16 : ℚ) (4503600753270403 / 2 ^ 50) = 16 := max_eq_left (by norm_num)
  have a1 : (4 : ℚ) / 16 = 1 / 4 := by norm_num
  have eq : binary64 ((1 : ℚ) / 4) = 1 / 4 :=
    binary64_eval _ _ (-2) (2 ^ 52) (by norm_num) (by norm_num) (by norm_num)
      (by rw [abs_lt]; norm_num) (by norm_num)
  have a2 : (((1 : ℕ) : ℚ)) + 1 = 2 := by norm_num
  have e2 : binary64 (2 : ℚ) = 2 :=
    binary64_eval _ _ 1 (2 ^ 52) (by norm_num) (by norm_num) (by norm_num)
      (by rw [abs_lt]; norm_num) (by norm_num)
  have a3 : (2 : ℚ) - 1 / 4 = 7 / 4 := by norm_num
  have e74 : binary64 ((7 : ℚ) / 4) = 7 / 4 :=
    binary64_eval _ _ 0 (7 * 2 ^ 50) (by norm_num) (by norm_num) (by norm_num)
      (by rw [abs_lt]; norm_num) (by norm_num)
  have eprod : binary64 ((7 : ℚ) / 4 * (5537478868750021 / 2 ^ 48)) =
      1211323502539067 / 2 ^ 45 :=
    binary64_eval _ _ 5 4845294010156268 (by norm_num) (by norm_num) (by norm_num)
      (by rw [abs_lt]; norm_num) (by norm_num)
  have hor : jsOrZero ((1211323502539067 : ℚ) / 2 ^ 45) = 34 := by
    rw [jsOrZero_eq_floor _ (by norm_num) (by norm_num), Int.floor_eq_iff]
    constructor <;> norm_num
  have hps : paletteScaleFl binary64 (52 : ℤ) = (5537478868750021 : ℚ) / 2 ^ 48 := by
    unfold paletteScaleFl PALETTE_SIZE
    push_cast
    exact eps
  rw [escapeTimeFl_double_example 52 (by norm_num), hps]
  unfold paletteIndexOfFl smoothOfFl
  simp only [es2, elit, emax, a1, eq, a2, e2, a3, e74, eprod, hor]
  norm_num [PALETTE_SIZE]

section RoundedClaims

variable {K : Type} [LinearOrderedField K] [FloorRing K]

/-- C6 fails as stated on doubles: for `c = (0,0)`, `iterLimit = 52` and the sample
`z0 = (2, -3 * 2^-52)`, whose squared modulus `4 + 9 * 2^-104` exceeds 4, the sum
`zx * zx + zy * zy` is rounded to `4.0`, the first test of the loop fails, and the loop
leaves in its second pass with `iteration = 1`; the pixel receives the palette entry of
index 34, where `floor((1 - 4/max(|z0|², 4.000001)) * 1023 / 52) = 0`. -/
theorem C6_counterexample :
    (2 : ℚ) * 2 + (-3 / 2 ^ 52) * (-3 / 2 ^ 52) > 4 ∧
    (escapeTimeFl binary64 (0 : ℚ) 0 52 2 (-3 / 2 ^ 52)).iteration = 1 ∧
    (∀ palette : List ℕ,
      shadePixelFl binary64 palette (0 : ℚ) 0 52 (paletteScaleFl binary64 52) 2 (-3 / 2 ^ 52) =
        loadU32 palette 34) ∧
    ⌊(1 - 4 / max ((2 : ℚ) * 2 + (-3 / 2 ^ 52) * (-3 / 2 ^ 52)) 4.000001) * 1023 /
      ((52 : ℤ) : ℚ)⌋ = 0 := by
  refine ⟨by norm_num, by rw [escapeTimeFl_double_example 52 (by norm_num)], ?_, ?_⟩
  · intro palette
    rw [shadePixelFl_eq, paletteIndexOfFl_double_example,
      escapeTimeFl_double_example 52 (by norm_num)]
    rw [if_neg (by norm_num)]
  · rw [Int.floor_eq_iff]
    have hmax : max ((2 : ℚ) * 2 + (-3 / 2 ^ 52) * (-3 / 2 ^ 52)) 4.000001 = 4.000001 :=
      max_eq_right (by norm_num)
    rw [hmax]
    constructor <;> norm_num

end RoundedClaims

/-! ### Escape invariant and the 4 x 3 scenario, exact and rounded -/

section EscapeClaims

variable {K : Type} [LinearOrderedField K] [FloorRing K]

/-- C6 (amended): for `c = (0,0)` and `iterLimit ≥ 52` (so for every `iterLimit` in
`[52, 88]`). Whatever the rounding `fl` of the arithmetic, a sample whose squared
magnitude as the loop computes it, `fl(fl(zx*zx) + fl(zy*zy))`, exceeds 4 makes the loop
exit on its first check with `iteration = 0`; the pixel receives the palette entry of
index `(smooth * paletteScale) | 0` clamped to `[0, 1023]`, with
`smooth = 0 + 1 - 4/max(magnitude, 4.000001)` computed from that magnitude, an in-bounds
entry different from the interior colour (red byte at least 18 against 8). In exact
arithmetic the condition is `|z0|² > 4` and the entry is
`palette[floor((1 - 4/max(|z0|², 4.000001)) * 1023 / iterLimit)]`. -/
theorem C6_escape_invariant (host : Host K) (hcos : host.CosBounded) (seed : Seed K)
    (seconds : K) (palette : List ℕ) (hpal : palette.length = PALETTE_SIZE)
    (iterLimit : ℤ) (hlo : MIN_ITER ≤ iterLimit) (zx0 zy0 : K) :
    (∀ fl : K → K, fl (fl (zx0 * zx0) + fl (zy0 * zy0)) > 4 →
      escapeTimeFl fl (0 : K) 0 iterLimit zx0 zy0 =
        { zx := zx0, zy := zy0, zx2 := fl (zx0 * zx0), zy2 := fl (zy0 * zy0),
          iteration := 0 } ∧
      smoothOfFl fl (escapeTimeFl fl (0 : K) 0 iterLimit zx0 zy0) =
        fl (fl (0 + 1) -
          fl (4 / max (fl (fl (zx0 * zx0) + fl (zy0 * zy0))) (fl 4.000001))) ∧
      shadePixelFl fl (updatePalette host seed seconds palette) (0 : K) 0 iterLimit
          (paletteScaleFl fl iterLimit) zx0 zy0 =
        loadU32 (updatePalette host seed seconds palette)
          (paletteIndexOfFl fl (paletteScaleFl fl iterLimit)
            (escapeTimeFl fl (0 : K) 0 iterLimit zx0 zy0)) ∧
      0 ≤ paletteIndexOfFl fl (paletteScaleFl fl iterLimit)
          (escapeTimeFl fl (0 : K) 0 iterLimit zx0 zy0) ∧
      paletteIndexOfFl fl (paletteScaleFl fl iterLimit)
          (escapeTimeFl fl (0 : K) 0 iterLimit zx0 zy0) <
        (updatePalette host seed seconds palette).length ∧
      shadePixelFl fl (updatePalette host seed seconds palette) (0 : K) 0 iterLimit
          (paletteScaleFl fl iterLimit) zx0 zy0 ≠ interiorColor ∧
      18 ≤ byteOf (shadePixelFl fl (updatePalette host seed seconds palette) (0 : K) 0
          iterLimit (paletteScaleFl fl iterLimit) zx0 zy0) 0) ∧
    (zx0 * zx0 + zy0 * zy0 > 4 →
      (escapeTime (0 : K) 0 iterLimit zx0 zy0).iteration = 0 ∧
      shadePixel (updatePalette host seed seconds palette) (0 : K) 0 iterLimit
          (((PALETTE_SIZE : K) - 1) / (iterLimit : K)) zx0 zy0 =
        loadU32 (updatePalette host seed seconds palette)
          ⌊(1 - 4 / max (zx0 * zx0 + zy0 * zy0) 4.000001) * 1023 / (iterLimit : K)⌋ ∧
      0 ≤ ⌊(1 - 4 / max (zx0 * zx0 + zy0 * zy0) 4.000001) * 1023 / (iterLimit : K)⌋ ∧
      ⌊(1 - 4 / max (zx0 * zx0 + zy0 * zy0) 4.000001) * 1023 / (iterLimit : K)⌋ <
        (updatePalette host seed seconds palette).length ∧
      shadePixel (updatePalette host seed seconds palette) (0 : K) 0 iterLimit
          (((PALETTE_SIZE : K) - 1) / (iterLimit : K)) zx0 zy0 ≠ interiorColor ∧
      18 ≤ byteOf (shadePixel (updatePalette host seed seconds palette) (0 : K) 0 iterLimit
          (((PALETTE_SIZE : K) - 1) / (iterLimit : K)) zx0 zy0) 0) ∧
    byteOf interiorColor 0 = 8 := by
  have hlim : 0 < iterLimit := lt_of_lt_of_le (by decide) hlo
  refine ⟨?_, ?_, byteOf_interiorColor⟩
  · intro fl hout
    have he := escapeTimeFl_first_exit fl (0 : K) 0 iterLimit hlim zx0 zy0 hout
    have hit : ((escapeTimeFl fl (0 : K) 0 iterLimit zx0 zy0).iteration : ℤ) ≠ iterLimit := by
      rw [he]
      simp only [Nat.cast_zero]
      omega
    obtain ⟨h0, h1⟩ := paletteIndexOfFl_range fl (paletteScaleFl fl iterLimit)
      (escapeTimeFl fl (0 : K) 0 iterLimit zx0 zy0)
    have hshade : shadePixelFl fl (updatePalette host seed seconds palette) (0 : K) 0
        iterLimit (paletteScaleFl fl iterLimit) zx0 zy0 =
        loadU32 (updatePalette host seed seconds palette)
          (paletteIndexOfFl fl (paletteScaleFl fl iterLimit)
            (escapeTimeFl fl (0 : K) 0 iterLimit zx0 zy0)) := by
      rw [shadePixelFl_eq, if_neg hit]
    have hload := loadU32_updatePalette host seed seconds palette hpal _ h0 h1
    have hP : ((PALETTE_SIZE : ℕ) : ℤ) = 1024 := rfl
    refine ⟨he, ?_, hshade, h0, ?_, ?_, ?_⟩
    · rw [he]
      simp only [smoothOfFl, Nat.cast_zero]
    · rw [updatePalette_length, hpal]; exact h1
    · rw [hshade, hload]
      exact paletteEntry_ne_interior host hcos seed seconds _
    · rw [hshade, hload]
      have b1 := (paletteEntry_bytes host hcos seed seconds
        (paletteIndexOfFl fl (paletteScaleFl fl iterLimit)
          (escapeTimeFl fl (0 : K) 0 iterLimit zx0 zy0)).toNat).1
      have b2 := (paletteChannels_bounds host hcos seed seconds
        (paletteIndexOfFl fl (paletteScaleFl fl iterLimit)
          (escapeTimeFl fl (0 : K) 0 iterLimit zx0 zy0)).toNat).1.1
      omega
  · intro hout
    obtain ⟨a, b, c, d, e, f, _⟩ := escape_invariant_exact host hcos seed seconds palette hpal
      iterLimit hlo zx0 zy0 hout
    exact ⟨a, b, c, d, e, f⟩

/-- Witness for C6 (amended): the real cosine, the example seed at time 0,
`iterLimit = 52` and the sample `(3, 0)`, in exact arithmetic and on doubles. -/
theorem C6_escape_invariant_witness :
    MIN_ITER ≤ 52 ∧ (3 : ℝ) * 3 + 0 * 0 > 4 ∧
    (escapeTime (0 : ℝ) 0 52 3 0).iteration = 0 ∧
    binary64 (binary64 ((3 : ℝ) * 3) + binary64 ((0 : ℝ) * 0)) > 4 ∧
    shadePixelFl binary64
        (updatePalette (Host.mk Real.pi Real.cos Real.sin Real.sqrt) (exampleSeed ℝ) 0
          initialPalette) (0 : ℝ) 0 52 (paletteScaleFl binary64 52) 3 0 ≠ interiorColor :=
  have h9 : binary64 (binary64 ((3 : ℝ) * 3) + binary64 ((0 : ℝ) * 0)) > 4 := by
    have e9 : binary64 (9 : ℝ) = 9 :=
      binary64_eval _ _ 3 (9 * 2 ^ 49) (by norm_num) (by norm_num) (by norm_num)
        (by rw [abs_lt]; norm_num) (by norm_num)
    have a1 : (3 : ℝ) * 3 = 9 := by norm_num
    rw [a1, mul_zero, binary64_zero, e9, add_zero, e9]
    norm_num
  ⟨by decide, by norm_num,
    ((C6_escape_invariant (Host.mk Real.pi Real.cos Real.sin Real.sqrt)
      (fun x => ⟨Real.neg_one_le_cos x, Real.cos_le_one x⟩) (exampleSeed ℝ) 0 initialPalette
      (by simp [initialPalette]) 52 (by decide) 3 0).2.1 (by norm_num)).1,
    h9,
    ((C6_escape_invariant (Host.mk Real.pi Real.cos Real.sin Real.sqrt)
      (fun x => ⟨Real.neg_one_le_cos x, Real.cos_le_one x⟩) (exampleSeed ℝ) 0 initialPalette
      (by simp [initialPalette]) 52 (by decide) 3 0).1 binary64 h9).2.2.2.2.2.1⟩

/-- C7 fails as stated. With `c = (0,0)` and `iterLimit = 10` the sample `(1.5, 0)` has
`|z0|² = 2.25 ≤ 4`, yet its next iterate `(2.25, 0)` has squared modulus above 4, so the
loop leaves through the escape exit with `iteration = 1`. And on a 4 x 3 raster, for the
example seed at time 0 (where `c = (0,0)`), pixel `(0,0)` has the sample `(-1, -0.75)`
with `|z0|² = 1.5625 ≤ 4`, its loop ends with `iteration = 2`, and the value `render`
stores for it is not the interior colour. And on doubles the sample `(2, -3 * 2^-52)`, of
squared modulus `4 + 9 * 2^-104 > 4`, is not classified escaped at iteration 0: the sum
`zx * zx + zy * zy` is rounded to `4.0` and the loop leaves with `iteration = 1`. -/
theorem C7_counterexample :
    ((3 / 2 : ℚ) * (3 / 2) + 0 * 0 ≤ 4 ∧
      (escapeTime (0 : ℚ) 0 10 (3 / 2) 0).iteration = 1) ∧
    (∃ (r : Raster) (v : ℕ),
      (render (Host.mk Real.pi Real.cos Real.sin Real.sqrt) (exampleSeed ℝ) 4 3 10
        initialPalette (some (List.replicate 12 0)) 0).raster = some r ∧
      (frameParams (Host.mk Real.pi Real.cos Real.sin Real.sqrt) (exampleSeed ℝ) 4 3 10 0).cRe
        = 0 ∧
      (frameParams (Host.mk Real.pi Real.cos Real.sin Real.sqrt) (exampleSeed ℝ) 4 3 10 0).cIm
        = 0 ∧
      sampleOf (frameParams (Host.mk Real.pi Real.cos Real.sin Real.sqrt) (exampleSeed ℝ)
        4 3 10 0) 0 0 = (-1, -3 / 4) ∧
      (-1 : ℝ) * (-1) + (-3 / 4) * (-3 / 4) ≤ 4 ∧
      (escapeTime (0 : ℝ) 0 10 (-1) (-3 / 4)).iteration = 2 ∧
      r.writes[0]? = some (0, v) ∧ v ≠ interiorColor) ∧
    ((2 : ℚ) * 2 + (-3 / 2 ^ 52) * (-3 / 2 ^ 52) > 4 ∧
      (escapeTimeFl binary64 (0 : ℚ) 0 10 2 (-3 / 2 ^ 52)).iteration = 1) := by
  refine ⟨?_, ?_, by norm_num, by rw [escapeTimeFl_double_example 10 (by norm_num)]⟩
  · refine ⟨by norm_num, ?_⟩
    have e : escapeTime (0 : ℚ) 0 10 (3 / 2) 0 =
        escapeLoop 0 0 10 (8 + 1 + 1) ⟨3 / 2, 0, 0, 0, 0⟩ := rfl
    rw [e, escapeLoop_succ, if_pos (by norm_num), if_neg (by norm_num), escapeLoop_succ,
      if_pos (by norm_num), if_pos (by norm_num)]
  · obtain ⟨r, hr, hget⟩ := render_write_at (Host.mk Real.pi Real.cos Real.sin Real.sqrt)
      (exampleSeed ℝ) 4 3 10 initialPalette (List.replicate 12 0) 0 0 0 (by norm_num)
      (by norm_num)
    obtain ⟨hcRe, hcIm, hsample⟩ := frameParams_example
    rw [hcRe, hcIm, hsample] at hget
    refine ⟨r, _, hr, hcRe, hcIm, hsample, by norm_num, escapeTime_example,
      by simpa using hget, ?_⟩
    intro h
    have := (shadePixel_interior_iff (Host.mk Real.pi Real.cos Real.sin Real.sqrt)
      (fun x => ⟨Real.neg_one_le_cos x, Real.cos_le_one x⟩) (exampleSeed ℝ) 0 initialPalette
      (by simp [initialPalette]) 0 0 10 _ _ _).mp h
    rw [escapeTime_example] at this
    norm_num at this

/-- C7 (amended): for `c = (0,0)` and `iterLimit = 10`. In exact arithmetic a pixel whose
sample has `|z0|² > 4` is classified escaped at iteration 0; a pixel is classified
interior (its iteration count reaches 10, and it then receives the interior colour)
exactly when `(|z0|²)^512 ≤ 4`, in particular whenever `|z0| ≤ 1`; and a sample with
`|z0|² ≤ 4` but `(|z0|²)^512 > 4` escapes at an iteration between 1 and 9. Whatever
the rounding `fl` of the arithmetic, a pixel whose squared magnitude as the loop computes
it, `fl(fl(zx*zx) + fl(zy*zy))`, exceeds 4 is classified escaped at iteration 0: the loop
exits on its first check and the pixel receives a palette entry. -/
theorem C7_scenario_classification (zx0 zy0 : K) (palette : List ℕ) (paletteScale : K) :
    (zx0 * zx0 + zy0 * zy0 > 4 → (escapeTime (0 : K) 0 10 zx0 zy0).iteration = 0) ∧
    ((escapeTime (0 : K) 0 10 zx0 zy0).iteration = 10 ↔ (zx0 * zx0 + zy0 * zy0) ^ 512 ≤ 4) ∧
    ((escapeTime (0 : K) 0 10 zx0 zy0).iteration = 10 →
      shadePixel palette (0 : K) 0 10 paletteScale zx0 zy0 = interiorColor) ∧
    (zx0 * zx0 + zy0 * zy0 ≤ 1 → (escapeTime (0 : K) 0 10 zx0 zy0).iteration = 10) ∧
    (zx0 * zx0 + zy0 * zy0 ≤ 4 → (zx0 * zx0 + zy0 * zy0) ^ 512 > 4 →
      1 ≤ (escapeTime (0 : K) 0 10 zx0 zy0).iteration ∧
      (escapeTime (0 : K) 0 10 zx0 zy0).iteration ≤ 9) ∧
    (∀ fl : K → K, fl (fl (zx0 * zx0) + fl (zy0 * zy0)) > 4 →
      (escapeTimeFl fl (0 : K) 0 10 zx0 zy0).iteration = 0 ∧
      shadePixelFl fl palette (0 : K) 0 10 paletteScale zx0 zy0 =
        loadU32 palette
          (paletteIndexOfFl fl paletteScale (escapeTimeFl fl (0 : K) 0 10 zx0 zy0))) := by
  obtain ⟨a, b, c, d, e⟩ := scenario_classification_exact zx0 zy0 palette paletteScale
  refine ⟨a, b, c, d, e, ?_⟩
  intro fl hout
  have he := escapeTimeFl_first_exit fl (0 : K) 0 10 (by norm_num) zx0 zy0 hout
  refine ⟨by rw [he], ?_⟩
  rw [shadePixelFl_eq, if_neg (by rw [he]; norm_num)]

/-- Witness for C7 (amended): the sample `(3, 0)` lies outside the radius and is
classified escaped at iteration 0, in exact arithmetic and on doubles. -/
theorem C7_scenario_classification_witness :
    (3 : ℚ) * 3 + 0 * 0 > 4 ∧ (escapeTime (0 : ℚ) 0 10 3 0).iteration = 0 ∧
    binary64 (binary64 ((3 : ℚ) * 3) + binary64 ((0 : ℚ) * 0)) > 4 ∧
    (escapeTimeFl binary64 (0 : ℚ) 0 10 3 0).iteration = 0 :=
  have h9 : binary64 (binary64 ((3 : ℚ) * 3) + binary64 ((0 : ℚ) * 0)) > 4 := by
    have e9 : binary64 (9 : ℚ) = 9 :=
      binary64_eval _ _ 3 (9 * 2 ^ 49) (by norm_num) (by norm_num) (by norm_num)
        (by rw [abs_lt]; norm_num) (by norm_num)
    have a1 : (3 : ℚ) * 3 = 9 := by norm_num
    rw [a1, mul_zero, binary64_zero, e9, add_zero, e9]
    norm_num
  ⟨by norm_num, (C7_scenario_classification (3 : ℚ) 0 [] 0).1 (by norm_num), h9,
    ((C7_scenario_classification (3 : ℚ) 0 [] 0).2.2.2.2.2 binary64 h9).1⟩

end EscapeClaims

/-! ### The viewport in rounded arithmetic -/

section RoundedBudget

variable {K : Type} [LinearOrderedField K]

/-- The chain of roundings of `resize`, for a relative rounding error of at most `u`:
the product of the two floors, times `1 - u`, is at most the budget times
`(1 + u) ^ 5`. -/
theorem rounded_budget (u W H P E Q s0 s A B : K) (n m : ℤ) (hu0 : 0 ≤ u) (hu1 : u < 1)
    (hW : 0 < W) (hH : 0 < H)
    (hP : W * H * (1 - u) ≤ P) (hQ : Q ≤ E / P * (1 + u))
    (hs0 : s0 * s0 ≤ Q * (1 + u) ^ 2) (hs : 0 ≤ s) (hss : s ≤ s0)
    (hA : A ≤ W * s * (1 + u)) (hB : B ≤ H * s * (1 + u))
    (hn : 0 ≤ n) (hnA : (n : K) ≤ A) (hm : 0 ≤ m) (hmB : (m : K) ≤ B) :
    ((n * m : ℤ) : K) * (1 - u) ≤ E * (1 + u) ^ 5 := by
  have hu : 0 < 1 - u := by linarith
  have ht : 0 < 1 + u := by linarith
  have hn' : (0 : K) ≤ n := by exact_mod_cast hn
  have hm' : (0 : K) ≤ m := by exact_mod_cast hm
  have hPpos : 0 < P := lt_of_lt_of_le (mul_pos (mul_pos hW hH) hu) hP
  have h1 : (n : K) * m ≤ (W * s * (1 + u)) * (H * s * (1 + u)) :=
    mul_le_mul (le_trans hnA hA) (le_trans hmB hB) hm' (le_trans hn' (le_trans hnA hA))
  have h2 : s * s ≤ s0 * s0 := mul_le_mul hss hss hs (le_trans hs hss)
  have h3 : s * s ≤ E / P * (1 + u) * (1 + u) ^ 2 :=
    le_trans h2 (le_trans hs0 (mul_le_mul_of_nonneg_right hQ (by positivity)))
  have h4 : W * H * (1 - u) * (s * s) ≤ P * (E / P * (1 + u) * (1 + u) ^ 2) :=
    mul_le_mul hP h3 (mul_nonneg hs hs) hPpos.le
  have h5 : P * (E / P * (1 + u) * (1 + u) ^ 2) = E * (1 + u) ^ 3 := by
    field_simp
    ring
  push_cast
  calc (n : K) * m * (1 - u) ≤ (W * s * (1 + u)) * (H * s * (1 + u)) * (1 - u) :=
        mul_le_mul_of_nonneg_right h1 hu.le
    _ = W * H * (1 - u) * (s * s) * (1 + u) ^ 2 := by ring
    _ ≤ P * (E / P * (1 + u) * (1 + u) ^ 2) * (1 + u) ^ 2 :=
        mul_le_mul_of_nonneg_right h4 (by positivity)
    _ = E * (1 + u) ^ 5 := by rw [h5]; ring

end RoundedBudget

section RoundedResize

variable {K : Type} [LinearOrderedField K] [FloorRing K]

theorem binary64_lit_082 : binary64 (0.82 : K) = 7385903388887613 / 2 ^ 53 :=
  binary64_eval _ _ (-1) 7385903388887613 (by norm_num) (by norm_num) (by norm_num)
    (by rw [abs_lt]; norm_num) (by norm_num)

/-- On doubles `180000 * 0.82` is `147600`. -/
theorem binary64_budget_discounted :
    binary64 ((BASE_TARGET_PIXELS : K) * binary64 0.82) = 147600 := by
  rw [binary64_lit_082]
  unfold BASE_TARGET_PIXELS
  exact binary64_eval _ _ 17 5071497383116800 (by norm_num) (by norm_num) (by norm_num)
    (by rw [abs_lt]; norm_num) (by norm_num)

theorem binary64_budget_base : binary64 ((BASE_TARGET_PIXELS : K) * 1) = 180000 := by
  unfold BASE_TARGET_PIXELS
  exact binary64_eval _ _ 17 6184752906240000 (by norm_num) (by norm_num) (by norm_num)
    (by rw [abs_lt]; norm_num) (by norm_num)

/-- On doubles the effective budget is `180000` or `147600`. -/
theorem effectiveTargetPixelsFl_cases (dpr : K) :
    binary64 ((BASE_TARGET_PIXELS : K) * (if dpr > 1.25 then binary64 0.82 else 1)) =
        ((180000 : ℤ) : K) ∨
      binary64 ((BASE_TARGET_PIXELS : K) * (if dpr > 1.25 then binary64 0.82 else 1)) =
        ((147600 : ℤ) : K) := by
  split_ifs
  · right; rw [binary64_budget_discounted]; norm_num
  · left; rw [binary64_budget_base]; norm_num

/-- On doubles, for a surface of at most `2 ^ 31` by `2 ^ 31` and a square root within
the relative error `2 ^ (-53)`: `scale` lies in `(0, 1]`, and a raster that neither
minimum clamp enlarges respects the pixel budget. -/
theorem resizeFl_budget (host : Host K) (hsqrt : host.SqrtRounded)
    (innerWidth innerHeight devicePixelRatio : K)
    (hiw : innerWidth ≤ 2 ^ 31) (hih : innerHeight ≤ 2 ^ 31) :
    0 < (resizeFl binary64 host innerWidth innerHeight devicePixelRatio).scale ∧
    (resizeFl binary64 host innerWidth innerHeight devicePixelRatio).scale ≤ 1 ∧
    (MIN_WIDTH ≤
        ⌊binary64 ((resizeFl binary64 host innerWidth innerHeight devicePixelRatio).viewportW *
          (resizeFl binary64 host innerWidth innerHeight devicePixelRatio).scale)⌋ →
      MIN_HEIGHT ≤
        ⌊binary64 ((resizeFl binary64 host innerWidth innerHeight devicePixelRatio).viewportH *
          (resizeFl binary64 host innerWidth innerHeight devicePixelRatio).scale)⌋ →
      (((resizeFl binary64 host innerWidth innerHeight devicePixelRatio).width *
          (resizeFl binary64 host innerWidth innerHeight devicePixelRatio).height : ℤ) : K) ≤
        (resizeFl binary64 host innerWidth innerHeight devicePixelRatio).effectiveTargetPixels)
    := by
  simp only [resizeFl]
  have hW : (1 : K) ≤ max innerWidth 1 := le_max_right _ _
  have hH : (1 : K) ≤ max innerHeight 1 := le_max_right _ _
  have hW2 : max innerWidth 1 ≤ (2 : K) ^ 31 := max_le hiw (by norm_num)
  have hH2 : max innerHeight 1 ≤ (2 : K) ^ 31 := max_le hih (by norm_num)
  generalize max innerWidth 1 = W at hW hW2 ⊢
  generalize max innerHeight 1 = H at hH hH2 ⊢
  have hWpos : 0 < W := by linarith
  have hHpos : 0 < H := by linarith
  -- the budget is an integer between 147600 and 180000
  obtain ⟨Ei, hEi, hElo, hEhi⟩ : ∃ Ei : ℤ,
      binary64 ((BASE_TARGET_PIXELS : K) *
        (if min (if devicePixelRatio = 0 then 1 else devicePixelRatio) (2 : K) > 1.25
          then binary64 0.82 else 1)) = (Ei : K) ∧ 147600 ≤ Ei ∧ Ei ≤ 180000 := by
    rcases effectiveTargetPixelsFl_cases
      (min (if devicePixelRatio = 0 then 1 else devicePixelRatio) (2 : K)) with h | h
    · exact ⟨180000, h, by norm_num, by norm_num⟩
    · exact ⟨147600, h, by norm_num, by norm_num⟩
  rw [hEi]
  have hElo' : (147600 : K) ≤ (Ei : K) := by exact_mod_cast hElo
  have hEhi' : (Ei : K) ≤ 180000 := by exact_mod_cast hEhi
  have hEpos : (0 : K) < (Ei : K) := by linarith
  -- the product of the surface dimensions
  have hP0lo : (1 : K) ≤ W * H := by nlinarith
  have hP0hi : W * H ≤ (2 : K) ^ 62 := by
    calc W * H ≤ (2 : K) ^ 31 * (2 : K) ^ 31 := mul_le_mul hW2 hH2 hHpos.le (by positivity)
      _ = (2 : K) ^ 62 := by norm_num
  obtain ⟨hPlo, hPhi⟩ := binary64_bounds (W * H)
    (le_trans (by norm_num [zpow_neg]) hP0lo)
  generalize binary64 (W * H) = P at hPlo hPhi ⊢
  have hu : (0 : K) ≤ 2 ^ (-53 : ℤ) := by positivity
  have hu1 : (2 : K) ^ (-53 : ℤ) < 1 := by norm_num [zpow_neg]
  have hPpos : 0 < P :=
    lt_of_lt_of_le (mul_pos (mul_pos hWpos hHpos) (by linarith)) hPlo
  have hPhi' : P ≤ (2 : K) ^ 63 := by
    calc P ≤ W * H * (1 + 2 ^ (-53 : ℤ)) := hPhi
      _ ≤ (2 : K) ^ 62 * 2 := mul_le_mul hP0hi (by linarith) (by linarith) (by positivity)
      _ = (2 : K) ^ 63 := by norm_num
  -- the quotient
  have hQ0lo : (2 : K) ^ (-46 : ℤ) ≤ (Ei : K) / P := by
    rw [le_div_iff₀ hPpos]
    calc (2 : K) ^ (-46 : ℤ) * P ≤ (2 : K) ^ (-46 : ℤ) * (2 : K) ^ 63 :=
          mul_le_mul_of_nonneg_left hPhi' (by positivity)
      _ ≤ 147600 := by norm_num [zpow_neg]
      _ ≤ (Ei : K) := hElo'
  obtain ⟨hQlo, hQhi⟩ := binary64_bounds ((Ei : K) / P)
    (le_trans (by norm_num [zpow_neg]) hQ0lo)
  generalize binary64 ((Ei : K) / P) = Q at hQlo hQhi ⊢
  have hQlo' : (2 : K) ^ (-47 : ℤ) ≤ Q := by
    calc (2 : K) ^ (-47 : ℤ) = (2 : K) ^ (-46 : ℤ) * (1 / 2) := by norm_num [zpow_neg]
      _ ≤ (Ei : K) / P * (1 - 2 ^ (-53 : ℤ)) :=
          mul_le_mul hQ0lo (by norm_num [zpow_neg]) (by norm_num) (le_trans (by positivity) hQ0lo)
      _ ≤ Q := hQlo
  -- the square root
  obtain ⟨hr0, hrlo, hrhi⟩ := hsqrt Q (le_trans (by norm_num [zpow_neg]) hQlo')
  generalize host.sqrt Q = r at hr0 hrlo hrhi ⊢
  have hrsq : (2 : K) ^ (-49 : ℤ) ≤ r * r := by
    calc (2 : K) ^ (-49 : ℤ) = (2 : K) ^ (-47 : ℤ) * (1 / 4) := by norm_num [zpow_neg]
      _ ≤ Q * (1 - 2 ^ (-53 : ℤ)) ^ 2 :=
          mul_le_mul hQlo' (by norm_num [zpow_neg]) (by norm_num) (le_trans (by positivity) hQlo')
      _ ≤ r * r := hrlo
  have hrlo' : (2 : K) ^ (-25 : ℤ) ≤ r := by
    by_contra hlt
    have hlt' : r < (2 : K) ^ (-25 : ℤ) := lt_of_not_ge hlt
    have : r * r < (2 : K) ^ (-25 : ℤ) * (2 : K) ^ (-25 : ℤ) :=
      mul_lt_mul'' hlt' hlt' hr0 hr0
    have h50 : (2 : K) ^ (-25 : ℤ) * (2 : K) ^ (-25 : ℤ) ≤ (2 : K) ^ (-49 : ℤ) := by
      norm_num [zpow_neg]
    linarith
  have hs0 : (2 : K) ^ (-25 : ℤ) ≤ min 1 r := le_min (by norm_num [zpow_neg]) hrlo'
  have hs1 : min 1 r ≤ 1 := min_le_left _ _
  have hsr : min 1 r ≤ r := min_le_right _ _
  generalize min 1 r = s at hs0 hs1 hsr ⊢
  have hspos : 0 < s := lt_of_lt_of_le (by positivity) hs0
  refine ⟨hspos, hs1, ?_⟩
  intro hw hh
  rw [max_eq_right hw, max_eq_right hh]
  have hAlo : (2 : K) ^ (-1022 : ℤ) ≤ W * s := by
    calc (2 : K) ^ (-1022 : ℤ) ≤ (2 : K) ^ (-25 : ℤ) :=
          zpow_le_zpow_right₀ (by norm_num) (by norm_num)
      _ ≤ s := hs0
      _ = 1 * s := (one_mul s).symm
      _ ≤ W * s := mul_le_mul_of_nonneg_right hW hspos.le
  have hBlo : (2 : K) ^ (-1022 : ℤ) ≤ H * s := by
    calc (2 : K) ^ (-1022 : ℤ) ≤ (2 : K) ^ (-25 : ℤ) :=
          zpow_le_zpow_right₀ (by norm_num) (by norm_num)
      _ ≤ s := hs0
      _ = 1 * s := (one_mul s).symm
      _ ≤ H * s := mul_le_mul_of_nonneg_right hH hspos.le
  obtain ⟨_, hA⟩ := binary64_bounds (W * s) hAlo
  obtain ⟨_, hB⟩ := binary64_bounds (H * s) hBlo
  have hn : (0 : ℤ) ≤ ⌊binary64 (W * s)⌋ := le_trans (by decide) hw
  have hm : (0 : ℤ) ≤ ⌊binary64 (H * s)⌋ := le_trans (by decide) hh
  have key := rounded_budget (2 ^ (-53 : ℤ)) W H P (Ei : K) Q r s (binary64 (W * s))
    (binary64 (H * s)) ⌊binary64 (W * s)⌋ ⌊binary64 (H * s)⌋ hu hu1 hWpos hHpos hPlo
    hQhi hrhi hspos.le hsr hA hB hn (Int.floor_le _) hm (Int.floor_le _)
  have hnum : (Ei : K) * (1 + 2 ^ (-53 : ℤ)) ^ 5 < ((Ei : K) + 1) * (1 - 2 ^ (-53 : ℤ)) := by
    have h1 : (1 + (2 : K) ^ (-53 : ℤ)) ^ 5 ≤ 1 + 2 ^ (-50 : ℤ) := by norm_num [zpow_neg]
    have h2 : (180000 : K) * 2 ^ (-50 : ℤ) + 180001 * 2 ^ (-53 : ℤ) < 1 := by
      norm_num [zpow_neg]
    have h3 : (0 : K) < 2 ^ (-50 : ℤ) := by positivity
    have a := mul_le_mul_of_nonneg_left h1 hEpos.le
    have b := mul_le_mul_of_nonneg_right hEhi' h3.le
    have c : ((Ei : K) + 1) * 2 ^ (-53 : ℤ) ≤ 180001 * 2 ^ (-53 : ℤ) :=
      mul_le_mul_of_nonneg_right (by linarith) hu
    linarith
  have hlt : ((⌊binary64 (W * s)⌋ * ⌊binary64 (H * s)⌋ : ℤ) : K) < ((Ei + 1 : ℤ) : K) := by
    have h1 : ((⌊binary64 (W * s)⌋ * ⌊binary64 (H * s)⌋ : ℤ) : K) * (1 - 2 ^ (-53 : ℤ)) <
        ((Ei : K) + 1) * (1 - 2 ^ (-53 : ℤ)) := lt_of_le_of_lt key hnum
    have h2 := lt_of_mul_lt_mul_right h1 (by linarith)
    push_cast
    push_cast at h2
    exact h2
  have hlt' : ⌊binary64 (W * s)⌋ * ⌊binary64 (H * s)⌋ < Ei + 1 := by exact_mod_cast hlt
  have hle : ⌊binary64 (W * s)⌋ * ⌊binary64 (H * s)⌋ ≤ Ei := by omega
  exact_mod_cast hle

end RoundedResize

/-! ### Viewport claims on doubles -/

/-- The correctly rounded square root on the reals satisfies the contract
`Host.SqrtRounded`. -/
theorem sqrtRounded_real :
    (Host.mk Real.pi Real.cos Real.sin (fun q => binary64 (Real.sqrt q))).SqrtRounded := by
  intro q hq
  have hu0 : (0 : ℝ) ≤ 2 ^ (-53 : ℤ) := by positivity
  have hu1 : (2 : ℝ) ^ (-53 : ℤ) < 1 := by norm_num [zpow_neg]
  have hqpos : 0 < q := lt_of_lt_of_le (by positivity) hq
  have hr : (2 : ℝ) ^ (-1022 : ℤ) ≤ Real.sqrt q := by
    apply Real.le_sqrt_of_sq_le
    calc ((2 : ℝ) ^ (-1022 : ℤ)) ^ 2 ≤ 2 ^ (-1074 : ℤ) := by
          rw [← zpow_natCast, ← zpow_mul]
          exact zpow_le_zpow_right₀ (by norm_num) (by norm_num)
      _ ≤ q := hq
  have hrpos : 0 < Real.sqrt q := lt_of_lt_of_le (by positivity) hr
  obtain ⟨hlo, hhi⟩ := binary64_bounds (Real.sqrt q) hr
  have hsq : Real.sqrt q * Real.sqrt q = q := Real.mul_self_sqrt hqpos.le
  have hlo0 : 0 ≤ Real.sqrt q * (1 - 2 ^ (-53 : ℤ)) := mul_nonneg hrpos.le (by linarith)
  have hb0 : 0 ≤ binary64 (Real.sqrt q) := le_trans hlo0 hlo
  refine ⟨hb0, ?_, ?_⟩
  · show q * (1 - 2 ^ (-53 : ℤ)) ^ 2 ≤ binary64 (Real.sqrt q) * binary64 (Real.sqrt q)
    calc q * (1 - 2 ^ (-53 : ℤ)) ^ 2 =
          (Real.sqrt q * (1 - 2 ^ (-53 : ℤ))) * (Real.sqrt q * (1 - 2 ^ (-53 : ℤ))) := by
          linear_combination (-(1 - 2 ^ (-53 : ℤ)) ^ 2) * hsq
      _ ≤ binary64 (Real.sqrt q) * binary64 (Real.sqrt q) := mul_le_mul hlo hlo hlo0 hb0
  · show binary64 (Real.sqrt q) * binary64 (Real.sqrt q) ≤ q * (1 + 2 ^ (-53 : ℤ)) ^ 2
    calc binary64 (Real.sqrt q) * binary64 (Real.sqrt q) ≤
          (Real.sqrt q * (1 + 2 ^ (-53 : ℤ))) * (Real.sqrt q * (1 + 2 ^ (-53 : ℤ))) :=
          mul_le_mul hhi hhi hb0 (le_trans hb0 hhi)
      _ = q * (1 + 2 ^ (-53 : ℤ)) ^ 2 := by
          linear_combination ((1 + 2 ^ (-53 : ℤ)) ^ 2) * hsq

/-- Evaluation of the correctly rounded square root of `q`, of binary exponent `e`, whose
quotient by `2 ^ (e - 52)` is within less than `1/2` of the integer `n`, the three
conditions being stated on squares. -/
theorem binary64_sqrt_eval (q v : ℝ) (e n : ℤ) (he : -1022 ≤ e) (hn : 1 ≤ n)
    (h1 : ((2 : ℝ) ^ e) ^ 2 ≤ q) (h2 : q < ((2 : ℝ) ^ (e + 1)) ^ 2)
    (hlo : ((((n : ℝ) - 1 / 2)) * 2 ^ (e - 52)) ^ 2 < q)
    (hhi : q < ((((n : ℝ) + 1 / 2)) * 2 ^ (e - 52)) ^ 2)
    (hv : v = n * 2 ^ (e - 52)) : binary64 (Real.sqrt q) = v := by
  have hg : (0 : ℝ) < 2 ^ (e - 52) := by positivity
  have hn' : (1 : ℝ) ≤ n := by exact_mod_cast hn
  have a1 : (2 : ℝ) ^ e ≤ Real.sqrt q := Real.le_sqrt_of_sq_le h1
  have a2 : Real.sqrt q < (2 : ℝ) ^ (e + 1) :=
    (Real.sqrt_lt' (by positivity)).mpr h2
  have a3 : ((n : ℝ) - 1 / 2) * 2 ^ (e - 52) < Real.sqrt q :=
    (Real.lt_sqrt (mul_nonneg (by linarith) hg.le)).mpr hlo
  have a4 : Real.sqrt q < ((n : ℝ) + 1 / 2) * 2 ^ (e - 52) :=
    (Real.sqrt_lt' (mul_pos (by linarith) hg)).mpr hhi
  refine binary64_eval _ _ e n he a1 a2 ?_ hv
  rw [abs_lt]
  constructor
  · have : (n : ℝ) - 1 / 2 < Real.sqrt q / 2 ^ (e - 52) := (lt_div_iff₀ hg).mpr a3
    linarith
  · have : Real.sqrt q / 2 ^ (e - 52) < (n : ℝ) + 1 / 2 := (div_lt_iff₀ hg).mpr a4
    linarith

section RoundedEvaluation

variable {K : Type} [LinearOrderedField K] [FloorRing K]

/-- The result of `resize` on doubles from the values of its intermediate
expressions. -/
theorem resizeFl_eval (host : Host K) (innerWidth innerHeight devicePixelRatio : K)
    (W H E P Q r s : K) (n m : ℤ) (hW : max innerWidth 1 = W) (hH : max innerHeight 1 = H)
    (hE : binary64 ((BASE_TARGET_PIXELS : K) *
      (if min (if devicePixelRatio = 0 then 1 else devicePixelRatio) (2 : K) > 1.25
        then binary64 0.82 else 1)) = E)
    (hP : binary64 (W * H) = P) (hQ : binary64 (E / P) = Q) (hr : host.sqrt Q = r)
    (hs : min 1 r = s) (hn : ⌊binary64 (W * s)⌋ = n) (hm : ⌊binary64 (H * s)⌋ = m) :
    (resizeFl binary64 host innerWidth innerHeight devicePixelRatio).width = max MIN_WIDTH n ∧
    (resizeFl binary64 host innerWidth innerHeight devicePixelRatio).height =
      max MIN_HEIGHT m ∧
    (resizeFl binary64 host innerWidth innerHeight devicePixelRatio).effectiveTargetPixels
      = E ∧
    (resizeFl binary64 host innerWidth innerHeight devicePixelRatio).scale = s ∧
    (resizeFl binary64 host innerWidth innerHeight devicePixelRatio).viewportW = W ∧
    (resizeFl binary64 host innerWidth innerHeight devicePixelRatio).viewportH = H := by
  simp only [resizeFl]
  rw [hW, hH, hE, hP, hQ, hr, hs, hn, hm]
  exact ⟨rfl, rfl, rfl, rfl, rfl, rfl⟩

end RoundedEvaluation

/-- On doubles, with the correctly rounded square root, a 3510 x 780 surface at ratio 1
gets the floors 899 and 199 (in exact arithmetic `scale = 10/39` and the floors would be
900 and 200). -/
theorem resizeFl_double_example :
    (resizeFl binary64 (Host.mk Real.pi Real.cos Real.sin (fun q => binary64 (Real.sqrt q)))
      (3510 : ℝ) 780 1).width = max MIN_WIDTH 899 ∧
    (resizeFl binary64 (Host.mk Real.pi Real.cos Real.sin (fun q => binary64 (Real.sqrt q)))
      (3510 : ℝ) 780 1).height = max MIN_HEIGHT 199 ∧
    (resizeFl binary64 (Host.mk Real.pi Real.cos Real.sin (fun q => binary64 (Real.sqrt q)))
      (3510 : ℝ) 780 1).effectiveTargetPixels = 180000 ∧
    ⌊binary64 ((resizeFl binary64 (Host.mk Real.pi Real.cos Real.sin (fun q => binary64 (Real.sqrt q)))
        (3510 : ℝ) 780 1).viewportW *
      (resizeFl binary64 (Host.mk Real.pi Real.cos Real.sin (fun q => binary64 (Real.sqrt q)))
        (3510 : ℝ) 780 1).scale)⌋ = 899 ∧
    ⌊binary64 ((resizeFl binary64 (Host.mk Real.pi Real.cos Real.sin (fun q => binary64 (Real.sqrt q)))
        (3510 : ℝ) 780 1).viewportH *
      (resizeFl binary64 (Host.mk Real.pi Real.cos Real.sin (fun q => binary64 (Real.sqrt q)))
        (3510 : ℝ) 780 1).scale)⌋ = 199 := by
  have hE : binary64 (((BASE_TARGET_PIXELS : ℕ) : ℝ) *
      (if min (if (1 : ℝ) = 0 then 1 else 1) (2 : ℝ) > 1.25 then binary64 0.82 else 1)) =
      180000 := by
    have h1 : (if min (if (1 : ℝ) = 0 then 1 else 1) (2 : ℝ) > 1.25 then binary64 (0.82 : ℝ)
        else 1) = 1 := by
      rw [if_neg (by norm_num)]
    rw [h1]
    exact binary64_budget_base
  have hP : binary64 ((3510 : ℝ) * 780) = 2737800 :=
    binary64_eval _ _ (21) (5879380731494400) (by norm_num) (by norm_num) (by norm_num)
      (by rw [abs_lt]; norm_num) (by norm_num)
  have hQ : binary64 ((180000 : ℝ) / 2737800) = 4737514400915709 / 2 ^ 56 :=
    binary64_eval _ _ (-4) (4737514400915709) (by norm_num) (by norm_num) (by norm_num)
      (by rw [abs_lt]; norm_num) (by norm_num)
  have hr : binary64 (Real.sqrt (4737514400915709 / 2 ^ 56)) = 288692283805801 / 2 ^ 50 :=
    binary64_sqrt_eval _ _ (-2) (4619076540892816) (by norm_num) (by norm_num) (by norm_num)
      (by norm_num) (by norm_num) (by norm_num) (by norm_num)
  have hA : binary64 ((3510 : ℝ) * (288692283805801 / 2 ^ 50)) = 7916483719987199 / 2 ^ 43 :=
    binary64_eval _ _ (9) (7916483719987199) (by norm_num) (by norm_num) (by norm_num)
      (by rw [abs_lt]; norm_num) (by norm_num)
  have hB : binary64 ((780 : ℝ) * (288692283805801 / 2 ^ 50)) = 7036874417766399 / 2 ^ 45 :=
    binary64_eval _ _ (7) (7036874417766399) (by norm_num) (by norm_num) (by norm_num)
      (by rw [abs_lt]; norm_num) (by norm_num)
  have hn : ⌊binary64 ((3510 : ℝ) * (288692283805801 / 2 ^ 50))⌋ = 899 := by
    rw [hA, Int.floor_eq_iff]; constructor <;> norm_num
  have hm : ⌊binary64 ((780 : ℝ) * (288692283805801 / 2 ^ 50))⌋ = 199 := by
    rw [hB, Int.floor_eq_iff]; constructor <;> norm_num
  obtain ⟨hw, hh, he, hs, hvw, hvh⟩ := resizeFl_eval
    (Host.mk Real.pi Real.cos Real.sin (fun q => binary64 (Real.sqrt q))) (3510 : ℝ) 780 1
    3510 780 180000 2737800 (4737514400915709 / 2 ^ 56) (288692283805801 / 2 ^ 50)
    (288692283805801 / 2 ^ 50) 899 199 (max_eq_left (by norm_num)) (max_eq_left (by norm_num))
    hE hP hQ hr (min_eq_right (by norm_num)) hn hm
  refine ⟨hw, hh, he, ?_, ?_⟩
  · rw [hs, hvw]; exact hn
  · rw [hs, hvh]; exact hm

/-- On doubles, with the correctly rounded square root, a 100 x 3200 surface at ratio 1
gets `scale = 0.75` and the floors 75 and 2400, every intermediate value being exact. -/
theorem resizeFl_double_clamped :
    (resizeFl binary64 (Host.mk Real.pi Real.cos Real.sin (fun q => binary64 (Real.sqrt q)))
      (100 : ℝ) 3200 1).width = max MIN_WIDTH 75 ∧
    (resizeFl binary64 (Host.mk Real.pi Real.cos Real.sin (fun q => binary64 (Real.sqrt q)))
      (100 : ℝ) 3200 1).height = max MIN_HEIGHT 2400 ∧
    (resizeFl binary64 (Host.mk Real.pi Real.cos Real.sin (fun q => binary64 (Real.sqrt q)))
      (100 : ℝ) 3200 1).effectiveTargetPixels = 180000 ∧
    ⌊binary64 ((resizeFl binary64 (Host.mk Real.pi Real.cos Real.sin (fun q => binary64 (Real.sqrt q)))
        (100 : ℝ) 3200 1).viewportW *
      (resizeFl binary64 (Host.mk Real.pi Real.cos Real.sin (fun q => binary64 (Real.sqrt q)))
        (100 : ℝ) 3200 1).scale)⌋ = 75 ∧
    ⌊binary64 ((resizeFl binary64 (Host.mk Real.pi Real.cos Real.sin (fun q => binary64 (Real.sqrt q)))
        (100 : ℝ) 3200 1).viewportH *
      (resizeFl binary64 (Host.mk Real.pi Real.cos Real.sin (fun q => binary64 (Real.sqrt q)))
        (100 : ℝ) 3200 1).scale)⌋ = 2400 := by
  have hE : binary64 (((BASE_TARGET_PIXELS : ℕ) : ℝ) *
      (if min (if (1 : ℝ) = 0 then 1 else 1) (2 : ℝ) > 1.25 then binary64 0.82 else 1)) =
      180000 := by
    have h1 : (if min (if (1 : ℝ) = 0 then 1 else 1) (2 : ℝ) > 1.25 then binary64 (0.82 : ℝ)
        else 1) = 1 := by
      rw [if_neg (by norm_num)]
    rw [h1]
    exact binary64_budget_base
  have hP : binary64 ((100 : ℝ) * 3200) = 320000 :=
    binary64_eval _ _ (18) (5497558138880000) (by norm_num) (by norm_num) (by norm_num)
      (by rw [abs_lt]; norm_num) (by norm_num)
  have hQ : binary64 ((180000 : ℝ) / 320000) = 9 / 2 ^ 4 :=
    binary64_eval _ _ (-1) (5066549580791808) (by norm_num) (by norm_num) (by norm_num)
      (by rw [abs_lt]; norm_num) (by norm_num)
  have hr : binary64 (Real.sqrt (9 / 2 ^ 4)) = 3 / 2 ^ 2 :=
    binary64_sqrt_eval _ _ (-1) (6755399441055744) (by norm_num) (by norm_num) (by norm_num)
      (by norm_num) (by norm_num) (by norm_num) (by norm_num)
  have hA : binary64 ((100 : ℝ) * (3 / 2 ^ 2)) = 75 :=
    binary64_eval _ _ (6) (5277655813324800) (by norm_num) (by norm_num) (by norm_num)
      (by rw [abs_lt]; norm_num) (by norm_num)
  have hB : binary64 ((3200 : ℝ) * (3 / 2 ^ 2)) = 2400 :=
    binary64_eval _ _ (11) (5277655813324800) (by norm_num) (by norm_num) (by norm_num)
      (by rw [abs_lt]; norm_num) (by norm_num)
  have hn : ⌊binary64 ((100 : ℝ) * (3 / 2 ^ 2))⌋ = 75 := by
    rw [hA, Int.floor_eq_iff]; constructor <;> norm_num
  have hm : ⌊binary64 ((3200 : ℝ) * (3 / 2 ^ 2))⌋ = 2400 := by
    rw [hB, Int.floor_eq_iff]; constructor <;> norm_num
  obtain ⟨hw, hh, he, hs, hvw, hvh⟩ := resizeFl_eval
    (Host.mk Real.pi Real.cos Real.sin (fun q => binary64 (Real.sqrt q))) (100 : ℝ) 3200 1
    100 3200 180000 320000 (9 / 2 ^ 4) (3 / 2 ^ 2)
    (3 / 2 ^ 2) 75 2400 (max_eq_left (by norm_num)) (max_eq_left (by norm_num))
    hE hP hQ hr (min_eq_right (by norm_num)) hn hm
  refine ⟨hw, hh, he, ?_, ?_⟩
  · rw [hs, hvw]; exact hn
  · rw [hs, hvh]; exact hm

/-- On doubles, with the correctly rounded square root, a 1200 x 600 surface at ratio 1
gets `scale = 0.5` and the floors 600 and 300, every intermediate value being exact. -/
theorem resizeFl_double_half :
    (resizeFl binary64 (Host.mk Real.pi Real.cos Real.sin (fun q => binary64 (Real.sqrt q)))
      (1200 : ℝ) 600 1).width = max MIN_WIDTH 600 ∧
    (resizeFl binary64 (Host.mk Real.pi Real.cos Real.sin (fun q => binary64 (Real.sqrt q)))
      (1200 : ℝ) 600 1).height = max MIN_HEIGHT 300 ∧
    (resizeFl binary64 (Host.mk Real.pi Real.cos Real.sin (fun q => binary64 (Real.sqrt q)))
      (1200 : ℝ) 600 1).effectiveTargetPixels = 180000 ∧
    ⌊binary64 ((resizeFl binary64 (Host.mk Real.pi Real.cos Real.sin (fun q => binary64 (Real.sqrt q)))
        (1200 : ℝ) 600 1).viewportW *
      (resizeFl binary64 (Host.mk Real.pi Real.cos Real.sin (fun q => binary64 (Real.sqrt q)))
        (1200 : ℝ) 600 1).scale)⌋ = 600 ∧
    ⌊binary64 ((resizeFl binary64 (Host.mk Real.pi Real.cos Real.sin (fun q => binary64 (Real.sqrt q)))
        (1200 : ℝ) 600 1).viewportH *
      (resizeFl binary64 (Host.mk Real.pi Real.cos Real.sin (fun q => binary64 (Real.sqrt q)))
        (1200 : ℝ) 600 1).scale)⌋ = 300 := by
  have hE : binary64 (((BASE_TARGET_PIXELS : ℕ) : ℝ) *
      (if min (if (1 : ℝ) = 0 then 1 else 1) (2 : ℝ) > 1.25 then binary64 0.82 else 1)) =
      180000 := by
    have h1 : (if min (if (1 : ℝ) = 0 then 1 else 1) (2 : ℝ) > 1.25 then binary64 (0.82 : ℝ)
        else 1) = 1 := by
      rw [if_neg (by norm_num)]
    rw [h1]
    exact binary64_budget_base
  have hP : binary64 ((1200 : ℝ) * 600) = 720000 :=
    binary64_eval _ _ (19) (6184752906240000) (by norm_num) (by norm_num) (by norm_num)
      (by rw [abs_lt]; norm_num) (by norm_num)
  have hQ : binary64 ((180000 : ℝ) / 720000) = 1 / 2 ^ 2 :=
    binary64_eval _ _ (-2) (4503599627370496) (by norm_num) (by norm_num) (by norm_num)
      (by rw [abs_lt]; norm_num) (by norm_num)
  have hr : binary64 (Real.sqrt (1 / 2 ^ 2)) = 1 / 2 ^ 1 :=
    binary64_sqrt_eval _ _ (-1) (4503599627370496) (by norm_num) (by norm_num) (by norm_num)
      (by norm_num) (by norm_num) (by norm_num) (by norm_num)
  have hA : binary64 ((1200 : ℝ) * (1 / 2 ^ 1)) = 600 :=
    binary64_eval _ _ (9) (5277655813324800) (by norm_num) (by norm_num) (by norm_num)
      (by rw [abs_lt]; norm_num) (by norm_num)
  have hB : binary64 ((600 : ℝ) * (1 / 2 ^ 1)) = 300 :=
    binary64_eval _ _ (8) (5277655813324800) (by norm_num) (by norm_num) (by norm_num)
      (by rw [abs_lt]; norm_num) (by norm_num)
  have hn : ⌊binary64 ((1200 : ℝ) * (1 / 2 ^ 1))⌋ = 600 := by
    rw [hA, Int.floor_eq_iff]; constructor <;> norm_num
  have hm : ⌊binary64 ((600 : ℝ) * (1 / 2 ^ 1))⌋ = 300 := by
    rw [hB, Int.floor_eq_iff]; constructor <;> norm_num
  obtain ⟨hw, hh, he, hs, hvw, hvh⟩ := resizeFl_eval
    (Host.mk Real.pi Real.cos Real.sin (fun q => binary64 (Real.sqrt q))) (1200 : ℝ) 600 1
    1200 600 180000 720000 (1 / 2 ^ 2) (1 / 2 ^ 1)
    (1 / 2 ^ 1) 600 300 (max_eq_left (by norm_num)) (max_eq_left (by norm_num))
    hE hP hQ hr (min_eq_right (by norm_num)) hn hm
  refine ⟨hw, hh, he, ?_, ?_⟩
  · rw [hs, hvw]; exact hn
  · rw [hs, hvh]; exact hm


section ViewportClaims

variable {K : Type} [LinearOrderedField K] [FloorRing K]

/-- C9 fails as stated: for a 100 x 3200 display surface at ratio 1 (exact square root
`sqrt(180000/320000) = 0.75`) `resize` clamps the width up from 75 to 140 and takes the
height 2400, a raster of 336000 pixels, above the budget of 180000. On doubles, with
the correctly rounded square root, every value of this computation is exact and the
result is the same. -/
theorem C9_counterexample :
    (resize (Host.mk Real.pi Real.cos Real.sin Real.sqrt) (100 : ℝ) 3200 1).width = 140 ∧
    (resize (Host.mk Real.pi Real.cos Real.sin Real.sqrt) (100 : ℝ) 3200 1).height = 2400 ∧
    (resize (Host.mk Real.pi Real.cos Real.sin Real.sqrt) (100 : ℝ) 3200 1).effectiveTargetPixels
      = 180000 ∧
    ¬ (((resize (Host.mk Real.pi Real.cos Real.sin Real.sqrt) (100 : ℝ) 3200 1).width *
        (resize (Host.mk Real.pi Real.cos Real.sin Real.sqrt) (100 : ℝ) 3200 1).height : ℤ) : ℝ)
      ≤ (resize (Host.mk Real.pi Real.cos Real.sin Real.sqrt) (100 : ℝ) 3200 1).effectiveTargetPixels ∧
    (resizeFl binary64 (Host.mk Real.pi Real.cos Real.sin (fun q => binary64 (Real.sqrt q)))
      (100 : ℝ) 3200 1).width = 140 ∧
    (resizeFl binary64 (Host.mk Real.pi Real.cos Real.sin (fun q => binary64 (Real.sqrt q)))
      (100 : ℝ) 3200 1).height = 2400 ∧
    (resizeFl binary64 (Host.mk Real.pi Real.cos Real.sin (fun q => binary64 (Real.sqrt q)))
      (100 : ℝ) 3200 1).effectiveTargetPixels = 180000 ∧
    ¬ (((resizeFl binary64 (Host.mk Real.pi Real.cos Real.sin (fun q => binary64 (Real.sqrt q)))
      (100 : ℝ) 3200 1).width *
        (resizeFl binary64 (Host.mk Real.pi Real.cos Real.sin (fun q => binary64 (Real.sqrt q)))
      (100 : ℝ) 3200 1).height : ℤ) : ℝ)
      ≤ (resizeFl binary64 (Host.mk Real.pi Real.cos Real.sin (fun q => binary64 (Real.sqrt q)))
      (100 : ℝ) 3200 1).effectiveTargetPixels
    := by
  have hs : Real.sqrt ((9 : ℝ) / 16) = 3 / 4 := by
    rw [show (9 : ℝ) / 16 = (3 / 4) ^ 2 by norm_num]
    exact Real.sqrt_sq (by norm_num)
  have hw : (resize (Host.mk Real.pi Real.cos Real.sin Real.sqrt) (100 : ℝ) 3200 1).width
      = 140 := by
    simp only [resize, BASE_TARGET_PIXELS, MIN_WIDTH]
    norm_num [hs]
  have hh : (resize (Host.mk Real.pi Real.cos Real.sin Real.sqrt) (100 : ℝ) 3200 1).height
      = 2400 := by
    simp only [resize, BASE_TARGET_PIXELS, MIN_HEIGHT]
    norm_num [hs]
  have he : (resize (Host.mk Real.pi Real.cos Real.sin Real.sqrt) (100 : ℝ) 3200
      1).effectiveTargetPixels = 180000 := by
    simp only [resize, BASE_TARGET_PIXELS]
    norm_num
  obtain ⟨dw, dh, de, _, _⟩ := resizeFl_double_clamped
  have dw' : (resizeFl binary64 (Host.mk Real.pi Real.cos Real.sin (fun q => binary64 (Real.sqrt q)))
      (100 : ℝ) 3200 1).width = 140 := by rw [dw]; decide
  have dh' : (resizeFl binary64 (Host.mk Real.pi Real.cos Real.sin (fun q => binary64 (Real.sqrt q)))
      (100 : ℝ) 3200 1).height = 2400 := by rw [dh]; decide
  refine ⟨hw, hh, he, ?_, dw', dh', de, ?_⟩
  · rw [hw, hh, he]
    norm_num
  · rw [dw', dh', de]
    norm_num

/-- C9 (amended): on doubles, `Math.sqrt` being within the relative error `2^-53` of the
square root (as the correctly rounded square root is): for every display-surface size of
at most `2^31` by `2^31` (`innerWidth` and `innerHeight` are 32-bit integers) and every
device-pixel-ratio, when neither minimum clamp is active (`floor(W*scale) ≥ 140` and
`floor(H*scale) ≥ 100`), after `resize()` the raster satisfies
`width * height ≤ effectiveTargetPixels`, where the budget is `180000`, or
`180000 * 0.82 = 147600` when the clamped ratio exceeds 1.25. -/
theorem C9_budget_when_unclamped (host : Host K) (hsqrt : host.SqrtRounded)
    (innerWidth innerHeight devicePixelRatio : K)
    (hiw : innerWidth ≤ 2 ^ 31) (hih : innerHeight ≤ 2 ^ 31)
    (hw : MIN_WIDTH ≤
      ⌊binary64 ((resizeFl binary64 host innerWidth innerHeight devicePixelRatio).viewportW *
        (resizeFl binary64 host innerWidth innerHeight devicePixelRatio).scale)⌋)
    (hh : MIN_HEIGHT ≤
      ⌊binary64 ((resizeFl binary64 host innerWidth innerHeight devicePixelRatio).viewportH *
        (resizeFl binary64 host innerWidth innerHeight devicePixelRatio).scale)⌋) :
    (((resizeFl binary64 host innerWidth innerHeight devicePixelRatio).width *
        (resizeFl binary64 host innerWidth innerHeight devicePixelRatio).height : ℤ) : K) ≤
      (resizeFl binary64 host innerWidth innerHeight devicePixelRatio).effectiveTargetPixels ∧
    ((resizeFl binary64 host innerWidth innerHeight devicePixelRatio).effectiveTargetPixels =
        180000 ∨
      (resizeFl binary64 host innerWidth innerHeight devicePixelRatio).effectiveTargetPixels =
        147600) ∧
    ((resizeFl binary64 host innerWidth innerHeight devicePixelRatio).effectiveTargetPixels =
        147600 ↔
      min (if devicePixelRatio = 0 then 1 else devicePixelRatio) (2 : K) > 1.25) := by
  refine ⟨(resizeFl_budget host hsqrt innerWidth innerHeight devicePixelRatio hiw hih).2.2
    hw hh, ?_, ?_⟩
  · simp only [resizeFl]
    rcases effectiveTargetPixelsFl_cases
      (min (if devicePixelRatio = 0 then 1 else devicePixelRatio) (2 : K)) with h | h
    · left; rw [h]; norm_num
    · right; rw [h]; norm_num
  · simp only [resizeFl]
    generalize min (if devicePixelRatio = 0 then 1 else devicePixelRatio) (2 : K) = d
    by_cases h : d > 1.25
    · rw [if_pos h, binary64_budget_discounted]
      exact ⟨fun _ => h, fun _ => rfl⟩
    · rw [if_neg h, binary64_budget_base]
      exact ⟨fun h2 => absurd h2 (by norm_num), fun h2 => absurd h2 h⟩

/-- Witness for C9 (amended): a 1200 x 600 surface at ratio 1 with the correctly rounded
square root: `scale = 1/2`, raster 600 x 300, exactly the budget of 180000 pixels. -/
theorem C9_budget_when_unclamped_witness :
    (((resizeFl binary64 (Host.mk Real.pi Real.cos Real.sin (fun q => binary64 (Real.sqrt q)))
      (1200 : ℝ) 600 1).width *
        (resizeFl binary64 (Host.mk Real.pi Real.cos Real.sin (fun q => binary64 (Real.sqrt q)))
      (1200 : ℝ) 600 1).height : ℤ) : ℝ)
      ≤ (resizeFl binary64 (Host.mk Real.pi Real.cos Real.sin (fun q => binary64 (Real.sqrt q)))
      (1200 : ℝ) 600 1).effectiveTargetPixels :=
  (C9_budget_when_unclamped (Host.mk Real.pi Real.cos Real.sin (fun q => binary64 (Real.sqrt q)))
    sqrtRounded_real (1200 : ℝ) 600 1 (by norm_num) (by norm_num)
    (by rw [resizeFl_double_half.2.2.2.1]; decide)
    (by rw [resizeFl_double_half.2.2.2.2]; decide)).1

/-- C17: on doubles, `Math.sqrt` being within the relative error `2^-53` of the square
root, for every display-surface size of at most `2^31` by `2^31` (`innerWidth` and
`innerHeight` are 32-bit integers) and every device-pixel-ratio: the surface dimensions
are clamped to at least 1, the ratio defaults to 1 when falsy and is clamped to at most
2, the budget is `180000` or `180000 * 0.82 = 147600`;
`scale = min(1, sqrt(effectiveTargetPixels/(W*H)))` lies in `(0, 1]`;
`width = max(140, floor(W*scale)) ≥ 140` and `height = max(100, floor(H*scale)) ≥ 100`;
and whenever neither minimum clamp is active the raster respects the budget,
`width * height ≤ effectiveTargetPixels ≤ 180000`. -/
theorem C17_resize_dimensions (host : Host K) (hsqrt : host.SqrtRounded)
    (innerWidth innerHeight devicePixelRatio : K)
    (hiw : innerWidth ≤ 2 ^ 31) (hih : innerHeight ≤ 2 ^ 31) :
    (resizeFl binary64 host innerWidth innerHeight devicePixelRatio).viewportW =
      max innerWidth 1 ∧
    (resizeFl binary64 host innerWidth innerHeight devicePixelRatio).viewportH =
      max innerHeight 1 ∧
    1 ≤ (resizeFl binary64 host innerWidth innerHeight devicePixelRatio).viewportW ∧
    1 ≤ (resizeFl binary64 host innerWidth innerHeight devicePixelRatio).viewportH ∧
    (resizeFl binary64 host innerWidth innerHeight devicePixelRatio).effectiveTargetPixels =
      binary64 (180000 *
        (if min (if devicePixelRatio = 0 then 1 else devicePixelRatio) (2 : K) > 1.25
          then binary64 0.82 else 1)) ∧
    ((resizeFl binary64 host innerWidth innerHeight devicePixelRatio).effectiveTargetPixels =
        180000 ∨
      (resizeFl binary64 host innerWidth innerHeight devicePixelRatio).effectiveTargetPixels =
        147600) ∧
    (resizeFl binary64 host innerWidth innerHeight devicePixelRatio).scale =
      min 1 (host.sqrt (binary64
        ((resizeFl binary64 host innerWidth innerHeight devicePixelRatio).effectiveTargetPixels /
          binary64 ((resizeFl binary64 host innerWidth innerHeight devicePixelRatio).viewportW *
            (resizeFl binary64 host innerWidth innerHeight devicePixelRatio).viewportH)))) ∧
    0 < (resizeFl binary64 host innerWidth innerHeight devicePixelRatio).scale ∧
    (resizeFl binary64 host innerWidth innerHeight devicePixelRatio).scale ≤ 1 ∧
    (resizeFl binary64 host innerWidth innerHeight devicePixelRatio).width =
      max 140 ⌊binary64
        ((resizeFl binary64 host innerWidth innerHeight devicePixelRatio).viewportW *
          (resizeFl binary64 host innerWidth innerHeight devicePixelRatio).scale)⌋ ∧
    MIN_WIDTH ≤ (resizeFl binary64 host innerWidth innerHeight devicePixelRatio).width ∧
    (resizeFl binary64 host innerWidth innerHeight devicePixelRatio).height =
      max 100 ⌊binary64
        ((resizeFl binary64 host innerWidth innerHeight devicePixelRatio).viewportH *
          (resizeFl binary64 host innerWidth innerHeight devicePixelRatio).scale)⌋ ∧
    MIN_HEIGHT ≤ (resizeFl binary64 host innerWidth innerHeight devicePixelRatio).height ∧
    (resizeFl binary64 host innerWidth innerHeight devicePixelRatio).effectiveTargetPixels ≤
      180000 ∧
    (140 ≤ ⌊binary64
        ((resizeFl binary64 host innerWidth innerHeight devicePixelRatio).viewportW *
          (resizeFl binary64 host innerWidth innerHeight devicePixelRatio).scale)⌋ →
      100 ≤ ⌊binary64
        ((resizeFl binary64 host innerWidth innerHeight devicePixelRatio).viewportH *
          (resizeFl binary64 host innerWidth innerHeight devicePixelRatio).scale)⌋ →
      (((resizeFl binary64 host innerWidth innerHeight devicePixelRatio).width *
          (resizeFl binary64 host innerWidth innerHeight devicePixelRatio).height : ℤ) : K) ≤
        (resizeFl binary64 host innerWidth innerHeight devicePixelRatio).effectiveTargetPixels)
    := by
  obtain ⟨hs0, hs1, hbudget⟩ :=
    resizeFl_budget host hsqrt innerWidth innerHeight devicePixelRatio hiw hih
  have hE : ((BASE_TARGET_PIXELS : ℕ) : K) = 180000 := by unfold BASE_TARGET_PIXELS; norm_num
  have hcases : (resizeFl binary64 host innerWidth innerHeight
        devicePixelRatio).effectiveTargetPixels = 180000 ∨
      (resizeFl binary64 host innerWidth innerHeight
        devicePixelRatio).effectiveTargetPixels = 147600 := by
    simp only [resizeFl]
    rcases effectiveTargetPixelsFl_cases
      (min (if devicePixelRatio = 0 then 1 else devicePixelRatio) (2 : K)) with h | h
    · left; rw [h]; norm_num
    · right; rw [h]; norm_num
  refine ⟨rfl, rfl, le_max_right _ _, le_max_right _ _, ?_, hcases, rfl, hs0, hs1, rfl, ?_,
    rfl, ?_, ?_, hbudget⟩
  · simp only [resizeFl]; rw [hE]
  · simp only [resizeFl]; exact le_max_left _ _
  · simp only [resizeFl]; exact le_max_left _ _
  · rcases hcases with h | h
    · rw [h]
    · rw [h]; norm_num

/-- Witness for C17: a 3510 x 780 surface at ratio 1 with the correctly rounded square
root gets the raster 899 x 199, within the budget of 180000 pixels. -/
theorem C17_resize_dimensions_witness :
    (resizeFl binary64 (Host.mk Real.pi Real.cos Real.sin (fun q => binary64 (Real.sqrt q)))
      (3510 : ℝ) 780 1).width = 899 ∧
    (resizeFl binary64 (Host.mk Real.pi Real.cos Real.sin (fun q => binary64 (Real.sqrt q)))
      (3510 : ℝ) 780 1).height = 199 ∧
    (((resizeFl binary64 (Host.mk Real.pi Real.cos Real.sin (fun q => binary64 (Real.sqrt q)))
      (3510 : ℝ) 780 1).width *
        (resizeFl binary64 (Host.mk Real.pi Real.cos Real.sin (fun q => binary64 (Real.sqrt q)))
      (3510 : ℝ) 780 1).height : ℤ) : ℝ)
      ≤ (resizeFl binary64 (Host.mk Real.pi Real.cos Real.sin (fun q => binary64 (Real.sqrt q)))
      (3510 : ℝ) 780 1).effectiveTargetPixels :=
  ⟨by rw [resizeFl_double_example.1]; decide, by rw [resizeFl_double_example.2.1]; decide,
    (C17_resize_dimensions (Host.mk Real.pi Real.cos Real.sin (fun q => binary64 (Real.sqrt q)))
      sqrtRounded_real (3510 : ℝ) 780 1 (by norm_num) (by norm_num)).2.2.2.2.2.2.2.2.2.2.2.2.2.2
      (by rw [resizeFl_double_example.2.2.2.1]; decide)
      (by rw [resizeFl_double_example.2.2.2.2]; decide)⟩

end ViewportClaims

/-! ### Order properties of the rounding to binary64 -/

section RoundingOrder

variable {K : Type} [LinearOrderedField K] [FloorRing K]

theorem roundHalfEven_bounds (y : K) :
    ⌊y⌋ ≤ roundHalfEven y ∧ roundHalfEven y ≤ ⌊y⌋ + 1 := by
  unfold roundHalfEven
  split_ifs <;> constructor <;> omega

theorem roundHalfEven_mono {a b : K} (h : a ≤ b) : roundHalfEven a ≤ roundHalfEven b := by
  have hf : ⌊a⌋ ≤ ⌊b⌋ := Int.floor_le_floor h
  rcases lt_or_eq_of_le hf with hlt | heq
  · have h1 := (roundHalfEven_bounds a).2
    have h2 := (roundHalfEven_bounds b).1
    omega
  · unfold roundHalfEven
    rw [heq]
    split_ifs <;> first | omega | (exfalso; linarith)

/-- The rounded value is a nearest integer, and the even one in a tie. -/
theorem roundHalfEven_spec (y : K) :
    |y - roundHalfEven y| < 1 / 2 ∨
      (|y - roundHalfEven y| = 1 / 2 ∧ roundHalfEven y % 2 = 0) := by
  have h1 := Int.floor_le y
  have h2 := Int.lt_floor_add_one y
  unfold roundHalfEven
  split_ifs with a b c
  · left; rw [abs_lt]; constructor <;> linarith
  · left; rw [abs_lt]; push_cast; constructor <;> linarith
  · right
    have e : y - ⌊y⌋ = 1 / 2 := le_antisymm (not_lt.mp b) (not_lt.mp a)
    exact ⟨by rw [e]; exact abs_of_pos (by norm_num), c⟩
  · right
    have e : y - ⌊y⌋ = 1 / 2 := le_antisymm (not_lt.mp b) (not_lt.mp a)
    refine ⟨?_, by omega⟩
    have : y - ((⌊y⌋ + 1 : ℤ) : K) = -(1 / 2) := by push_cast; linarith
    rw [this, abs_neg]
    exact abs_of_pos (by norm_num)

/-- The nearest integer, even in a tie, is unique. -/
theorem roundHalfEven_unique (y : K) (n : ℤ)
    (h : |y - n| < 1 / 2 ∨ (|y - n| = 1 / 2 ∧ n % 2 = 0)) : roundHalfEven y = n := by
  have hs := roundHalfEven_spec y
  generalize roundHalfEven y = m at hs
  have key : ∀ a b : K, |y - m| ≤ a → |y - n| ≤ b → (m : K) - n ≤ a + b ∧ (n : K) - m ≤ a + b := by
    intro a b ha hb
    obtain ⟨h1, h2⟩ := abs_le.mp ha
    obtain ⟨h3, h4⟩ := abs_le.mp hb
    constructor <;> linarith
  have strict : ∀ a b : K, |y - m| < a → |y - n| ≤ b → (m : K) - n < a + b ∧ (n : K) - m < a + b := by
    intro a b ha hb
    obtain ⟨h1, h2⟩ := abs_lt.mp ha
    obtain ⟨h3, h4⟩ := abs_le.mp hb
    constructor <;> linarith
  have strict2 : ∀ a b : K, |y - m| ≤ a → |y - n| < b → (m : K) - n < a + b ∧ (n : K) - m < a + b := by
    intro a b ha hb
    obtain ⟨h1, h2⟩ := abs_le.mp ha
    obtain ⟨h3, h4⟩ := abs_lt.mp hb
    constructor <;> linarith
  have close : (m : K) - n < 1 → (n : K) - m < 1 → m = n := by
    intro h1 h2
    have h1' : m - n < 1 := by exact_mod_cast h1
    have h2' : n - m < 1 := by exact_mod_cast h2
    omega
  rcases hs with hm | ⟨hm, hme⟩
  · have hb : |y - n| ≤ 1 / 2 := by
      rcases h with h | ⟨h, _⟩
      · exact h.le
      · exact h.le
    obtain ⟨a, b⟩ := strict (1 / 2) (1 / 2) hm hb
    exact close (by linarith) (by linarith)
  · rcases h with h | ⟨h, hne⟩
    · obtain ⟨a, b⟩ := strict2 (1 / 2) (1 / 2) hm.le h
      exact close (by linarith) (by linarith)
    · obtain ⟨a, b⟩ := key (1 / 2) (1 / 2) hm.le h.le
      have a' : m - n ≤ 1 := by
        have : (m : K) - n ≤ 1 := by linarith
        exact_mod_cast this
      have b' : n - m ≤ 1 := by
        have : (n : K) - m ≤ 1 := by linarith
        exact_mod_cast this
      omega

/-- Evaluation of `binary64` at a positive number half-way between two neighbouring
doubles: the result is the one whose significand `n` is even. -/
theorem binary64_eval_tie (x v : K) (e n : ℤ) (he : -1022 ≤ e) (h1 : (2 : K) ^ e ≤ x)
    (h2 : x < (2 : K) ^ (e + 1)) (hn : |x / 2 ^ (e - 52) - n| = 1 / 2) (heven : n % 2 = 0)
    (hv : v = n * 2 ^ (e - 52)) : binary64 x = v := by
  have hpos : 0 < x := lt_of_lt_of_le (zpow_pos (by norm_num) e) h1
  rw [hv]
  unfold binary64
  rw [ulpExponent_of_normal x e he (by rwa [abs_of_pos hpos]) (by rwa [abs_of_pos hpos]),
    roundHalfEven_unique _ n (Or.inr ⟨hn, heven⟩)]

theorem roundHalfEven_neg (y : K) : roundHalfEven (-y) = -roundHalfEven y := by
  apply roundHalfEven_unique
  have e : -y - ((-roundHalfEven y : ℤ) : K) = -(y - roundHalfEven y) := by push_cast; ring
  rw [e, abs_neg]
  rcases roundHalfEven_spec y with h | ⟨h, he⟩
  · exact Or.inl h
  · exact Or.inr ⟨h, by omega⟩

theorem ulpExponent_neg (x : K) : ulpExponent (-x) = ulpExponent x := by
  unfold ulpExponent
  rw [abs_neg]

/-- Rounding to binary64 commutes with negation. -/
theorem binary64_neg (x : K) : binary64 (-x) = -binary64 x := by
  unfold binary64
  rw [ulpExponent_neg, neg_div, roundHalfEven_neg]
  push_cast
  ring

theorem ulpExponent_ge (x : K) : -1074 ≤ ulpExponent x := by
  unfold ulpExponent
  have := le_max_right (Int.log 2 |x|) (-1022)
  omega

theorem binary64_nonneg (x : K) (hx : 0 ≤ x) : 0 ≤ binary64 x := by
  unfold binary64
  have hg : (0 : K) < 2 ^ ulpExponent x := zpow_pos (by norm_num) _
  have h0 : (0 : ℤ) ≤ roundHalfEven (x / 2 ^ ulpExponent x) := by
    have := roundHalfEven_mono (div_nonneg hx hg.le)
    rwa [show roundHalfEven (0 : K) = 0 from by simpa using roundHalfEven_intCast (K := K) 0]
      at this
  exact mul_nonneg (by exact_mod_cast h0) hg.le

/-- A positive number lies below `2 ^ (k + 53)`, for `k` its exponent of the unit in the
last place. -/
theorem lt_zpow_ulpExponent (x : K) (hx : 0 < x) : x < (2 : K) ^ (ulpExponent x + 53) := by
  have h1 : x < (2 : K) ^ (Int.log 2 x + 1) := by
    have := Int.lt_zpow_succ_log_self (b := 2) (by norm_num) x
    exact_mod_cast this
  have h2 : Int.log 2 x + 1 ≤ ulpExponent x + 53 := by
    unfold ulpExponent
    rw [abs_of_pos hx]
    have := le_max_left (Int.log 2 x) (-1022)
    omega
  exact lt_of_lt_of_le h1 (zpow_le_zpow_right₀ (by norm_num) h2)

theorem binary64_le_zpow (x : K) (hx : 0 < x) :
    binary64 x ≤ (2 : K) ^ (ulpExponent x + 53) := by
  have hg : (0 : K) < 2 ^ ulpExponent x := zpow_pos (by norm_num) _
  have h1 : x / 2 ^ ulpExponent x ≤ ((2 ^ 53 : ℤ) : K) := by
    rw [div_le_iff₀ hg]
    push_cast
    have := lt_zpow_ulpExponent x hx
    rw [zpow_add₀ (by norm_num : (2 : K) ≠ 0)] at this
    have e : (2 : K) ^ (53 : ℤ) = 2 ^ 53 := by norm_num
    rw [e] at this
    linarith
  have h2 : roundHalfEven (x / 2 ^ ulpExponent x) ≤ 2 ^ 53 := by
    have := roundHalfEven_mono h1
    rwa [roundHalfEven_intCast] at this
  unfold binary64
  have h3 : ((roundHalfEven (x / 2 ^ ulpExponent x) : ℤ) : K) ≤ 2 ^ 53 := by exact_mod_cast h2
  calc (roundHalfEven (x / 2 ^ ulpExponent x) : K) * 2 ^ ulpExponent x
      ≤ 2 ^ 53 * 2 ^ ulpExponent x := mul_le_mul_of_nonneg_right h3 hg.le
    _ = (2 : K) ^ (ulpExponent x + 53) := by
        rw [zpow_add₀ (by norm_num : (2 : K) ≠ 0)]
        norm_num
        ring

theorem zpow_le_binary64 (x : K) (hx : (2 : K) ^ (-1022 : ℤ) ≤ x) :
    (2 : K) ^ (ulpExponent x + 52) ≤ binary64 x := by
  have hpos : 0 < x := lt_of_lt_of_le (zpow_pos (by norm_num) _) hx
  have hlog : -1022 ≤ Int.log 2 x :=
    (Int.zpow_le_iff_le_log (by norm_num) hpos).mp (by exact_mod_cast hx)
  have hk : ulpExponent x = Int.log 2 x - 52 := by
    unfold ulpExponent
    rw [abs_of_pos hpos, max_eq_left hlog]
  have hle : (2 : K) ^ Int.log 2 x ≤ x := by
    have := Int.zpow_log_le_self (b := 2) (r := x) (by norm_num) hpos
    exact_mod_cast this
  have hg : (0 : K) < 2 ^ ulpExponent x := zpow_pos (by norm_num) _
  have h1 : ((2 ^ 52 : ℤ) : K) ≤ x / 2 ^ ulpExponent x := by
    rw [le_div_iff₀ hg]
    have e52 : (2 : K) ^ (52 : ℤ) = ((2 ^ 52 : ℤ) : K) := by norm_num
    have hne : ((2 ^ 52 : ℤ) : K) ≠ 0 := by norm_num
    have e : ((2 ^ 52 : ℤ) : K) * 2 ^ ulpExponent x = 2 ^ Int.log 2 x := by
      rw [hk, zpow_sub₀ (by norm_num : (2 : K) ≠ 0), e52]
      field_simp
    rw [e]
    exact hle
  have h2 : 2 ^ 52 ≤ roundHalfEven (x / 2 ^ ulpExponent x) := by
    have := roundHalfEven_mono h1
    rwa [roundHalfEven_intCast] at this
  unfold binary64
  have h3 : (2 : K) ^ 52 ≤ ((roundHalfEven (x / 2 ^ ulpExponent x) : ℤ) : K) := by
    exact_mod_cast h2
  calc (2 : K) ^ (ulpExponent x + 52) = 2 ^ 52 * 2 ^ ulpExponent x := by
        rw [zpow_add₀ (by norm_num : (2 : K) ≠ 0)]
        norm_num
        ring
    _ ≤ (roundHalfEven (x / 2 ^ ulpExponent x) : K) * 2 ^ ulpExponent x :=
        mul_le_mul_of_nonneg_right h3 hg.le

theorem binary64_mono_pos (x y : K) (hx : 0 < x) (h : x ≤ y) : binary64 x ≤ binary64 y := by
  have hy : 0 < y := lt_of_lt_of_le hx h
  have hk : ulpExponent x ≤ ulpExponent y := by
    unfold ulpExponent
    rw [abs_of_pos hx, abs_of_pos hy]
    have := Int.log_mono_right (b := 2) hx h
    have := max_le_max this (le_refl (-1022 : ℤ))
    omega
  rcases lt_or_eq_of_le hk with hlt | heq
  · have hlogy : -1022 < Int.log 2 y := by
      have h1 := ulpExponent_ge x
      unfold ulpExponent at hlt h1
      rw [abs_of_pos hy] at hlt
      rw [abs_of_pos hx] at hlt h1
      by_contra hc
      rw [max_eq_right (not_lt.mp hc)] at hlt
      have := le_max_right (Int.log 2 x) (-1022)
      omega
    have hy2 : (2 : K) ^ (-1022 : ℤ) ≤ y := by
      have h1 : (2 : K) ^ Int.log 2 y ≤ y := by
        have := Int.zpow_log_le_self (b := 2) (r := y) (by norm_num) hy
        exact_mod_cast this
      exact le_trans (zpow_le_zpow_right₀ (by norm_num) hlogy.le) h1
    calc binary64 x ≤ (2 : K) ^ (ulpExponent x + 53) := binary64_le_zpow x hx
      _ ≤ (2 : K) ^ (ulpExponent y + 52) := zpow_le_zpow_right₀ (by norm_num) (by omega)
      _ ≤ binary64 y := zpow_le_binary64 y hy2
  · unfold binary64
    rw [heq]
    have hg : (0 : K) < 2 ^ ulpExponent y := zpow_pos (by norm_num) _
    have h1 : x / 2 ^ ulpExponent y ≤ y / 2 ^ ulpExponent y :=
      div_le_div_of_nonneg_right h hg.le
    have h2 := roundHalfEven_mono h1
    exact mul_le_mul_of_nonneg_right (by exact_mod_cast h2) hg.le

/-- Rounding to binary64 is monotone. -/
theorem binary64_mono (x y : K) (h : x ≤ y) : binary64 x ≤ binary64 y := by
  rcases lt_trichotomy x 0 with hx | hx | hx
  · rcases lt_or_le y 0 with hy | hy
    · have := binary64_mono_pos (-y) (-x) (by linarith) (by linarith)
      rw [binary64_neg, binary64_neg] at this
      linarith
    · have h1 := binary64_nonneg (-x) (by linarith)
      rw [binary64_neg] at h1
      have h2 := binary64_nonneg y hy
      linarith
  · rw [hx, binary64_zero]
    exact binary64_nonneg y (by linarith)
  · exact binary64_mono_pos x y hx h

end RoundingOrder

/-! ### The seed on doubles -/

section RoundedSeed

variable {K : Type} [LinearOrderedField K] [FloorRing K]

/-- A double below `1` is at most `1 - 2 ^ (-53)`. -/
theorem double_lt_one (u : K) (h1 : u < 1) (hd : binary64 u = u) : u ≤ 1 - 1 / 2 ^ 53 := by
  by_contra hc
  have hlo : 1 - 1 / 2 ^ 53 < u := lt_of_not_ge hc
  have hpos : 0 < u := lt_trans (by norm_num) hlo
  have hk : ulpExponent u = -1 - 52 :=
    ulpExponent_of_normal u (-1) (by norm_num)
      (by rw [abs_of_pos hpos]; exact le_trans (by norm_num) hlo.le)
      (by rw [abs_of_pos hpos]; simpa using h1)
  unfold binary64 at hd
  rw [hk] at hd
  generalize roundHalfEven (u / 2 ^ (-1 - 52 : ℤ)) = n at hd
  have e53 : (2 : K) ^ (-1 - 52 : ℤ) = 1 / 2 ^ 53 := by norm_num [zpow_neg]
  rw [e53] at hd
  have a : ((2 ^ 53 - 1 : ℤ) : K) < (n : K) := by
    push_cast
    rw [← hd] at hlo
    have := mul_lt_mul_of_pos_right hlo (by norm_num : (0 : K) < 2 ^ 53)
    have e : (n : K) * (1 / 2 ^ 53) * 2 ^ 53 = n := by field_simp
    rw [e] at this
    linarith
  have b : (n : K) < ((2 ^ 53 : ℤ) : K) := by
    push_cast
    rw [← hd] at h1
    have := mul_lt_mul_of_pos_right h1 (by norm_num : (0 : K) < 2 ^ 53)
    have e : (n : K) * (1 / 2 ^ 53) * 2 ^ 53 = n := by field_simp
    rw [e] at this
    linarith
  have a' : (2 ^ 53 - 1 : ℤ) < n := by exact_mod_cast a
  have b' : n < (2 ^ 53 : ℤ) := by exact_mod_cast b
  omega

/-- The range of `rand` on doubles, for a draw `u` in `[0, 1 - 2 ^ (-53)]` and a double
`A`: with `D` the rounded difference, `M` the rounded product of `1 - 2 ^ (-53)` by `D`
and `R` the rounded sum of `A` and `M`, the result lies in `[A, R]`. -/
theorem randFl_range (u A B D M R : K) (hu0 : 0 ≤ u) (hu1 : u ≤ 1 - 1 / 2 ^ 53)
    (hA : binary64 A = A) (hD : binary64 (B - A) = D) (hD0 : 0 ≤ D)
    (hM : binary64 ((1 - 1 / 2 ^ 53) * D) = M) (hR : binary64 (A + M) = R) :
    A ≤ randFl binary64 u A B ∧ randFl binary64 u A B ≤ R := by
  unfold randFl
  rw [hD]
  have h0 := binary64_nonneg (u * D) (mul_nonneg hu0 hD0)
  have hm := binary64_mono (u * D) ((1 - 1 / 2 ^ 53) * D) (mul_le_mul_of_nonneg_right hu1 hD0)
  rw [hM] at hm
  constructor
  · calc A = binary64 A := hA.symm
      _ ≤ binary64 (A + binary64 (u * D)) := binary64_mono _ _ (by linarith)
  · rw [← hR]
    exact binary64_mono _ _ (by linarith)

theorem binary64_lit_004_seed : binary64 (0.04 : K) = 5764607523034235 / 2 ^ 57 :=
  binary64_eval _ _ (-5) (5764607523034235) (by norm_num) (by norm_num) (by norm_num)
      (by rw [abs_lt]; norm_num) (by norm_num)

theorem binary64_lit_018_seed : binary64 (0.18 : K) = 3242591731706757 / 2 ^ 54 :=
  binary64_eval _ _ (-3) (6485183463413514) (by norm_num) (by norm_num) (by norm_num)
      (by rw [abs_lt]; norm_num) (by norm_num)

theorem binary64_lit_008_seed : binary64 (0.08 : K) = 5764607523034235 / 2 ^ 56 :=
  binary64_eval _ _ (-4) (5764607523034235) (by norm_num) (by norm_num) (by norm_num)
      (by rw [abs_lt]; norm_num) (by norm_num)

theorem binary64_lit_02_seed : binary64 (0.2 : K) = 3602879701896397 / 2 ^ 54 :=
  binary64_eval _ _ (-3) (7205759403792794) (by norm_num) (by norm_num) (by norm_num)
      (by rw [abs_lt]; norm_num) (by norm_num)

theorem binary64_lit_105_seed : binary64 (1.05 : K) = 4728779608739021 / 2 ^ 52 :=
  binary64_eval _ _ (0) (4728779608739021) (by norm_num) (by norm_num) (by norm_num)
      (by rw [abs_lt]; norm_num) (by norm_num)

theorem binary64_lit_19_seed : binary64 (1.9 : K) = 4278419646001971 / 2 ^ 51 :=
  binary64_eval _ _ (0) (8556839292003942) (by norm_num) (by norm_num) (by norm_num)
      (by rw [abs_lt]; norm_num) (by norm_num)

theorem binary64_lit_005_seed : binary64 (0.05 : K) = 3602879701896397 / 2 ^ 56 :=
  binary64_eval _ _ (-5) (7205759403792794) (by norm_num) (by norm_num) (by norm_num)
      (by rw [abs_lt]; norm_num) (by norm_num)

theorem binary64_lit_012_seed : binary64 (0.12 : K) = 1080863910568919 / 2 ^ 53 :=
  binary64_eval _ _ (-4) (8646911284551352) (by norm_num) (by norm_num) (by norm_num)
      (by rw [abs_lt]; norm_num) (by norm_num)

theorem binary64_lit_001_seed : binary64 (0.01 : K) = 5764607523034235 / 2 ^ 59 :=
  binary64_eval _ _ (-7) (5764607523034235) (by norm_num) (by norm_num) (by norm_num)
      (by rw [abs_lt]; norm_num) (by norm_num)

theorem binary64_lit_003_seed : binary64 (0.03 : K) = 1080863910568919 / 2 ^ 55 :=
  binary64_eval _ _ (-6) (8646911284551352) (by norm_num) (by norm_num) (by norm_num)
      (by rw [abs_lt]; norm_num) (by norm_num)

/-- On doubles `rand(-0.82, 0.82)` lies in `[-0.82, 0.82]`. -/
theorem randFl_range_082 (u : K) (hu0 : 0 ≤ u) (hu1 : u ≤ 1 - 1 / 2 ^ 53) :
    -binary64 0.82 ≤ randFl binary64 u (-binary64 0.82) (binary64 0.82) ∧
      randFl binary64 u (-binary64 0.82) (binary64 0.82) ≤ binary64 0.82 := by
  rw [binary64_lit_082]
  obtain ⟨h1, h2⟩ := randFl_range u (-(7385903388887613 / 2 ^ 53)) (7385903388887613 / 2 ^ 53) (7385903388887613 / 2 ^ 52) (1846475847221903 / 2 ^ 50) (7385903388887611 / 2 ^ 53) hu0 hu1
    (by rw [binary64_neg, show binary64 ((7385903388887613 / 2 ^ 53) : K) = 7385903388887613 / 2 ^ 53 from
      binary64_eval _ _ (-1) (7385903388887613) (by norm_num) (by norm_num) (by norm_num)
      (by rw [abs_lt]; norm_num) (by norm_num)])
    (binary64_eval _ _ (0) (7385903388887613) (by norm_num) (by norm_num) (by norm_num)
      (by rw [abs_lt]; norm_num) (by norm_num))
    (by norm_num)
    (binary64_eval _ _ (0) (7385903388887612) (by norm_num) (by norm_num) (by norm_num)
      (by rw [abs_lt]; norm_num) (by norm_num))
    (binary64_eval _ _ (-1) (7385903388887611) (by norm_num) (by norm_num) (by norm_num)
      (by rw [abs_lt]; norm_num) (by norm_num))
  exact ⟨h1, le_trans h2 (by norm_num)⟩

/-- On doubles `rand(0.04, 0.18)` lies in `[0.04, 0.18]`. -/
theorem randFl_range_004_018 (u : K) (hu0 : 0 ≤ u) (hu1 : u ≤ 1 - 1 / 2 ^ 53) :
    binary64 0.04 ≤ randFl binary64 u (binary64 0.04) (binary64 0.18) ∧
      randFl binary64 u (binary64 0.04) (binary64 0.18) ≤ binary64 0.18 := by
  rw [binary64_lit_004_seed, binary64_lit_018_seed]
  obtain ⟨h1, h2⟩ := randFl_range u (5764607523034235 / 2 ^ 57) (3242591731706757 / 2 ^ 54) (5044031582654955 / 2 ^ 55) (2522015791327477 / 2 ^ 54) (6485183463413513 / 2 ^ 55) hu0 hu1
    (binary64_eval _ _ (-5) (5764607523034235) (by norm_num) (by norm_num) (by norm_num)
      (by rw [abs_lt]; norm_num) (by norm_num))
    (binary64_eval _ _ (-3) (5044031582654955) (by norm_num) (by norm_num) (by norm_num)
      (by rw [abs_lt]; norm_num) (by norm_num))
    (by norm_num)
    (binary64_eval _ _ (-3) (5044031582654954) (by norm_num) (by norm_num) (by norm_num)
      (by rw [abs_lt]; norm_num) (by norm_num))
    (binary64_eval _ _ (-3) (6485183463413513) (by norm_num) (by norm_num) (by norm_num)
      (by rw [abs_lt]; norm_num) (by norm_num))
  exact ⟨h1, le_trans h2 (by norm_num)⟩

/-- On doubles `rand(0.08, 0.2)` lies in `[0.08, 0.2]`. -/
theorem randFl_range_008_02 (u : K) (hu0 : 0 ≤ u) (hu1 : u ≤ 1 - 1 / 2 ^ 53) :
    binary64 0.08 ≤ randFl binary64 u (binary64 0.08) (binary64 0.2) ∧
      randFl binary64 u (binary64 0.08) (binary64 0.2) ≤ binary64 0.2 := by
  rw [binary64_lit_008_seed, binary64_lit_02_seed]
  obtain ⟨h1, h2⟩ := randFl_range u (5764607523034235 / 2 ^ 56) (3602879701896397 / 2 ^ 54) (8646911284551353 / 2 ^ 56) (1080863910568919 / 2 ^ 53) (3602879701896397 / 2 ^ 54) hu0 hu1
    (binary64_eval _ _ (-4) (5764607523034235) (by norm_num) (by norm_num) (by norm_num)
      (by rw [abs_lt]; norm_num) (by norm_num))
    (binary64_eval _ _ (-4) (8646911284551353) (by norm_num) (by norm_num) (by norm_num)
      (by rw [abs_lt]; norm_num) (by norm_num))
    (by norm_num)
    (binary64_eval _ _ (-4) (8646911284551352) (by norm_num) (by norm_num) (by norm_num)
      (by rw [abs_lt]; norm_num) (by norm_num))
    (binary64_eval_tie _ _ (-3) (7205759403792794) (by norm_num) (by norm_num) (by norm_num)
      (by rw [abs_eq (by norm_num)]; norm_num) (by norm_num) (by norm_num))
  exact ⟨h1, le_trans h2 (by norm_num)⟩

/-- On doubles `rand(1.05, 1.9)` lies in `[1.05, 1.9]`. -/
theorem randFl_range_105_19 (u : K) (hu0 : 0 ≤ u) (hu1 : u ≤ 1 - 1 / 2 ^ 53) :
    binary64 1.05 ≤ randFl binary64 u (binary64 1.05) (binary64 1.9) ∧
      randFl binary64 u (binary64 1.05) (binary64 1.9) ≤ binary64 1.9 := by
  rw [binary64_lit_105_seed, binary64_lit_19_seed]
  obtain ⟨h1, h2⟩ := randFl_range u (4728779608739021 / 2 ^ 52) (4278419646001971 / 2 ^ 51) (3828059683264921 / 2 ^ 52) (7656119366529841 / 2 ^ 53) (4278419646001971 / 2 ^ 51) hu0 hu1
    (binary64_eval _ _ (0) (4728779608739021) (by norm_num) (by norm_num) (by norm_num)
      (by rw [abs_lt]; norm_num) (by norm_num))
    (binary64_eval _ _ (-1) (7656119366529842) (by norm_num) (by norm_num) (by norm_num)
      (by rw [abs_lt]; norm_num) (by norm_num))
    (by norm_num)
    (binary64_eval _ _ (-1) (7656119366529841) (by norm_num) (by norm_num) (by norm_num)
      (by rw [abs_lt]; norm_num) (by norm_num))
    (binary64_eval_tie _ _ (0) (8556839292003942) (by norm_num) (by norm_num) (by norm_num)
      (by rw [abs_eq (by norm_num)]; norm_num) (by norm_num) (by norm_num))
  exact ⟨h1, le_trans h2 (by norm_num)⟩

/-- On doubles `rand(0.05, 0.12)` lies in `[0.05, 0.12]`. -/
theorem randFl_range_005_012 (u : K) (hu0 : 0 ≤ u) (hu1 : u ≤ 1 - 1 / 2 ^ 53) :
    binary64 0.05 ≤ randFl binary64 u (binary64 0.05) (binary64 0.12) ∧
      randFl binary64 u (binary64 0.05) (binary64 0.12) ≤ binary64 0.12 := by
  rw [binary64_lit_005_seed, binary64_lit_012_seed]
  obtain ⟨h1, h2⟩ := randFl_range u (3602879701896397 / 2 ^ 56) (1080863910568919 / 2 ^ 53) (5044031582654955 / 2 ^ 56) (2522015791327477 / 2 ^ 55) (8646911284551351 / 2 ^ 56) hu0 hu1
    (binary64_eval _ _ (-5) (7205759403792794) (by norm_num) (by norm_num) (by norm_num)
      (by rw [abs_lt]; norm_num) (by norm_num))
    (binary64_eval _ _ (-4) (5044031582654955) (by norm_num) (by norm_num) (by norm_num)
      (by rw [abs_lt]; norm_num) (by norm_num))
    (by norm_num)
    (binary64_eval _ _ (-4) (5044031582654954) (by norm_num) (by norm_num) (by norm_num)
      (by rw [abs_lt]; norm_num) (by norm_num))
    (binary64_eval _ _ (-4) (8646911284551351) (by norm_num) (by norm_num) (by norm_num)
      (by rw [abs_lt]; norm_num) (by norm_num))
  exact ⟨h1, le_trans h2 (by norm_num)⟩

/-- On doubles `rand(-0.2, 0.2)` lies in `[-0.2, 0.2]`. -/
theorem randFl_range_02 (u : K) (hu0 : 0 ≤ u) (hu1 : u ≤ 1 - 1 / 2 ^ 53) :
    -binary64 0.2 ≤ randFl binary64 u (-binary64 0.2) (binary64 0.2) ∧
      randFl binary64 u (-binary64 0.2) (binary64 0.2) ≤ binary64 0.2 := by
  rw [binary64_lit_02_seed]
  obtain ⟨h1, h2⟩ := randFl_range u (-(3602879701896397 / 2 ^ 54)) (3602879701896397 / 2 ^ 54) (3602879701896397 / 2 ^ 53) (7205759403792793 / 2 ^ 54) (900719925474099 / 2 ^ 52) hu0 hu1
    (by rw [binary64_neg, show binary64 ((3602879701896397 / 2 ^ 54) : K) = 3602879701896397 / 2 ^ 54 from
      binary64_eval _ _ (-3) (7205759403792794) (by norm_num) (by norm_num) (by norm_num)
      (by rw [abs_lt]; norm_num) (by norm_num)])
    (binary64_eval _ _ (-2) (7205759403792794) (by norm_num) (by norm_num) (by norm_num)
      (by rw [abs_lt]; norm_num) (by norm_num))
    (by norm_num)
    (binary64_eval _ _ (-2) (7205759403792793) (by norm_num) (by norm_num) (by norm_num)
      (by rw [abs_lt]; norm_num) (by norm_num))
    (binary64_eval _ _ (-3) (7205759403792792) (by norm_num) (by norm_num) (by norm_num)
      (by rw [abs_lt]; norm_num) (by norm_num))
  exact ⟨h1, le_trans h2 (by norm_num)⟩

/-- On doubles `rand(0.01, 0.05)` lies in `[0.01, 0.05]`. -/
theorem randFl_range_001_005 (u : K) (hu0 : 0 ≤ u) (hu1 : u ≤ 1 - 1 / 2 ^ 53) :
    binary64 0.01 ≤ randFl binary64 u (binary64 0.01) (binary64 0.05) ∧
      randFl binary64 u (binary64 0.01) (binary64 0.05) ≤ binary64 0.05 := by
  rw [binary64_lit_001_seed, binary64_lit_005_seed]
  obtain ⟨h1, h2⟩ := randFl_range u (5764607523034235 / 2 ^ 59) (3602879701896397 / 2 ^ 56) (5764607523034235 / 2 ^ 57) (2882303761517117 / 2 ^ 56) (7205759403792793 / 2 ^ 57) hu0 hu1
    (binary64_eval _ _ (-7) (5764607523034235) (by norm_num) (by norm_num) (by norm_num)
      (by rw [abs_lt]; norm_num) (by norm_num))
    (binary64_eval _ _ (-5) (5764607523034235) (by norm_num) (by norm_num) (by norm_num)
      (by rw [abs_lt]; norm_num) (by norm_num))
    (by norm_num)
    (binary64_eval _ _ (-5) (5764607523034234) (by norm_num) (by norm_num) (by norm_num)
      (by rw [abs_lt]; norm_num) (by norm_num))
    (binary64_eval _ _ (-5) (7205759403792793) (by norm_num) (by norm_num) (by norm_num)
      (by rw [abs_lt]; norm_num) (by norm_num))
  exact ⟨h1, le_trans h2 (by norm_num)⟩

/-- On doubles `rand(0.03, 0.08)` lies in `[0.03, 0.08]`. -/
theorem randFl_range_003_008 (u : K) (hu0 : 0 ≤ u) (hu1 : u ≤ 1 - 1 / 2 ^ 53) :
    binary64 0.03 ≤ randFl binary64 u (binary64 0.03) (binary64 0.08) ∧
      randFl binary64 u (binary64 0.03) (binary64 0.08) ≤ binary64 0.08 := by
  rw [binary64_lit_003_seed, binary64_lit_008_seed]
  obtain ⟨h1, h2⟩ := randFl_range u (1080863910568919 / 2 ^ 55) (5764607523034235 / 2 ^ 56) (3602879701896397 / 2 ^ 56) (7205759403792793 / 2 ^ 57) (2882303761517117 / 2 ^ 55) hu0 hu1
    (binary64_eval _ _ (-6) (8646911284551352) (by norm_num) (by norm_num) (by norm_num)
      (by rw [abs_lt]; norm_num) (by norm_num))
    (binary64_eval _ _ (-5) (7205759403792794) (by norm_num) (by norm_num) (by norm_num)
      (by rw [abs_lt]; norm_num) (by norm_num))
    (by norm_num)
    (binary64_eval _ _ (-5) (7205759403792793) (by norm_num) (by norm_num) (by norm_num)
      (by rw [abs_lt]; norm_num) (by norm_num))
    (binary64_eval_tie _ _ (-4) (5764607523034234) (by norm_num) (by norm_num) (by norm_num)
      (by rw [abs_eq (by norm_num)]; norm_num) (by norm_num) (by norm_num))
  exact ⟨h1, le_trans h2 (by norm_num)⟩

/-- On doubles `TAU` is twice `Math.PI`. -/
theorem TAUFl_double (host : Host K) (hpi : host.PI = 884279719003555 / 2 ^ 48) :
    TAUFl binary64 host = 884279719003555 / 2 ^ 47 := by
  unfold TAUFl
  rw [hpi]
  exact binary64_eval _ _ (2) (7074237752028440) (by norm_num) (by norm_num) (by norm_num)
      (by rw [abs_lt]; norm_num) (by norm_num)

/-- On doubles `rand(0, TAU)` lies in `[0, TAU)`. -/
theorem randFl_range_phase (u : K) (hu0 : 0 ≤ u) (hu1 : u ≤ 1 - 1 / 2 ^ 53) :
    0 ≤ randFl binary64 u 0 (884279719003555 / 2 ^ 47) ∧ randFl binary64 u 0 (884279719003555 / 2 ^ 47) < 884279719003555 / 2 ^ 47 := by
  obtain ⟨h1, h2⟩ := randFl_range u 0 (884279719003555 / 2 ^ 47) (884279719003555 / 2 ^ 47) (7074237752028439 / 2 ^ 50) (7074237752028439 / 2 ^ 50) hu0 hu1
    binary64_zero
    (binary64_eval _ _ (2) (7074237752028440) (by norm_num) (by norm_num) (by norm_num)
      (by rw [abs_lt]; norm_num) (by norm_num))
    (by norm_num)
    (binary64_eval _ _ (2) (7074237752028439) (by norm_num) (by norm_num) (by norm_num)
      (by rw [abs_lt]; norm_num) (by norm_num))
    (binary64_eval _ _ (2) (7074237752028439) (by norm_num) (by norm_num) (by norm_num)
      (by rw [abs_lt]; norm_num) (by norm_num))
  exact ⟨h1, lt_of_le_of_lt h2 (by norm_num)⟩

/-- On doubles `rand(0, 1)` lies in `[0, 1)`. -/
theorem randFl_range_unit (u : K) (hu0 : 0 ≤ u) (hu1 : u ≤ 1 - 1 / 2 ^ 53) :
    0 ≤ randFl binary64 u 0 1 ∧ randFl binary64 u 0 1 < 1 := by
  obtain ⟨h1, h2⟩ := randFl_range u 0 1 (1) (9007199254740991 / 2 ^ 53) (9007199254740991 / 2 ^ 53) hu0 hu1
    binary64_zero
    (binary64_eval _ _ (0) (4503599627370496) (by norm_num) (by norm_num) (by norm_num)
      (by rw [abs_lt]; norm_num) (by norm_num))
    (by norm_num)
    (binary64_eval _ _ (-1) (9007199254740991) (by norm_num) (by norm_num) (by norm_num)
      (by rw [abs_lt]; norm_num) (by norm_num))
    (binary64_eval _ _ (-1) (9007199254740991) (by norm_num) (by norm_num) (by norm_num)
      (by rw [abs_lt]; norm_num) (by norm_num))
  exact ⟨h1, lt_of_le_of_lt h2 (by norm_num)⟩

end RoundedSeed

/-! ### The seed claim on doubles -/

/-- The largest double below `1` is a double. -/
theorem binary64_largest_draw : binary64 (1 - 1 / 2 ^ 53 : ℚ) = 1 - 1 / 2 ^ 53 :=
  binary64_eval _ _ (-1) (9007199254740991) (by norm_num) (by norm_num) (by norm_num)
      (by rw [abs_lt]; norm_num) (by norm_num)

/-- On doubles, the draw `1 - 2 ^ (-53)` makes `rand(0.08, 0.2)` equal to `0.2`. -/
theorem randFl_double_example :
    randFl binary64 (1 - 1 / 2 ^ 53 : ℚ) (binary64 0.08) (binary64 0.2) = binary64 0.2 := by
  unfold randFl
  rw [binary64_lit_008_seed, binary64_lit_02_seed]
  have eD : binary64 (((3602879701896397 / 2 ^ 54) : ℚ) - 5764607523034235 / 2 ^ 56) = 8646911284551353 / 2 ^ 56 :=
    binary64_eval _ _ (-4) (8646911284551353) (by norm_num) (by norm_num) (by norm_num)
      (by rw [abs_lt]; norm_num) (by norm_num)
  have eM : binary64 ((1 - 1 / 2 ^ 53 : ℚ) * (8646911284551353 / 2 ^ 56)) = 1080863910568919 / 2 ^ 53 :=
    binary64_eval _ _ (-4) (8646911284551352) (by norm_num) (by norm_num) (by norm_num)
      (by rw [abs_lt]; norm_num) (by norm_num)
  have eR : binary64 (((5764607523034235 / 2 ^ 56) : ℚ) + 1080863910568919 / 2 ^ 53) = 3602879701896397 / 2 ^ 54 :=
    binary64_eval_tie _ _ (-3) (7205759403792794) (by norm_num) (by norm_num) (by norm_num)
      (by rw [abs_eq (by norm_num)]; norm_num) (by norm_num) (by norm_num)
  rw [eD, eM, eR]

/-- On doubles, the draw `1 - 2 ^ (-53)` makes `rand(1.05, 1.9)` equal to `1.9`. -/
theorem randFl_double_example_zoom :
    randFl binary64 (1 - 1 / 2 ^ 53 : ℚ) (binary64 1.05) (binary64 1.9) = binary64 1.9 := by
  unfold randFl
  rw [binary64_lit_105_seed, binary64_lit_19_seed]
  have eD : binary64 (((4278419646001971 / 2 ^ 51) : ℚ) - 4728779608739021 / 2 ^ 52) = 3828059683264921 / 2 ^ 52 :=
    binary64_eval _ _ (-1) (7656119366529842) (by norm_num) (by norm_num) (by norm_num)
      (by rw [abs_lt]; norm_num) (by norm_num)
  have eM : binary64 ((1 - 1 / 2 ^ 53 : ℚ) * (3828059683264921 / 2 ^ 52)) = 7656119366529841 / 2 ^ 53 :=
    binary64_eval _ _ (-1) (7656119366529841) (by norm_num) (by norm_num) (by norm_num)
      (by rw [abs_lt]; norm_num) (by norm_num)
  have eR : binary64 (((4728779608739021 / 2 ^ 52) : ℚ) + 7656119366529841 / 2 ^ 53) = 4278419646001971 / 2 ^ 51 :=
    binary64_eval_tie _ _ (0) (8556839292003942) (by norm_num) (by norm_num) (by norm_num)
      (by rw [abs_eq (by norm_num)]; norm_num) (by norm_num) (by norm_num)
  rw [eD, eM, eR]

/-- Counterexample to C16 as stated: on doubles the draw `u = 1 - 2 ^ (-53)`, which is a
double of `[0, 1)`, and `min = 0.08 < max = 0.2` give `rand(min, max) = max`, which is not
in `[min, max)`; so a seed whose draws all have this value has `freqCr = 0.2` and
`zoomBase = 1.9`, whatever the host. In exact arithmetic the same draw gives a value
below `max`. -/
theorem C16_counterexample :
    (0 : ℚ) ≤ 1 - 1 / 2 ^ 53 ∧ (1 - 1 / 2 ^ 53 : ℚ) < 1 ∧
    binary64 (1 - 1 / 2 ^ 53 : ℚ) = 1 - 1 / 2 ^ 53 ∧
    binary64 (0.08 : ℚ) < binary64 0.2 ∧
    randFl binary64 (1 - 1 / 2 ^ 53 : ℚ) (binary64 0.08) (binary64 0.2) = binary64 0.2 ∧
    ¬ (randFl binary64 (1 - 1 / 2 ^ 53 : ℚ) (binary64 0.08) (binary64 0.2) < binary64 0.2) ∧
    (∀ host : Host ℚ,
      (makeSeedFl binary64 host (fun _ => 1 - 1 / 2 ^ 53)).freqCr = binary64 0.2 ∧
      (makeSeedFl binary64 host (fun _ => 1 - 1 / 2 ^ 53)).zoomBase = binary64 1.9) ∧
    rand (1 - 1 / 2 ^ 53 : ℚ) (binary64 0.08) (binary64 0.2) < binary64 0.2 := by
  refine ⟨by norm_num, by norm_num, binary64_largest_draw, ?_, randFl_double_example, ?_,
    fun host => ⟨randFl_double_example, randFl_double_example_zoom⟩, ?_⟩
  · rw [binary64_lit_008_seed, binary64_lit_02_seed]
    norm_num
  · rw [randFl_double_example]
    exact lt_irrefl _
  · rw [binary64_lit_008_seed, binary64_lit_02_seed]
    unfold rand
    norm_num

section RoundedSeedClaim

variable {K : Type} [LinearOrderedField K] [FloorRing K]

/-- C16, amended: in exact arithmetic, for every draw `u` in `[0, 1)` and every
`min < max`, `rand(min, max) = min + u*(max - min)` lies in `[min, max)`. On doubles,
where every operation of `rand` is rounded, `Math.PI` being the double nearest to pi and
each value of `Math.random()` a double of `[0, 1)`: the seed has 21 fields, drawn by the
calls number 0 to 20 of `Math.random()` and by no other, `TAU` is `2 * Math.PI`, and each
field lies in its documented range, closed where the documentation gives it closed and
with the doubles that the literals denote as bounds: `baseCr, baseCi` in `[-0.82, 0.82]`,
`ampCr, ampCi` in `[0.04, 0.18]`, `freqCr, freqCi` in `[0.08, 0.2]`, the five phases in
`[0, 2 * Math.PI)`, `zoomBase` in `[1.05, 1.9]`, `zoomAmp` in `[0.04, 0.18]`, `zoomFreq` in
`[0.05, 0.12]`, `panX, panY` in `[-0.2, 0.2]`, `panAmpX, panAmpY` in `[0.01, 0.05]`,
`panFreqX, panFreqY` in `[0.03, 0.08]`, `paletteShift` in `[0, 1)`. -/
theorem C16_seed_ranges (host : Host K) (hpi : host.PI = 884279719003555 / 2 ^ 48)
    (random : ℕ → K)
    (hrandom : ∀ i, 0 ≤ random i ∧ random i < 1 ∧ binary64 (random i) = random i) :
    (∀ u min max : K, rand u min max = min + u * (max - min) ∧
      (0 ≤ u → u < 1 → min < max → min ≤ rand u min max ∧ rand u min max < max)) ∧
    (∀ u min max : K, randFl binary64 u min max =
      binary64 (min + binary64 (u * binary64 (max - min)))) ∧
    (∀ random2 : ℕ → K, (∀ i, i < 21 → random2 i = random i) →
      makeSeedFl binary64 host random2 = makeSeedFl binary64 host random) ∧
    TAUFl binary64 host = 2 * host.PI ∧
    (-binary64 0.82 ≤ (makeSeedFl binary64 host random).baseCr ∧ (makeSeedFl binary64 host random).baseCr ≤ binary64 0.82) ∧
    (-binary64 0.82 ≤ (makeSeedFl binary64 host random).baseCi ∧ (makeSeedFl binary64 host random).baseCi ≤ binary64 0.82) ∧
    (binary64 0.04 ≤ (makeSeedFl binary64 host random).ampCr ∧ (makeSeedFl binary64 host random).ampCr ≤ binary64 0.18) ∧
    (binary64 0.04 ≤ (makeSeedFl binary64 host random).ampCi ∧ (makeSeedFl binary64 host random).ampCi ≤ binary64 0.18) ∧
    (binary64 0.08 ≤ (makeSeedFl binary64 host random).freqCr ∧ (makeSeedFl binary64 host random).freqCr ≤ binary64 0.2) ∧
    (binary64 0.08 ≤ (makeSeedFl binary64 host random).freqCi ∧ (makeSeedFl binary64 host random).freqCi ≤ binary64 0.2) ∧
    (0 ≤ (makeSeedFl binary64 host random).phaseCr ∧ (makeSeedFl binary64 host random).phaseCr < 2 * host.PI) ∧
    (0 ≤ (makeSeedFl binary64 host random).phaseCi ∧ (makeSeedFl binary64 host random).phaseCi < 2 * host.PI) ∧
    (binary64 1.05 ≤ (makeSeedFl binary64 host random).zoomBase ∧ (makeSeedFl binary64 host random).zoomBase ≤ binary64 1.9) ∧
    (binary64 0.04 ≤ (makeSeedFl binary64 host random).zoomAmp ∧ (makeSeedFl binary64 host random).zoomAmp ≤ binary64 0.18) ∧
    (binary64 0.05 ≤ (makeSeedFl binary64 host random).zoomFreq ∧ (makeSeedFl binary64 host random).zoomFreq ≤ binary64 0.12) ∧
    (0 ≤ (makeSeedFl binary64 host random).zoomPhase ∧ (makeSeedFl binary64 host random).zoomPhase < 2 * host.PI) ∧
    (-binary64 0.2 ≤ (makeSeedFl binary64 host random).panX ∧ (makeSeedFl binary64 host random).panX ≤ binary64 0.2) ∧
    (-binary64 0.2 ≤ (makeSeedFl binary64 host random).panY ∧ (makeSeedFl binary64 host random).panY ≤ binary64 0.2) ∧
    (binary64 0.01 ≤ (makeSeedFl binary64 host random).panAmpX ∧ (makeSeedFl binary64 host random).panAmpX ≤ binary64 0.05) ∧
    (binary64 0.01 ≤ (makeSeedFl binary64 host random).panAmpY ∧ (makeSeedFl binary64 host random).panAmpY ≤ binary64 0.05) ∧
    (binary64 0.03 ≤ (makeSeedFl binary64 host random).panFreqX ∧ (makeSeedFl binary64 host random).panFreqX ≤ binary64 0.08) ∧
    (binary64 0.03 ≤ (makeSeedFl binary64 host random).panFreqY ∧ (makeSeedFl binary64 host random).panFreqY ≤ binary64 0.08) ∧
    (0 ≤ (makeSeedFl binary64 host random).panPhaseX ∧ (makeSeedFl binary64 host random).panPhaseX < 2 * host.PI) ∧
    (0 ≤ (makeSeedFl binary64 host random).panPhaseY ∧ (makeSeedFl binary64 host random).panPhaseY < 2 * host.PI) ∧
    (0 ≤ (makeSeedFl binary64 host random).paletteShift ∧ (makeSeedFl binary64 host random).paletteShift < 1) := by
  have h0 : ∀ i, 0 ≤ random i := fun i => (hrandom i).1
  have h1 : ∀ i, random i ≤ 1 - 1 / 2 ^ 53 := fun i =>
    double_lt_one (random i) (hrandom i).2.1 (hrandom i).2.2
  have htau : TAUFl binary64 host = 2 * host.PI := by
    rw [TAUFl_double host hpi, hpi]
    norm_num
  have htau2 : (2 : K) * host.PI = 884279719003555 / 2 ^ 47 := by
    rw [hpi]
    norm_num
  have ph : ∀ i, 0 ≤ randFl binary64 (random i) 0 (TAUFl binary64 host) ∧
      randFl binary64 (random i) 0 (TAUFl binary64 host) < 2 * host.PI := by
    intro i
    rw [htau2, TAUFl_double host hpi]
    exact randFl_range_phase (random i) (h0 i) (h1 i)
  refine ⟨fun u min max => ⟨rfl, fun a b c => rand_range u min max a b c⟩,
    fun u min max => rfl, ?_, htau,
    randFl_range_082 (random 0) (h0 0) (h1 0),
    randFl_range_082 (random 1) (h0 1) (h1 1),
    randFl_range_004_018 (random 2) (h0 2) (h1 2),
    randFl_range_004_018 (random 3) (h0 3) (h1 3),
    randFl_range_008_02 (random 4) (h0 4) (h1 4),
    randFl_range_008_02 (random 5) (h0 5) (h1 5),
    ph 6,
    ph 7,
    randFl_range_105_19 (random 8) (h0 8) (h1 8),
    randFl_range_004_018 (random 9) (h0 9) (h1 9),
    randFl_range_005_012 (random 10) (h0 10) (h1 10),
    ph 11,
    randFl_range_02 (random 12) (h0 12) (h1 12),
    randFl_range_02 (random 13) (h0 13) (h1 13),
    randFl_range_001_005 (random 14) (h0 14) (h1 14),
    randFl_range_001_005 (random 15) (h0 15) (h1 15),
    randFl_range_003_008 (random 16) (h0 16) (h1 16),
    randFl_range_003_008 (random 17) (h0 17) (h1 17),
    ph 18,
    ph 19,
    randFl_range_unit (random 20) (h0 20) (h1 20)⟩
  intro random2 h
  simp only [makeSeedFl]
  rw [h 0 (by norm_num), h 1 (by norm_num), h 2 (by norm_num), h 3 (by norm_num), h 4 (by norm_num), h 5 (by norm_num), h 6 (by norm_num), h 7 (by norm_num), h 8 (by norm_num), h 9 (by norm_num), h 10 (by norm_num), h 11 (by norm_num), h 12 (by norm_num), h 13 (by norm_num), h 14 (by norm_num), h 15 (by norm_num), h 16 (by norm_num), h 17 (by norm_num), h 18 (by norm_num), h 19 (by norm_num), h 20 (by norm_num)]

end RoundedSeedClaim

/-- Witness for C16: every call of `Math.random()` returning the largest double below
`1`, with the double nearest to pi as `Math.PI`; `freqCr` lies in `[0.08, 0.2]` and
`phaseCr` in `[0, 2 * Math.PI)`. -/
theorem C16_seed_ranges_witness :
    (binary64 (0.08 : ℚ) ≤
        (makeSeedFl binary64 (Host.mk (884279719003555 / 2 ^ 48 : ℚ) id id id)
          (fun _ => 1 - 1 / 2 ^ 53)).freqCr ∧
      (makeSeedFl binary64 (Host.mk (884279719003555 / 2 ^ 48 : ℚ) id id id)
          (fun _ => 1 - 1 / 2 ^ 53)).freqCr ≤ binary64 0.2) ∧
    (0 ≤ (makeSeedFl binary64 (Host.mk (884279719003555 / 2 ^ 48 : ℚ) id id id)
          (fun _ => 1 - 1 / 2 ^ 53)).phaseCr ∧
      (makeSeedFl binary64 (Host.mk (884279719003555 / 2 ^ 48 : ℚ) id id id)
          (fun _ => 1 - 1 / 2 ^ 53)).phaseCr <
        2 * (Host.mk (884279719003555 / 2 ^ 48 : ℚ) id id id).PI) :=
  have h := C16_seed_ranges (Host.mk (884279719003555 / 2 ^ 48 : ℚ) id id id) rfl
    (fun _ => 1 - 1 / 2 ^ 53)
    (fun _ => ⟨by norm_num, by norm_num, binary64_largest_draw⟩)
  ⟨h.2.2.2.2.2.2.2.2.1, h.2.2.2.2.2.2.2.2.2.2.1⟩

end JuliaBg

namespace PubFilter

/-! ### The publication filter -/

theorem ClassList.mem_remove (classList : List String) (token c : String) :
    c ∈ ClassList.remove classList token ↔ c ∈ classList ∧ c ≠ token := by
  simp [ClassList.remove]

theorem ClassList.mem_add (classList : List String) (token c : String) :
    c ∈ ClassList.add classList token ↔ c ∈ classList ∨ c = token := by
  unfold ClassList.add
  split_ifs with h
  · constructor
    · exact fun hc => Or.inl hc
    · rintro (hc | hc)
      · exact hc
      · rw [hc]; exact h
  · simp

theorem ClassList.mem_toggle_self (classList : List String) (token : String) (force : Bool) :
    token ∈ ClassList.toggle classList token force ↔ force = true := by
  unfold ClassList.toggle
  by_cases h : token ∈ classList <;> cases force <;> simp [h, ClassList.mem_remove]

theorem ClassList.mem_toggle_other (classList : List String) (token c : String) (force : Bool)
    (hc : c ≠ token) : c ∈ ClassList.toggle classList token force ↔ c ∈ classList := by
  unfold ClassList.toggle
  by_cases h : token ∈ classList <;> cases force <;> simp [h, ClassList.mem_remove, hc]

/-- Toggling a token whose presence already agrees with `force` changes nothing. -/
theorem ClassList.toggle_settled (classList : List String) (token : String) (force : Bool)
    (h : token ∈ classList ↔ force = true) : ClassList.toggle classList token force = classList := by
  unfold ClassList.toggle
  by_cases hm : token ∈ classList
  · have hf : force = true := h.mp hm
    simp [hm, hf]
  · have hf : force = false := by
      cases force
      · rfl
      · exact absurd (h.mpr rfl) hm
    simp [hm, hf]

theorem ClassList.remove_absent (classList : List String) (token : String)
    (h : token ∉ classList) : ClassList.remove classList token = classList := by
  unfold ClassList.remove
  rw [List.filter_eq_self]
  intro c hc
  simp only [ne_eq, decide_eq_true_eq]
  intro hct
  exact h (hct ▸ hc)

theorem ClassList.remove_append_self (classList : List String) (token : String)
    (h : token ∉ classList) :
    ClassList.remove (classList ++ [token]) token = classList := by
  have := ClassList.remove_absent classList token h
  unfold ClassList.remove at this ⊢
  rw [List.filter_append, this]
  simp

theorem hidden_ne_first : ("is-hidden" : String) ≠ "is-first-visible" := by decide

theorem hidePaper_authorship (filterValue : String) (paper : Paper) :
    (hidePaper filterValue paper).authorship = paper.authorship := rfl

theorem hidePaper_hidden (filterValue : String) (paper : Paper) :
    "is-hidden" ∈ (hidePaper filterValue paper).classList ↔
      filterValue ≠ "all" ∧ paper.authorship ≠ filterValue := by
  simp only [hidePaper]
  rw [ClassList.mem_remove, ClassList.mem_toggle_self]
  simp [hidden_ne_first]

theorem hidePaper_not_first (filterValue : String) (paper : Paper) :
    "is-first-visible" ∉ (hidePaper filterValue paper).classList := by
  simp only [hidePaper]
  rw [ClassList.mem_remove]
  exact fun h => h.2 rfl

theorem hidePaper_other (filterValue : String) (paper : Paper) (c : String)
    (h1 : c ≠ "is-hidden") (h2 : c ≠ "is-first-visible") :
    c ∈ (hidePaper filterValue paper).classList ↔ c ∈ paper.classList := by
  simp only [hidePaper]
  rw [ClassList.mem_remove, ClassList.mem_toggle_other _ _ _ _ h1]
  exact ⟨fun h => h.1, fun h => ⟨h, h2⟩⟩

theorem shouldHide_iff (filterValue role : String) :
    (!(decide (filterValue = "all") || decide (role = filterValue))) = true ↔
      filterValue ≠ "all" ∧ role ≠ filterValue := by
  simp

/-- A paper whose two managed classes are already as `hidePaper` leaves them is not
changed by `hidePaper`. -/
theorem hidePaper_settled (filterValue : String) (q : Paper)
    (hh : "is-hidden" ∈ q.classList ↔ filterValue ≠ "all" ∧ q.authorship ≠ filterValue)
    (hn : "is-first-visible" ∉ q.classList) : hidePaper filterValue q = q := by
  simp only [hidePaper]
  rw [ClassList.toggle_settled _ _ _ (hh.trans (shouldHide_iff filterValue q.authorship).symm),
    ClassList.remove_absent _ _ hn]

/-- Adding `is-first-visible` to a settled paper is undone by `hidePaper`. -/
theorem hidePaper_added (filterValue : String) (q : Paper)
    (hh : "is-hidden" ∈ q.classList ↔ filterValue ≠ "all" ∧ q.authorship ≠ filterValue)
    (hn : "is-first-visible" ∉ q.classList) :
    hidePaper filterValue
      { q with classList := ClassList.add q.classList "is-first-visible" } = q := by
  have hadd : ClassList.add q.classList "is-first-visible" =
      q.classList ++ ["is-first-visible"] := by
    unfold ClassList.add
    rw [if_neg hn]
  have hmem : "is-hidden" ∈ q.classList ++ ["is-first-visible"] ↔
      filterValue ≠ "all" ∧ q.authorship ≠ filterValue := by
    rw [← hh]
    simp [hidden_ne_first]
  simp only [hidePaper]
  rw [hadd,
    ClassList.toggle_settled _ _ _ (hmem.trans (shouldHide_iff filterValue q.authorship).symm),
    ClassList.remove_append_self _ _ hn]

theorem hidePaper_idem (filterValue : String) (paper : Paper) :
    hidePaper filterValue (hidePaper filterValue paper) = hidePaper filterValue paper :=
  hidePaper_settled filterValue _ (hidePaper_hidden filterValue paper)
    (hidePaper_not_first filterValue paper)

theorem hidePaper_added_idem (filterValue : String) (paper : Paper) :
    hidePaper filterValue
      { hidePaper filterValue paper with
        classList := ClassList.add (hidePaper filterValue paper).classList "is-first-visible" } =
      hidePaper filterValue paper :=
  hidePaper_added filterValue _ (hidePaper_hidden filterValue paper)
    (hidePaper_not_first filterValue paper)

/-- A second pass of the first loop undoes the marking of the first visible paper. -/
theorem map_hidePaper_addFirstVisible (filterValue : String) (papers : List Paper) :
    (addFirstVisible (papers.map (hidePaper filterValue))).map (hidePaper filterValue) =
      papers.map (hidePaper filterValue) := by
  induction papers with
  | nil => rfl
  | cons p ps ih =>
    simp only [List.map_cons, addFirstVisible]
    split_ifs with h
    · simp only [List.map_cons, List.map_map]
      rw [hidePaper_added_idem]
      congr 1
      apply List.map_congr_left
      intro a _
      exact hidePaper_idem filterValue a
    · simp only [List.map_cons]
      rw [hidePaper_idem, ih]

theorem pressButton_idem (filterValue : String) (button : Button) :
    pressButton filterValue (pressButton filterValue button) = pressButton filterValue button := by
  simp only [pressButton]
  rw [ClassList.toggle_settled _ _ _ (ClassList.mem_toggle_self _ _ _)]

theorem addFirstVisible_length (papers : List Paper) :
    (addFirstVisible papers).length = papers.length := by
  induction papers with
  | nil => rfl
  | cons p ps ih =>
    simp only [addFirstVisible]
    split_ifs with h
    · rfl
    · simp [ih]

/-- Effect of `addFirstVisible` at each position. -/
theorem addFirstVisible_get (papers : List Paper)
    (hn : ∀ p ∈ papers, "is-first-visible" ∉ p.classList) :
    ∀ (i : ℕ) (p : Paper), papers[i]? = some p →
      ∃ q : Paper, (addFirstVisible papers)[i]? = some q ∧ q.authorship = p.authorship ∧
        (∀ c : String, c ≠ "is-first-visible" → (c ∈ q.classList ↔ c ∈ p.classList)) ∧
        ("is-first-visible" ∈ q.classList ↔ "is-hidden" ∉ p.classList ∧
          ∀ (j : ℕ) (r : Paper), j < i → papers[j]? = some r → "is-hidden" ∈ r.classList) := by
  induction papers with
  | nil => intro i p h; simp at h
  | cons a ps ih =>
    intro i p h
    have hna : "is-first-visible" ∉ a.classList := hn a (List.mem_cons_self _ _)
    have hn2 : ∀ p ∈ ps, "is-first-visible" ∉ p.classList :=
      fun p hp => hn p (List.mem_cons_of_mem _ hp)
    simp only [addFirstVisible]
    by_cases hvis : "is-hidden" ∈ a.classList
    · have hc : (!ClassList.contains a.classList "is-hidden") = false := by
        simp [ClassList.contains, hvis]
      rw [hc]
      simp only [Bool.false_eq_true, if_false]
      cases i with
      | zero =>
        simp only [List.getElem?_cons_zero, Option.some.injEq] at h
        subst h
        refine ⟨a, by simp, rfl, fun c _ => Iff.rfl, ?_⟩
        exact ⟨fun h1 => absurd h1 hna, fun h1 => absurd hvis h1.1⟩
      | succ k =>
        simp only [List.getElem?_cons_succ] at h
        obtain ⟨q, hq, ha, hc2, hf⟩ := ih hn2 k p h
        refine ⟨q, by simpa using hq, ha, hc2, ?_⟩
        rw [hf]
        constructor
        · rintro ⟨h1, h2⟩
          refine ⟨h1, ?_⟩
          intro j r hj hr
          cases j with
          | zero =>
            simp only [List.getElem?_cons_zero, Option.some.injEq] at hr
            rw [← hr]; exact hvis
          | succ j2 =>
            simp only [List.getElem?_cons_succ] at hr
            exact h2 j2 r (by omega) hr
        · rintro ⟨h1, h2⟩
          refine ⟨h1, ?_⟩
          intro j r hj hr
          exact h2 (j + 1) r (by omega) (by simpa using hr)
    · have hc : (!ClassList.contains a.classList "is-hidden") = true := by
        simp [ClassList.contains, hvis]
      rw [hc]
      simp only [if_true]
      cases i with
      | zero =>
        simp only [List.getElem?_cons_zero, Option.some.injEq] at h
        subst h
        refine ⟨{ a with classList := ClassList.add a.classList "is-first-visible" },
          List.getElem?_cons_zero, rfl,
          ?_, ?_⟩
        · intro c hcv
          show c ∈ ClassList.add a.classList "is-first-visible" ↔ c ∈ a.classList
          rw [ClassList.mem_add]
          exact ⟨fun h1 => h1.elim id (fun h2 => absurd h2 hcv), Or.inl⟩
        · show "is-first-visible" ∈ ClassList.add a.classList "is-first-visible" ↔ _
          rw [ClassList.mem_add]
          exact ⟨fun _ => ⟨hvis, fun j r hj _ => absurd hj (Nat.not_lt_zero j)⟩,
            fun _ => Or.inr rfl⟩
      | succ k =>
        simp only [List.getElem?_cons_succ] at h
        refine ⟨p, by simpa using h, rfl, fun c _ => Iff.rfl, ?_⟩
        constructor
        · intro h1
          exact absurd h1 (hn2 p (List.getElem?_mem h))
        · rintro ⟨_, h2⟩
          exact absurd (h2 0 a (Nat.succ_pos k) (by simp)) hvis

theorem applyFilter_papers_length (filterValue : String) (page : Page) :
    (applyFilter filterValue page).papers.length = page.papers.length := by
  simp [applyFilter, addFirstVisible_length]

theorem applyFilter_buttons_length (filterValue : String) (page : Page) :
    (applyFilter filterValue page).buttons.length = page.buttons.length := by
  simp [applyFilter]

/-- The paper at each position after `applyFilter`, in terms of the `data-authorship`
values of the papers up to that position. -/
theorem applyFilter_papers_get (filterValue : String) (page : Page) (i : ℕ) (p : Paper)
    (h : page.papers[i]? = some p) :
    ∃ q : Paper, (applyFilter filterValue page).papers[i]? = some q ∧
      q.authorship = p.authorship ∧
      ("is-hidden" ∈ q.classList ↔ filterValue ≠ "all" ∧ p.authorship ≠ filterValue) ∧
      ("is-first-visible" ∈ q.classList ↔
        ¬ (filterValue ≠ "all" ∧ p.authorship ≠ filterValue) ∧
        ∀ (j : ℕ) (r : Paper), j < i → page.papers[j]? = some r →
          filterValue ≠ "all" ∧ r.authorship ≠ filterValue) ∧
      (∀ c : String, c ≠ "is-hidden" → c ≠ "is-first-visible" →
        (c ∈ q.classList ↔ c ∈ p.classList)) := by
  have hn : ∀ a ∈ page.papers.map (hidePaper filterValue), "is-first-visible" ∉ a.classList := by
    intro a ha
    obtain ⟨b, _, rfl⟩ := List.mem_map.mp ha
    exact hidePaper_not_first filterValue b
  have hi : (page.papers.map (hidePaper filterValue))[i]? = some (hidePaper filterValue p) := by
    rw [List.getElem?_map, h]; rfl
  obtain ⟨q, hq, ha, hc, hf⟩ := addFirstVisible_get _ hn i _ hi
  refine ⟨q, hq, ha, ?_, ?_, ?_⟩
  · rw [hc _ hidden_ne_first]
    exact hidePaper_hidden filterValue p
  · rw [hf, hidePaper_hidden]
    constructor
    · rintro ⟨h1, h2⟩
      refine ⟨h1, ?_⟩
      intro j r hj hr
      rw [← hidePaper_hidden filterValue r]
      exact h2 j _ hj (by rw [List.getElem?_map, hr]; rfl)
    · rintro ⟨h1, h2⟩
      refine ⟨h1, ?_⟩
      intro j r hj hr
      rw [List.getElem?_map] at hr
      cases hpj : page.papers[j]? with
      | none => rw [hpj] at hr; exact absurd hr (by simp)
      | some b =>
        rw [hpj] at hr
        simp only [Option.map_some', Option.some.injEq] at hr
        rw [← hr, hidePaper_hidden]
        exact h2 j b hj hpj
  · intro c h1 h2
    rw [hc c h2]
    exact hidePaper_other filterValue p c h1 h2

/-- The button at each position after `applyFilter`. -/
theorem applyFilter_buttons_get (filterValue : String) (page : Page) (i : ℕ) (b : Button)
    (h : page.buttons[i]? = some b) :
    ∃ d : Button, (applyFilter filterValue page).buttons[i]? = some d ∧
      d.filter = b.filter ∧
      ("is-active" ∈ d.classList ↔ b.filter = some filterValue) ∧
      d.ariaPressed = some (if b.filter = some filterValue then "true" else "false") ∧
      (∀ c : String, c ≠ "is-active" → (c ∈ d.classList ↔ c ∈ b.classList)) := by
  refine ⟨pressButton filterValue b, ?_, rfl, ?_, ?_, ?_⟩
  · simp only [applyFilter]
    rw [List.getElem?_map, h]; rfl
  · simp only [pressButton]
    rw [ClassList.mem_toggle_self]
    simp
  · simp only [pressButton]
    by_cases hb : b.filter = some filterValue <;> simp [hb]
  · intro c hc
    simp only [pressButton]
    exact ClassList.mem_toggle_other _ _ _ _ hc

/-- Two lists with the same image under `f` have, at each position, elements with the
same image. -/
theorem get_of_map_eq {α β : Type} (f : α → β) (l1 l2 : List α) (h : l1.map f = l2.map f)
    (i : ℕ) (a : α) (ha : l1[i]? = some a) : ∃ b : α, l2[i]? = some b ∧ f b = f a := by
  have h1 : (l1.map f)[i]? = some (f a) := by rw [List.getElem?_map, ha]; rfl
  rw [h, List.getElem?_map] at h1
  cases hb : l2[i]? with
  | none => rw [hb] at h1; exact absurd h1 (by simp)
  | some b =>
    rw [hb] at h1
    simp only [Option.map_some', Option.some.injEq] at h1
    exact ⟨b, rfl, h1⟩

/-- An entry of the result comes from an entry of the page at the same position. -/
theorem papers_get_of_result (filterValue : String) (page : Page) (i : ℕ) (q : Paper)
    (h : (applyFilter filterValue page).papers[i]? = some q) :
    ∃ p : Paper, page.papers[i]? = some p := by
  have hlt : i < (applyFilter filterValue page).papers.length := by
    by_contra hge
    rw [List.getElem?_eq_none (Nat.le_of_not_lt hge)] at h
    exact absurd h (by simp)
  rw [applyFilter_papers_length] at hlt
  exact ⟨_, List.getElem?_eq_getElem hlt⟩

theorem buttons_get_of_result (filterValue : String) (page : Page) (i : ℕ) (d : Button)
    (h : (applyFilter filterValue page).buttons[i]? = some d) :
    ∃ b : Button, page.buttons[i]? = some b := by
  have hlt : i < (applyFilter filterValue page).buttons.length := by
    by_contra hge
    rw [List.getElem?_eq_none (Nat.le_of_not_lt hge)] at h
    exact absurd h (by simp)
  rw [applyFilter_buttons_length] at hlt
  exact ⟨_, List.getElem?_eq_getElem hlt⟩

/-- In the result, `is-first-visible` marks the first position without `is-hidden`. -/
theorem applyFilter_first_visible (filterValue : String) (page : Page) (i : ℕ) (q : Paper)
    (h : (applyFilter filterValue page).papers[i]? = some q) :
    ("is-first-visible" ∈ q.classList ↔ "is-hidden" ∉ q.classList ∧
      ∀ (j : ℕ) (r : Paper), j < i → (applyFilter filterValue page).papers[j]? = some r →
        "is-hidden" ∈ r.classList) := by
  obtain ⟨p, hp⟩ := papers_get_of_result filterValue page i q h
  obtain ⟨q2, hq2, _, hh, hf, _⟩ := applyFilter_papers_get filterValue page i p hp
  have hqq : q2 = q := Option.some.inj (hq2.symm.trans h)
  subst hqq
  rw [hf, hh]
  constructor
  · rintro ⟨h1, h2⟩
    refine ⟨h1, ?_⟩
    intro j r hj hr
    obtain ⟨pj, hpj⟩ := papers_get_of_result filterValue page j r hr
    obtain ⟨qj, hqj, _, hhj, _, _⟩ := applyFilter_papers_get filterValue page j pj hpj
    have : qj = r := Option.some.inj (hqj.symm.trans hr)
    subst this
    rw [hhj]
    exact h2 j pj hj hpj
  · rintro ⟨h1, h2⟩
    refine ⟨h1, ?_⟩
    intro j r hj hr
    obtain ⟨qj, hqj, _, hhj, _, _⟩ := applyFilter_papers_get filterValue page j r hr
    rw [← hhj]
    exact h2 j qj hj hqj

/-- Function `applyFilter` applied twice gives the same state as applied once. -/
theorem applyFilter_idem (filterValue : String) (page : Page) :
    applyFilter filterValue (applyFilter filterValue page) = applyFilter filterValue page := by
  simp only [applyFilter]
  rw [map_hidePaper_addFirstVisible, List.map_map]
  congr 1
  apply List.map_congr_left
  intro b _
  exact pressButton_idem filterValue b

/-- When some paper of the result is not hidden, exactly one position of the result
carries `is-first-visible`. -/
theorem applyFilter_first_visible_unique (filterValue : String) (page : Page)
    (hex : ∃ q ∈ (applyFilter filterValue page).papers, "is-hidden" ∉ q.classList) :
    ∃ (i : ℕ) (q : Paper), (applyFilter filterValue page).papers[i]? = some q ∧
      "is-first-visible" ∈ q.classList ∧
      ∀ (j : ℕ) (r : Paper), (applyFilter filterValue page).papers[j]? = some r →
        "is-first-visible" ∈ r.classList → j = i := by
  classical
  have hP : ∃ i : ℕ, ∃ q : Paper, (applyFilter filterValue page).papers[i]? = some q ∧
      "is-hidden" ∉ q.classList := by
    obtain ⟨q, hq, hv⟩ := hex
    obtain ⟨i, hi⟩ := List.mem_iff_getElem?.mp hq
    exact ⟨i, q, hi, hv⟩
  obtain ⟨q0, hq0, hv0⟩ := Nat.find_spec hP
  have hmin : ∀ (j : ℕ) (r : Paper), j < Nat.find hP →
      (applyFilter filterValue page).papers[j]? = some r → "is-hidden" ∈ r.classList := by
    intro j r hj hr
    by_contra hnot
    exact Nat.find_min hP hj ⟨r, hr, hnot⟩
  refine ⟨Nat.find hP, q0, hq0, ?_, ?_⟩
  · rw [applyFilter_first_visible filterValue page _ q0 hq0]
    exact ⟨hv0, hmin⟩
  · intro j r hr hf
    rw [applyFilter_first_visible filterValue page j r hr] at hf
    rcases Nat.lt_trichotomy j (Nat.find hP) with hlt | heq | hgt
    · exact absurd (hmin j r hlt hr) hf.1
    · exact heq
    · exact absurd (hf.2 _ q0 hgt hq0) hv0

/-- The managed classes and attributes after `applyFilter` are the same for two pages
with the same `data-authorship` and `data-filter` values. -/
theorem applyFilter_independent (filterValue : String) (page page2 : Page)
    (hp : page2.papers.map Paper.authorship = page.papers.map Paper.authorship)
    (hb : page2.buttons.map Button.filter = page.buttons.map Button.filter) :
    (∀ (i : ℕ) (q q2 : Paper), (applyFilter filterValue page).papers[i]? = some q →
      (applyFilter filterValue page2).papers[i]? = some q2 →
      ("is-hidden" ∈ q2.classList ↔ "is-hidden" ∈ q.classList) ∧
      ("is-first-visible" ∈ q2.classList ↔ "is-first-visible" ∈ q.classList)) ∧
    (∀ (i : ℕ) (d d2 : Button), (applyFilter filterValue page).buttons[i]? = some d →
      (applyFilter filterValue page2).buttons[i]? = some d2 →
      ("is-active" ∈ d2.classList ↔ "is-active" ∈ d.classList) ∧
      d2.ariaPressed = d.ariaPressed) := by
  constructor
  · intro i q q2 hq hq2
    obtain ⟨p, hpi⟩ := papers_get_of_result filterValue page i q hq
    obtain ⟨p2, hpi2⟩ := papers_get_of_result filterValue page2 i q2 hq2
    obtain ⟨a, ha, _, hh, hf, _⟩ := applyFilter_papers_get filterValue page i p hpi
    obtain ⟨a2, ha2, _, hh2, hf2, _⟩ := applyFilter_papers_get filterValue page2 i p2 hpi2
    have e1 : a = q := Option.some.inj (ha.symm.trans hq)
    have e2 : a2 = q2 := Option.some.inj (ha2.symm.trans hq2)
    subst e1 e2
    obtain ⟨b, hb1, hb2⟩ := get_of_map_eq Paper.authorship _ _ hp i p2 hpi2
    have e3 : b = p := Option.some.inj (hb1.symm.trans hpi)
    subst e3
    rw [hh, hh2, hf, hf2, ← hb2]
    refine ⟨Iff.rfl, ?_⟩
    constructor
    · rintro ⟨h1, h2⟩
      refine ⟨h1, ?_⟩
      intro j r hj hr
      obtain ⟨r2, hr2, hr3⟩ := get_of_map_eq Paper.authorship _ _ hp.symm j r hr
      rw [← hr3]
      exact h2 j r2 hj hr2
    · rintro ⟨h1, h2⟩
      refine ⟨h1, ?_⟩
      intro j r hj hr
      obtain ⟨r2, hr2, hr3⟩ := get_of_map_eq Paper.authorship _ _ hp j r hr
      rw [← hr3]
      exact h2 j r2 hj hr2
  · intro i d d2 hd hd2
    obtain ⟨b, hbi⟩ := buttons_get_of_result filterValue page i d hd
    obtain ⟨b2, hbi2⟩ := buttons_get_of_result filterValue page2 i d2 hd2
    obtain ⟨a, ha, _, hact, haria, _⟩ := applyFilter_buttons_get filterValue page i b hbi
    obtain ⟨a2, ha2, _, hact2, haria2, _⟩ := applyFilter_buttons_get filterValue page2 i b2 hbi2
    have e1 : a = d := Option.some.inj (ha.symm.trans hd)
    have e2 : a2 = d2 := Option.some.inj (ha2.symm.trans hd2)
    subst e1 e2
    obtain ⟨c, hc1, hc2⟩ := get_of_map_eq Button.filter _ _ hb i b2 hbi2
    have e3 : c = b := Option.some.inj (hc1.symm.trans hbi)
    subst e3
    rw [hact, hact2, haria, haria2, hc2]
    exact ⟨Iff.rfl, rfl⟩

/-- C20: for every list of papers and buttons and every filter value `f`, after
`applyFilter(f)`: the lists keep their lengths and data attributes; a paper carries
`is-hidden` if and only if `f ≠ "all"` and its `data-authorship ≠ f`; a paper carries
`is-first-visible` if and only if it is the first paper in list order without
`is-hidden`, so no paper carries it when all are hidden and exactly one does otherwise;
a button carries `is-active` if and only if its `data-filter` equals `f`, and its
`aria-pressed` is `"true"` in that case and `"false"` otherwise; the other classes are
left as they were. Consequently `applyFilter(f)` twice gives the same state as once, and
the managed classes and attributes of the result are the same for every class state
before the call. -/
theorem C20_applyFilter_semantics (filterValue : String) (page : Page) :
    (applyFilter filterValue page).papers.length = page.papers.length ∧
    (applyFilter filterValue page).buttons.length = page.buttons.length ∧
    (∀ (i : ℕ) (p : Paper), page.papers[i]? = some p →
      ∃ q : Paper, (applyFilter filterValue page).papers[i]? = some q ∧
        q.authorship = p.authorship ∧
        ("is-hidden" ∈ q.classList ↔ filterValue ≠ "all" ∧ p.authorship ≠ filterValue) ∧
        ("is-first-visible" ∈ q.classList ↔ "is-hidden" ∉ q.classList ∧
          ∀ (j : ℕ) (r : Paper), j < i →
            (applyFilter filterValue page).papers[j]? = some r → "is-hidden" ∈ r.classList) ∧
        (∀ c : String, c ≠ "is-hidden" → c ≠ "is-first-visible" →
          (c ∈ q.classList ↔ c ∈ p.classList))) ∧
    ((∀ q ∈ (applyFilter filterValue page).papers, "is-hidden" ∈ q.classList) →
      ∀ q ∈ (applyFilter filterValue page).papers, "is-first-visible" ∉ q.classList) ∧
    ((∃ q ∈ (applyFilter filterValue page).papers, "is-hidden" ∉ q.classList) →
      ∃ (i : ℕ) (q : Paper), (applyFilter filterValue page).papers[i]? = some q ∧
        "is-first-visible" ∈ q.classList ∧
        ∀ (j : ℕ) (r : Paper), (applyFilter filterValue page).papers[j]? = some r →
          "is-first-visible" ∈ r.classList → j = i) ∧
    (∀ (i : ℕ) (b : Button), page.buttons[i]? = some b →
      ∃ d : Button, (applyFilter filterValue page).buttons[i]? = some d ∧
        d.filter = b.filter ∧
        ("is-active" ∈ d.classList ↔ b.filter = some filterValue) ∧
        d.ariaPressed = some (if b.filter = some filterValue then "true" else "false") ∧
        (∀ c : String, c ≠ "is-active" → (c ∈ d.classList ↔ c ∈ b.classList))) ∧
    applyFilter filterValue (applyFilter filterValue page) = applyFilter filterValue page ∧
    (∀ page2 : Page,
      page2.papers.map Paper.authorship = page.papers.map Paper.authorship →
      page2.buttons.map Button.filter = page.buttons.map Button.filter →
      (∀ (i : ℕ) (q q2 : Paper), (applyFilter filterValue page).papers[i]? = some q →
        (applyFilter filterValue page2).papers[i]? = some q2 →
        ("is-hidden" ∈ q2.classList ↔ "is-hidden" ∈ q.classList) ∧
        ("is-first-visible" ∈ q2.classList ↔ "is-first-visible" ∈ q.classList)) ∧
      (∀ (i : ℕ) (d d2 : Button), (applyFilter filterValue page).buttons[i]? = some d →
        (applyFilter filterValue page2).buttons[i]? = some d2 →
        ("is-active" ∈ d2.classList ↔ "is-active" ∈ d.classList) ∧
        d2.ariaPressed = d.ariaPressed)) := by
  refine ⟨applyFilter_papers_length filterValue page, applyFilter_buttons_length filterValue page,
    ?_, ?_, applyFilter_first_visible_unique filterValue page,
    applyFilter_buttons_get filterValue page, applyFilter_idem filterValue page,
    fun page2 hp hb => applyFilter_independent filterValue page page2 hp hb⟩
  · intro i p hp
    obtain ⟨q, hq, ha, hh, _, hc⟩ := applyFilter_papers_get filterValue page i p hp
    exact ⟨q, hq, ha, hh, applyFilter_first_visible filterValue page i q hq, hc⟩
  · intro hall q hq hf
    obtain ⟨i, hi⟩ := List.mem_iff_getElem?.mp hq
    rw [applyFilter_first_visible filterValue page i q hi] at hf
    exact hf.1 (hall q hq)

/-- Witness for C20: the filter `coauthor` on the example page hides the first and the
third paper, marks the second one as first visible and activates the second button; a
second call changes nothing. -/
theorem C20_applyFilter_semantics_witness :
    applyFilter "coauthor" examplePage =
      { papers :=
          [{ authorship := "first", classList := ["pub", "is-hidden"] },
           { authorship := "coauthor", classList := ["pub", "is-first-visible"] },
           { authorship := "first", classList := ["pub", "is-hidden"] }]
        buttons :=
          [{ filter := some "all", classList := ["pub-filter-btn"],
             ariaPressed := some "false" },
           { filter := some "coauthor", classList := ["pub-filter-btn", "is-active"],
             ariaPressed := some "true" }] } ∧
    applyFilter "coauthor" (applyFilter "coauthor" examplePage) =
      applyFilter "coauthor" examplePage :=
  ⟨by decide, (C20_applyFilter_semantics "coauthor" examplePage).2.2.2.2.2.2.1⟩

end PubFilter
